import Mathlib

/-!
# plexe-sumo: turnaround computation and SUMO network writer

A shallow embedding of `NBTurningDirectionsComputer::compute`
(`src/netbuild/NBAlgorithms.cpp`), of `NWWriter_SUMO`
(`src/netwrite/NWWriter_SUMO.cpp`) and of `NIArcView_Loader::parseBin`
(`src/netimport/arcview/NIArcView_Loader.cpp`), with the properties proved
about them.

Conventions of the embedding
* `NBEdge*` and `NBNode*` are addresses (`EdgePtr`, `NodePtr`); the objects
  live in tables `EdgePtr → NBEdge` and `NodePtr → NBNode`.  The null pointer
  of a connection's `toEdge` is `none`.
* `SUMOReal` is `ℚ`; `unsigned int` counters are `Nat` (they count the
  elements of lists, none of which has 2^32 elements).
* Loops over vectors are folds over lists, in the order of the source.
* The `OutputDevice` is the sequence of the operations performed on it.  A
  `ProcessError` that is thrown and an `assert` that fails are recorded in the
  writer; nothing is written, sorted or warned about after that.
* Classes and functions of the repository that are not in the sources are
  parameters (`TurnEnv`, `WriteEnv`, `LoaderEnv`), or are modelled from the
  spec where the doc comment says so.
-/

namespace PlexeSumo

/-! ## Data model -/

/-- Address of an `NBEdge` object. -/
abbrev EdgePtr := Nat

/-- Address of an `NBNode` object. -/
abbrev NodePtr := Nat

/-- The type `SUMOReal`. -/
abbrev SUMOReal := ℚ

/-- The class `Position`: x and y. -/
abbrev Position := SUMOReal × SUMOReal

/-- The class `PositionVector`: a polyline. -/
abbrev PositionVector := List Position

/-- The struct `NBEdge::Connection`. -/
structure Connection where
  /-- lane of the edge the connection starts at -/
  fromLane : Nat
  /-- destination edge; `none` is the null pointer -/
  toEdge : Option EdgePtr
  /-- lane of the destination edge -/
  toLane : Nat
  /-- id of the controlling traffic light, empty when there is none -/
  tlID : String
  /-- index of the link within the traffic light -/
  tlLinkNo : Nat
  /-- whether the movement is exempt from yielding -/
  mayDefinitelyPass : Bool
  deriving DecidableEq, Repr

/-- The struct `NBEdge::Lane`. -/
structure Lane where
  shape : PositionVector
  speed : SUMOReal
  allowed : List String
  notAllowed : List String
  preferred : List String
  offset : SUMOReal
  width : SUMOReal
  deriving DecidableEq, Repr

/-- The enum `NBEdge::LaneSpreadFunction`. -/
inductive LaneSpreadFunction where
  | LANESPREAD_RIGHT
  | LANESPREAD_CENTER
  deriving DecidableEq, Repr

/-- The members of an `NBEdge` that the two programs read or write. -/
structure NBEdge where
  id : String
  fromNode : NodePtr
  toNode : NodePtr
  streetName : String
  priority : Int
  typeName : String
  macroscopicConnector : Bool
  laneSpreadFunction : LaneSpreadFunction
  defaultGeometry : Bool
  geometry : PositionVector
  speed : SUMOReal
  loadedLength : SUMOReal
  lanes : List Lane
  connections : List Connection
  /-- the member `myTurnDestination`; `none` is the null pointer -/
  turnDestination : Option EdgePtr
  deriving DecidableEq, Repr

/-- Modelled from the spec: the node classification `SumoXMLNodeType`, whose
declaration is not part of the sources (priority junction, traffic light,
dead end, internal). -/
inductive SumoXMLNodeType where
  | NODETYPE_PRIORITY_JUNCTION
  | NODETYPE_TRAFFIC_LIGHT
  | NODETYPE_DEAD_END
  | NODETYPE_INTERNAL
  deriving DecidableEq, Repr

/-- The members of an `NBNode` that the two programs read. -/
structure NBNode where
  id : String
  position : Position
  incoming : List EdgePtr
  outgoing : List EdgePtr
  type : SumoXMLNodeType
  shape : PositionVector
  deriving DecidableEq, Repr

/-- The edge table: the object behind every `NBEdge*`. -/
abbrev EdgeTable := EdgePtr → NBEdge

/-- The node table: the object behind every `NBNode*`. -/
abbrev NodeTable := NodePtr → NBNode

/-- The method `NBEdge::getConnections`. -/
def NBEdge.getConnections (e : NBEdge) : List Connection := e.connections

/-- The method `NBEdge::getNumLanes`. -/
def NBEdge.getNumLanes (e : NBEdge) : Nat := e.lanes.length

/-- Modelled from the spec: `NBEdge::isConnectedTo`, whose body is not part of
the sources; edge `e` "is connected to `o`" when one of its connections has
`o` as destination edge. -/
def NBEdge.isConnectedTo (e : NBEdge) (o : EdgePtr) : Bool :=
  e.connections.any fun c => decide (c.toEdge = some o)

/-- Modelled from the spec: `NBEdge::setTurningDestination`, whose body is not
part of the sources ("set `e.turnaround = o`"): the edge at address `e` gets
`o` as turnaround, nothing else changes. -/
def setTurningDestination (edges : EdgeTable) (e o : EdgePtr) : EdgeTable :=
  Function.update edges e { edges e with turnDestination := some o }

/-! ## `NBTurningDirectionsComputer::compute` -/

/-- The struct `Combination` of `NBAlgorithms.h`: a candidate pair with its
score. -/
structure Combination where
  from_ : EdgePtr
  to_ : EdgePtr
  angle : SUMOReal
  deriving DecidableEq, Repr

/-- What `compute` consults besides the edge objects: the node objects, the
bearing `NBEdge::getAngle(node)` of an edge at a node, `NBHelpers::relAngle`,
and `std::sort` with `combination_by_angle_sorter` (none of them part of the
sources, so they are parameters). -/
structure TurnEnv where
  nodes : NodeTable
  getAngle : EdgePtr → NodePtr → SUMOReal
  relAngle : SUMOReal → SUMOReal → SUMOReal
  sortCombinations : List Combination → List Combination

/-- Lines 57-94 of `compute`: the candidate list of node `n`, outgoing edges
in the outer loop and incoming edges in the inner one. -/
def combinations (env : TurnEnv) (edges : EdgeTable) (n : NodePtr) : List Combination :=
  (env.nodes n).outgoing.flatMap fun outedge =>
    (env.nodes n).incoming.filterMap fun e =>
      if (edges e).getConnections.length ≠ 0 ∧ ¬ (edges e).isConnectedTo outedge = true then
        none
      else
        let angle : SUMOReal := |env.relAngle (env.getAngle e n) (env.getAngle outedge n)|
        if angle < 160 then
          none
        else
          some { from_ := e, to_ := outedge,
                 angle := if (edges e).fromNode = (edges outedge).toNode then angle + 360 else angle }

/-- The variables of the loop of lines 97-113, with the edge objects, the
warnings written so far, and the record `calls` of the calls of
`setTurningDestination` made in the loop (edge, destination). -/
structure AssignState where
  seen : List EdgePtr
  haveWarned : Bool
  edges : EdgeTable
  warnings : List String
  calls : List (EdgePtr × EdgePtr)

/-- The body of the loop of lines 99-113, for the combination `j` at the node
with id `nodeID`. -/
def assignStep (nodeID : String) (s : AssignState) (j : Combination) : AssignState :=
  if j.from_ ∈ s.seen ∨ j.to_ ∈ s.seen then
    if j.angle > 360 ∧ s.haveWarned = false then
      { s with
        warnings := s.warnings ++ ["Ambiguity in turnarounds computation at node '" ++ nodeID ++ "'."]
        haveWarned := true }
    else
      s
  else
    { s with
      seen := j.to_ :: j.from_ :: s.seen
      edges := setTurningDestination s.edges j.from_ j.to_
      calls := s.calls ++ [(j.from_, j.to_)] }

/-- The state of `compute` between two nodes: the edge objects, the warnings,
and for every node processed so far the calls of `setTurningDestination` made
while processing it. -/
structure TurnState where
  edges : EdgeTable
  warnings : List String
  trace : List (NodePtr × List (EdgePtr × EdgePtr))

/-- The body of the loop over the nodes (lines 55-113), for the entry
`(id, node)` of the node container. -/
def computeNode (env : TurnEnv) (st : TurnState) (i : String × NodePtr) : TurnState :=
  let combinations := env.sortCombinations (combinations env st.edges i.2)
  let r := combinations.foldl (assignStep i.1)
    { seen := [], haveWarned := false, edges := st.edges, warnings := st.warnings, calls := [] }
  { edges := r.edges, warnings := r.warnings, trace := st.trace ++ [(i.2, r.calls)] }

/-- The function `NBTurningDirectionsComputer::compute`; the node container is
the list of its entries in the order of the map, `edges` are the edge objects
when it is called.  The result holds the edge objects when it returns, the
warnings it wrote and the calls of `setTurningDestination` it made. -/
def compute (env : TurnEnv) (nc : List (String × NodePtr)) (edges : EdgeTable) : TurnState :=
  nc.foldl (computeNode env) { edges := edges, warnings := [], trace := [] }

/-- Modelled from the spec: the order `combination_by_angle_sorter` of
`NBAlgorithms.h`, which is not part of the sources ("sort all surviving
candidates by descending score"). -/
def combination_by_angle_sorter (c1 c2 : Combination) : Prop := c1.angle ≥ c2.angle

instance : DecidableRel combination_by_angle_sorter := fun c1 c2 =>
  inferInstanceAs (Decidable (c1.angle ≥ c2.angle))

/-- What the call of `std::sort` in line 96 guarantees: the result is a
rearrangement of the argument in which scores never increase. -/
def SortsByAngle (srt : List Combination → List Combination) : Prop :=
  ∀ l, (srt l).Perm l ∧ (srt l).Pairwise combination_by_angle_sorter

/-- A sorting function with the guarantee `SortsByAngle`. -/
def sortByAngle (l : List Combination) : List Combination :=
  l.insertionSort combination_by_angle_sorter

/-! ### Auxiliary definitions for the proofs about `compute` -/

/-- The calls the loop of lines 99-113 makes on the sorted list `cs` when it
starts with the set `seen`. -/
def greedy : List EdgePtr → List Combination → List (EdgePtr × EdgePtr)
  | _, [] => []
  | seen, j :: cs =>
    if j.from_ ∈ seen ∨ j.to_ ∈ seen then greedy seen cs
    else (j.from_, j.to_) :: greedy (j.to_ :: j.from_ :: seen) cs

/-- The edge objects after a sequence of calls of `setTurningDestination`. -/
def applyCalls (edges : EdgeTable) (calls : List (EdgePtr × EdgePtr)) : EdgeTable :=
  calls.foldl (fun t c => setTurningDestination t c.1 c.2) edges

/-- An edge object with its turnaround forgotten. -/
def eraseTurn (e : NBEdge) : NBEdge := { e with turnDestination := none }

/-- Two edge tables that differ at most in the turnarounds. -/
def SameButTurn (a b : EdgeTable) : Prop := ∀ p, eraseTurn (a p) = eraseTurn (b p)

/-- The turnaround of edge `p` after the calls `calls`, when it was `d`. -/
def turnAfter (p : EdgePtr) (calls : List (EdgePtr × EdgePtr)) (d : Option EdgePtr) :
    Option EdgePtr :=
  calls.foldl (fun d c => if c.1 = p then some c.2 else d) d

/-- All calls of a trace, in order. -/
def allCalls (trace : List (NodePtr × List (EdgePtr × EdgePtr))) : List (EdgePtr × EdgePtr) :=
  trace.flatMap Prod.snd

/-- The calls `compute` makes at every node of the container, computed from
the edge objects `edges` it is called with. -/
def traceOf (env : TurnEnv) (edges : EdgeTable) (nc : List (String × NodePtr)) :
    List (NodePtr × List (EdgePtr × EdgePtr)) :=
  nc.map fun i => (i.2, greedy [] (env.sortCombinations (combinations env edges i.2)))

/-! ### Concrete inputs for `compute` -/

/-- Modelled from the spec: `NBHelpers::relAngle`, which is not part of the
sources: the signed difference of two bearings brought into (-180, 180], for
bearings less than a full turn apart. -/
def relAngle (angle1 angle2 : SUMOReal) : SUMOReal :=
  if angle2 - angle1 > 180 then angle2 - angle1 - 360
  else if angle2 - angle1 ≤ -180 then angle2 - angle1 + 360
  else angle2 - angle1

/-- A connection from lane `fromLane` to lane `toLane` of `toEdge`, without
traffic light. -/
def mkConnection (fromLane : Nat) (toEdge : Option EdgePtr) (toLane : Nat) : Connection :=
  { fromLane := fromLane, toEdge := toEdge, toLane := toLane, tlID := "", tlLinkNo := 0,
    mayDefinitelyPass := false }

/-- A lane of speed `speed` without restrictions and without end offset. -/
def mkLane (speed : SUMOReal) : Lane :=
  { shape := [(0, 0), (100, 0)], speed := speed, allowed := [], notAllowed := [],
    preferred := [], offset := 0, width := 0 }

/-- An edge `id` from node `fromNode` to node `toNode` with `lanes` lanes and
the connections `connections`. -/
def mkEdge (id : String) (fromNode toNode : NodePtr) (lanes : Nat)
    (connections : List Connection) : NBEdge :=
  { id := id, fromNode := fromNode, toNode := toNode, streetName := "", priority := 1,
    typeName := "", macroscopicConnector := false,
    laneSpreadFunction := LaneSpreadFunction.LANESPREAD_RIGHT, defaultGeometry := true,
    geometry := [], speed := 10, loadedLength := 100, lanes := List.replicate lanes (mkLane 10),
    connections := connections, turnDestination := none }

/-- A node `id` with the given incoming and outgoing edges. -/
def mkNode (id : String) (incoming outgoing : List EdgePtr) : NBNode :=
  { id := id, position := (0, 0), incoming := incoming, outgoing := outgoing,
    type := SumoXMLNodeType.NODETYPE_PRIORITY_JUNCTION, shape := [] }

/-- A crossing: node 0 with the incoming edges 1 (from node 1) and 3 (from
node 2) and the outgoing edges 2 (to node 1) and 4 (to node 2); no
connections are set. -/
def crossingEdges : EdgeTable := fun p =>
  if p = 1 then mkEdge "1" 1 0 1 []
  else if p = 2 then mkEdge "2" 0 1 1 []
  else if p = 3 then mkEdge "3" 2 0 1 []
  else mkEdge "4" 0 2 1 []

/-- The environment of the crossing: edges 1 and 3 arrive with bearings 0 and
90, edges 2 and 4 leave with bearings 180 and 270. -/
def crossingEnv : TurnEnv :=
  { nodes := fun _ => mkNode "0" [1, 3] [2, 4]
    getAngle := fun p _ => if p = 1 then 0 else if p = 2 then 180 else if p = 3 then 90 else 270
    relAngle := relAngle
    sortCombinations := sortByAngle }

/-- Node 0 with the incoming edge 1 (from node 1), which is connected to the
outgoing edge 3 (to node 2) only, and the outgoing edge 2 back to node 1. -/
def connectedEdges : EdgeTable := fun p =>
  if p = 1 then mkEdge "1" 1 0 1 [mkConnection 0 (some 3) 0]
  else if p = 2 then mkEdge "2" 0 1 1 []
  else mkEdge "3" 0 2 1 []

/-- The environment of `connectedEdges`: edge 1 arrives with bearing 0, edge 2
leaves with bearing 180 and edge 3 with bearing 90. -/
def connectedEnv : TurnEnv :=
  { nodes := fun _ => mkNode "0" [1] [2, 3]
    getAngle := fun p _ => if p = 1 then 0 else if p = 2 then 180 else 90
    relAngle := relAngle
    sortCombinations := sortByAngle }

/-- The XML elements the writer opens. -/
inductive SumoXMLTag where
  | SUMO_TAG_LOCATION
  | SUMO_TAG_EDGE
  | SUMO_TAG_LANE
  | SUMO_TAG_TLLOGIC
  | SUMO_TAG_PHASE
  | SUMO_TAG_JUNCTION
  | SUMO_TAG_CONNECTION
  | SUMO_TAG_ROUNDABOUT
  | SUMO_TAG_TAZ
  | SUMO_TAG_TAZSOURCE
  | SUMO_TAG_TAZSINK
  deriving DecidableEq, Repr

/-- The XML attributes the writer names through the enum. -/
inductive SumoXMLAttr where
  | SUMO_ATTR_NAME
  | SUMO_ATTR_SHAPE
  | SUMO_ATTR_FROM
  | SUMO_ATTR_TO
  | SUMO_ATTR_LANE
  | SUMO_ATTR_VIA
  | SUMO_ATTR_TLID
  | SUMO_ATTR_TLLINKINDEX
  | SUMO_ATTR_DIR
  | SUMO_ATTR_STATE
  deriving DecidableEq, Repr

/-- Modelled from the spec: the enum `LinkDirection`, whose declaration is not
part of the sources (straight, left, right, turn, partial-left, partial-right,
and the "no direction" value). -/
inductive LinkDirection where
  | LINKDIR_STRAIGHT
  | LINKDIR_TURN
  | LINKDIR_LEFT
  | LINKDIR_RIGHT
  | LINKDIR_PARTLEFT
  | LINKDIR_PARTRIGHT
  | LINKDIR_NODIR
  deriving DecidableEq, Repr

/-- The class `Boundary`. -/
structure Boundary where
  xmin : SUMOReal
  ymin : SUMOReal
  xmax : SUMOReal
  ymax : SUMOReal
  deriving DecidableEq, Repr

/-- One operation on the `OutputDevice`.  The class is not part of the
sources, so the device is the sequence of the operations performed on it.
Adjacent operands of one output statement that are strings, characters or
integers are one `str`; an integer is written in decimal. -/
inductive Item where
  /-- the call `writeXMLHeader(rootElement, attrs)` -/
  | writeXMLHeader (rootElement attrs : String)
  /-- the call `openTag(tag)` -/
  | openTag (tag : SumoXMLTag)
  /-- the call `closeTag(abbreviated)` -/
  | closeTag (abbreviated : Bool)
  /-- the call `writeAttr(attr, value)` -/
  | writeAttr (attr : SumoXMLAttr) (value : String)
  /-- text -/
  | str (s : String)
  /-- an attribute enum written with `<<` -/
  | attrName (attr : SumoXMLAttr)
  /-- a `SUMOReal` written with `<<` -/
  | real (x : SUMOReal)
  /-- a `Position` written with `<<` -/
  | position (p : Position)
  /-- a `PositionVector` written with `<<` -/
  | positionVector (v : PositionVector)
  /-- a `Boundary` written with `<<` -/
  | boundary (b : Boundary)
  /-- the call `setPrecision(GEO_OUTPUT_ACCURACY)` (`true`) or `setPrecision()` -/
  | setPrecision (geo : Bool)
  /-- the call `close()` -/
  | close
  deriving DecidableEq, Repr

/-- The class `OutputDevice`. -/
abbrev OutputDevice := List Item

/-- The options the writer reads from the `OptionsCont`. -/
structure OptionsCont where
  /-- the value of "output-file" when it is set -/
  output_file : Option String
  /-- the value of "no-internal-links" -/
  no_internal_links : Bool
  /-- the value of "output.no-names" -/
  output_no_names : Bool
  deriving DecidableEq, Repr

/-- A phase of a traffic light program, `NBTrafficLightLogic::PhaseDefinition`. -/
structure PhaseDefinition where
  duration : Int
  state : String
  deriving DecidableEq, Repr

/-- The members of an `NBTrafficLightLogic` that the writer reads. -/
structure NBTrafficLightLogic where
  id : String
  programID : String
  offset : Int
  phases : List PhaseDefinition
  deriving DecidableEq, Repr

/-- The members of an `NBDistrict` that the writer reads. -/
structure NBDistrict where
  id : String
  shape : PositionVector
  sourceEdges : List EdgePtr
  sourceWeights : List SUMOReal
  sinkEdges : List EdgePtr
  sinkWeights : List SUMOReal
  deriving DecidableEq, Repr

/-- The containers of the `NBNetBuilder`: the node, edge and district maps as
the lists of their entries in the order of the maps, the computed traffic
light programs, and the roundabouts, each the list of its edges in the order
of the set. -/
structure NBNetBuilder where
  nodeCont : List (String × NodePtr)
  edgeCont : List (String × EdgePtr)
  tlLogics : List NBTrafficLightLogic
  districtCont : List (String × NBDistrict)
  roundabouts : List (List EdgePtr)

/-- What the writer consults besides the edge objects, none of it part of the
sources: the node objects, the global options, the queries of an `NBNode`
that the right-of-way engine answers (arguments: node, incoming edge, lane,
destination edge, destination lane), the geometry helpers, the constants, the
`toString` conversions, `GeoConvHelper`, and `VectorHelper::normaliseSum`. -/
structure WriteEnv where
  nodes : NodeTable
  /-- the options behind `OptionsCont::getOptions()` -/
  options : OptionsCont
  /-- the first component of `NBNode::getCrossingPosition` -/
  getCrossingPosition : NodePtr → EdgePtr → Nat → EdgePtr → Nat → SUMOReal
  computeInternalLaneShape : NodePtr → EdgePtr → Nat → EdgePtr → Nat → PositionVector
  getCrossingSourcesNames_dividedBySpace : NodePtr → EdgePtr → Nat → EdgePtr → Nat → String
  getCrossingNames_dividedBySpace : NodePtr → EdgePtr → Nat → EdgePtr → Nat → String
  getInternalLaneID : NodePtr → EdgePtr → Nat → EdgePtr → Nat → String
  getDirection : NodePtr → EdgePtr → EdgePtr → LinkDirection
  stateCode : NodePtr → EdgePtr → EdgePtr → Nat → Bool → String
  /-- what `NBNode::writeLogic(into)` writes -/
  writeLogic : NodePtr → List Item
  /-- the method `PositionVector::length` -/
  length : PositionVector → SUMOReal
  /-- the method `PositionVector::splitAt` -/
  splitAt : PositionVector → SUMOReal → PositionVector × PositionVector
  /-- the method `PositionVector::getSubpart` -/
  getSubpart : PositionVector → SUMOReal → SUMOReal → PositionVector
  /-- the method `PositionVector::positionAtLengthPosition` -/
  positionAtLengthPosition : PositionVector → SUMOReal → Position
  /-- the method `Position::distanceTo` -/
  distanceTo : Position → Position → SUMOReal
  POSITION_EPS : SUMOReal
  PI : SUMOReal
  /-- the `toString` of a `SUMOReal` -/
  toStringReal : SUMOReal → String
  /-- the `toString` of a `PositionVector` -/
  toStringPositionVector : PositionVector → String
  /-- the `toString` of a node type -/
  toStringNodeType : SumoXMLNodeType → String
  /-- the `toString` of a lane spread function -/
  toStringLaneSpread : LaneSpreadFunction → String
  /-- the `toString` of a link direction -/
  toStringLinkDirection : LinkDirection → String
  /-- the string `toString(LINKSTATE_TL_OFF_BLINKING)` -/
  LINKSTATE_TL_OFF_BLINKING : String
  getVehicleClassNames : List String → String
  /-- the method `NBEdge::getLaneID` of the edge at the given address -/
  getLaneID : EdgePtr → Nat → String
  /-- the function `GeoConvHelper::getOffsetBase` -/
  getOffsetBase : Position
  /-- the function `GeoConvHelper::getConvBoundary` -/
  getConvBoundary : Boundary
  /-- the function `GeoConvHelper::getOrigBoundary` -/
  getOrigBoundary : Boundary
  /-- the function `GeoConvHelper::usingGeoProjection` -/
  usingGeoProjection : Bool
  /-- the function `GeoConvHelper::getProjString` -/
  getProjString : String
  /-- the function `VectorHelper<SUMOReal>::normaliseSum(v, msum)` -/
  normaliseSum : List SUMOReal → SUMOReal → List SUMOReal

/-- The effects of the writer: the output device, the warnings written with
`WRITE_WARNING`, and the `ProcessError` thrown or the assertion that failed,
if any.  Nothing happens any more once `failure` is set: every effect below
is skipped then. -/
structure Writer where
  into : OutputDevice
  warnings : List String
  failure : Option String
  deriving DecidableEq, Repr

/-- Append `items` to the output device. -/
def Writer.put (w : Writer) (items : List Item) : Writer :=
  if w.failure.isSome then w else { w with into := w.into ++ items }

/-- The macro `WRITE_WARNING`. -/
def Writer.warn (w : Writer) (msg : String) : Writer :=
  if w.failure.isSome then w else { w with warnings := w.warnings ++ [msg] }

/-- A `throw ProcessError(msg)`, or an `assert` that fails. -/
def Writer.fail (w : Writer) (msg : String) : Writer :=
  if w.failure.isSome then w else { w with failure := some msg }

/-- Modelled from the spec: the order of `NBEdge::sortOutgoingConnectionsByIndex`,
whose body is not part of the sources ("stably sorting its outgoing
connections by their stored index"): by the lane the connection starts at. -/
def connections_sorter (c1 c2 : Connection) : Prop := c1.fromLane ≤ c2.fromLane

instance : DecidableRel connections_sorter := fun c1 c2 =>
  inferInstanceAs (Decidable (c1.fromLane ≤ c2.fromLane))

/-- Modelled from the spec: the stable sort of a connection list by the lane
the connections start at. -/
def sortConnections (l : List Connection) : List Connection :=
  l.insertionSort connections_sorter

/-- Modelled from the spec: the method `NBEdge::sortOutgoingConnectionsByIndex`
called on the edge at address `e`: its connection list is replaced by the
sorted one. -/
def sortOutgoingConnectionsByIndex (edges : EdgeTable) (e : EdgePtr) : EdgeTable :=
  Function.update edges e { edges e with connections := sortConnections (edges e).connections }

/-- Modelled from the spec: the method `NBEdge::getConnectionsFromLane`, whose
body is not part of the sources ("that lane's connections in their stored
order"). -/
def NBEdge.getConnectionsFromLane (e : NBEdge) (lane : Nat) : List Connection :=
  e.connections.filter fun c => decide (c.fromLane = lane)

/-- Modelled from the spec: the method `NBNode::countInternalLanes(false)`,
whose body is not part of the sources ("the total count of (incoming-lane,
connection) pairs at this node that do have connections to a real destination
edge"). -/
def countInternalLanes (nodes : NodeTable) (edges : EdgeTable) (n : NodePtr) : Nat :=
  (nodes n).incoming.foldl (fun lno i =>
    (List.range (edges i).getNumLanes).foldl (fun lno j =>
      ((edges i).getConnectionsFromLane j).foldl (fun lno k =>
        if k.toEdge = none then lno else lno + 1) lno) lno) 0

/-- The template `MAX2` of `StdDefs.h`. -/
def MAX2 (a b : SUMOReal) : SUMOReal := if a > b then a else b

/-- The template `MIN2` of `StdDefs.h`. -/
def MIN2 (a b : SUMOReal) : SUMOReal := if a < b then a else b

/-- The method `NBEdge::getLaneShape`. -/
def NBEdge.getLaneShape (e : NBEdge) (j : Nat) : PositionVector :=
  (e.lanes.getD j (mkLane 0)).shape

/-- The method `PositionVector::getBegin`. -/
def getBegin (v : PositionVector) : Position := v.headD (0, 0)

/-- The method `PositionVector::getEnd`. -/
def getEnd (v : PositionVector) : Position := v.getLastD (0, 0)

/-! ## `NWWriter_SUMO`: internal edges -/

/-- The function `NWWriter_SUMO::writeInternalEdge`. -/
def writeInternalEdge (env : WriteEnv) (into : Writer) (id : String) (vmax : SUMOReal)
    (shape : PositionVector) : Writer :=
  let length := MAX2 (env.length shape) env.POSITION_EPS
  let into := into.put [Item.openTag SumoXMLTag.SUMO_TAG_EDGE,
    Item.str (" id=\"" ++ id ++ "\" function=\"internal\">\n")]
  let into := into.put [Item.openTag SumoXMLTag.SUMO_TAG_LANE,
    Item.str (" id=\"" ++ id ++ "_0\" index=\"0\" " ++ "maxSpeed=\""), Item.real vmax,
    Item.str ("\" " ++ "length=\"" ++ env.toStringReal length ++ "\" " ++ "shape=\""),
    Item.positionVector shape, Item.str "\""]
  let into := into.put [Item.closeTag true]
  into.put [Item.closeTag false]

set_option linter.unusedVariables false in
/-- Lines 203-208 of `writeInternalEdges`: the maximum speed of the internal
lane from lane `j` of edge `i` to lane `toLane` of edge `toEdge`. -/
def internalVmax (env : WriteEnv) (edges : EdgeTable) (i : EdgePtr) (j : Nat) (toEdge : EdgePtr)
    (toLane : Nat) : SUMOReal :=
  let vmax : SUMOReal := 0.3 * 9.80778 *
    env.distanceTo (getEnd ((edges i).getLaneShape j))
      (getBegin ((edges toEdge).getLaneShape toLane)) / 2.0 / env.PI
  let vmax := MIN2 vmax (((edges i).speed + (edges toEdge).speed) / 2.0)
  let vmax := ((edges i).speed + (edges toEdge).speed) / 2.0
  vmax

/-- The variables `lno`, `splitNo` and `ret` of `writeInternalEdges`,
`writeInternalNodes` and `writeInternalConnections`, with the effects. -/
structure InternalVars where
  lno : Nat
  splitNo : Nat
  ret : Bool
  into : Writer
  deriving DecidableEq, Repr

/-- The body of the innermost loop of `writeInternalEdges` (lines 198-226),
for the connection `k` of lane `j` of the incoming edge `i`. -/
def writeInternalEdges_body (env : WriteEnv) (edges : EdgeTable) (n : NodePtr)
    (noInternalNoSplits : Nat) (innerID : String) (i : EdgePtr) (j : Nat)
    (v : InternalVars) (k : Connection) : InternalVars :=
  match k.toEdge with
  | none => v
  | some toEdge =>
    let vmax := internalVmax env edges i j toEdge k.toLane
    let shape := env.computeInternalLaneShape n i j toEdge k.toLane
    let into := if shape.length ≥ 2 then v.into else v.into.fail "assert(shape.size() >= 2)"
    let cross := env.getCrossingPosition n i j toEdge k.toLane
    if cross ≥ 0 then
      let split := env.splitAt shape cross
      let into := writeInternalEdge env into (innerID ++ "_" ++ toString v.lno) vmax split.1
      let into := writeInternalEdge env into
        (innerID ++ "_" ++ toString (v.splitNo + noInternalNoSplits)) vmax split.2
      { lno := v.lno + 1, splitNo := v.splitNo + 1, ret := true, into := into }
    else
      let into := writeInternalEdge env into (innerID ++ "_" ++ toString v.lno) vmax shape
      { lno := v.lno + 1, splitNo := v.splitNo, ret := true, into := into }

/-- The three nested loops that `writeInternalEdges`, `writeJunction` and
`writeInternalNodes` share: over the incoming edges of the node, over the
lanes of the edge by index, and over the connections from the lane, with the
loop body `body i j` run on every connection. -/
def forIncomingLaneConnections {σ : Type} (nodes : NodeTable) (edges : EdgeTable) (n : NodePtr)
    (body : EdgePtr → Nat → σ → Connection → σ) (init : σ) : σ :=
  (nodes n).incoming.foldl (fun v i =>
    (List.range (edges i).getNumLanes).foldl (fun v j =>
      ((edges i).getConnectionsFromLane j).foldl (body i j) v) v) init

/-- The function `NWWriter_SUMO::writeInternalEdges`; the result is the
returned flag and the effects. -/
def writeInternalEdges (env : WriteEnv) (edges : EdgeTable) (into : Writer) (n : NodePtr) :
    Bool × Writer :=
  let noInternalNoSplits := countInternalLanes env.nodes edges n
  if noInternalNoSplits = 0 then
    (false, into)
  else
    let innerID := ":" ++ (env.nodes n).id
    let v := forIncomingLaneConnections env.nodes edges n
      (writeInternalEdges_body env edges n noInternalNoSplits innerID)
      { lno := 0, splitNo := 0, ret := false, into := into }
    (v.ret, v.into)

/-! ## `NWWriter_SUMO`: edges and lanes -/

/-- The function `NWWriter_SUMO::writeLane`. -/
def writeLane (env : WriteEnv) (into : Writer) (eID lID : String) (lane : Lane)
    (length : SUMOReal) (index : Nat) : Writer :=
  let into := into.put [Item.openTag SumoXMLTag.SUMO_TAG_LANE, Item.str (" id=\"" ++ lID ++ "\"")]
  let into := into.put [Item.str (" index=\"" ++ toString index ++ "\"")]
  let into := if lane.allowed.length > 0 then
      into.put [Item.str (" allow=\"" ++ env.getVehicleClassNames lane.allowed ++ "\"")]
    else into
  let into := if lane.notAllowed.length > 0 then
      into.put [Item.str (" disallow=\"" ++ env.getVehicleClassNames lane.notAllowed ++ "\"")]
    else into
  let into := if lane.preferred.length > 0 then
      into.put [Item.str (" prefer=\"" ++ env.getVehicleClassNames lane.preferred ++ "\"")]
    else into
  let into := if lane.speed = 0 then
      into.warn ("Lane #" ++ toString index ++ " of edge '" ++ eID ++
        "' has a maximum velocity of 0.")
    else if lane.speed < 0 then
      into.fail ("Negative velocity (" ++ env.toStringReal lane.speed ++ " on edge '" ++ eID ++
        "' lane#" ++ toString index ++ ".")
    else into
  let length := if lane.offset > 0 then length - lane.offset else length
  let into := into.put [Item.str " maxSpeed=\"", Item.real lane.speed, Item.str "\" length=\"",
    Item.real length, Item.str "\""]
  let into := if lane.offset > 0 then
      into.put [Item.str " endOffset=\"", Item.real lane.offset, Item.str "\""]
    else into
  let into := if lane.width > 0 then
      into.put [Item.str " width=\"", Item.real lane.width, Item.str "\""]
    else into
  let shape := lane.shape
  let shape := if lane.offset > 0 then
      env.getSubpart shape 0 (env.length shape - lane.offset)
    else shape
  let into := into.put [Item.str " shape=\"", Item.positionVector shape, Item.str "\""]
  into.put [Item.closeTag true]

/-- The function `NWWriter_SUMO::writeEdge`, for the edge at address `e`. -/
def writeEdge (env : WriteEnv) (edges : EdgeTable) (into : Writer) (e : EdgePtr)
    (noNames : Bool) : Writer :=
  let into := into.put [Item.openTag SumoXMLTag.SUMO_TAG_EDGE,
    Item.str (" id=\"" ++ (edges e).id ++ "\" from=\"" ++ (env.nodes (edges e).fromNode).id ++
      "\" to=\"" ++ (env.nodes (edges e).toNode).id)]
  let into := if noNames = false ∧ (edges e).streetName ≠ "" then
      into.put [Item.str "\" ", Item.attrName SumoXMLAttr.SUMO_ATTR_NAME,
        Item.str ("=\"" ++ (edges e).streetName)]
    else into
  let into := into.put [Item.str ("\" priority=\"" ++ toString (edges e).priority ++ "\"")]
  let into := if (edges e).typeName ≠ "" then
      into.put [Item.str (" type=\"" ++ (edges e).typeName ++ "\"")]
    else into
  let into := if (edges e).macroscopicConnector then
      into.put [Item.str " function=\"connector\""]
    else into
  let into := if (edges e).laneSpreadFunction ≠ LaneSpreadFunction.LANESPREAD_RIGHT then
      into.put [Item.str (" spreadType=\"" ++
        env.toStringLaneSpread (edges e).laneSpreadFunction ++ "\"")]
    else into
  let into := if (edges e).defaultGeometry = false then
      into.put [Item.str " ", Item.attrName SumoXMLAttr.SUMO_ATTR_SHAPE,
        Item.str ("=\"" ++ env.toStringPositionVector (edges e).geometry ++ "\"")]
    else into
  let into := into.put [Item.str ">\n"]
  let lanes := (edges e).lanes
  let length := (edges e).loadedLength
  let length : SUMOReal := if length ≤ 0 then 0.1 else length
  let into := (List.range lanes.length).foldl (fun into i =>
    writeLane env into (edges e).id (env.getLaneID e i) (lanes.getD i (mkLane 0)) length i) into
  into.put [Item.closeTag false]

/-! ## `NWWriter_SUMO`: junctions -/

/-- Lines 342-351 of `writeJunction`: the loop that writes the incoming lanes;
the first argument is what is left of `incoming` from the iterator `i` on. -/
def writeIncLanes (edges : EdgeTable) : List EdgePtr → Writer → Writer
  | [], into => into
  | i :: rest, into =>
    let noLanes := (edges i).getNumLanes
    let id := (edges i).id
    let into := (List.range noLanes).foldl (fun into j =>
      let into := into.put [Item.str (id ++ "_" ++ toString j)]
      if rest ≠ [] ∨ j < noLanes - 1 then into.put [Item.str " "] else into) into
    writeIncLanes edges rest into

/-- The variables `l` and `o` of `writeJunction`, with the effects. -/
structure JunctionVars where
  l : Nat
  o : Nat
  into : Writer
  deriving DecidableEq, Repr

/-- The body of the innermost loop of `writeJunction` (lines 363-376), for the
connection `k` of lane `j` of the incoming edge `i`. -/
def writeJunction_body (env : WriteEnv) (n : NodePtr) (i : EdgePtr) (j : Nat)
    (v : JunctionVars) (k : Connection) : JunctionVars :=
  match k.toEdge with
  | none => v
  | some toEdge =>
    let into := if v.l ≠ 0 then v.into.put [Item.str " "] else v.into
    let cross := env.getCrossingPosition n i j toEdge k.toLane
    if cross ≤ 0 then
      let into := into.put [Item.str (":" ++ (env.nodes n).id ++ "_" ++ toString v.l ++ "_0")]
      { l := v.l + 1, o := v.o, into := into }
    else
      let into := into.put [Item.str (":" ++ (env.nodes n).id ++ "_" ++ toString v.o ++ "_0")]
      { l := v.l + 1, o := v.o + 1, into := into }

/-- The function `NWWriter_SUMO::writeJunction`. -/
def writeJunction (env : WriteEnv) (edges : EdgeTable) (into : Writer) (n : NodePtr) : Writer :=
  let into := into.put [Item.openTag SumoXMLTag.SUMO_TAG_JUNCTION,
    Item.str (" id=\"" ++ (env.nodes n).id ++ "\"")]
  let incoming := (env.nodes n).incoming
  let type := if incoming.any (fun i => decide ((edges i).getConnections.length > 0))
    then (env.nodes n).type else SumoXMLNodeType.NODETYPE_DEAD_END
  let into := into.put [Item.str (" type=\"" ++ env.toStringNodeType type ++ "\"")]
  let into := into.put [Item.str " x=\"", Item.real (env.nodes n).position.1, Item.str "\" y=\"",
    Item.real (env.nodes n).position.2, Item.str "\""]
  let into := into.put [Item.str " incLanes=\""]
  let into := writeIncLanes edges incoming into
  let into := into.put [Item.str "\""]
  let into := into.put [Item.str " intLanes=\""]
  let into := if env.options.no_internal_links = false then
      (forIncomingLaneConnections env.nodes edges n (writeJunction_body env n)
        { l := 0, o := countInternalLanes env.nodes edges n, into := into }).into
    else into
  let into := into.put [Item.str "\""]
  let into := into.put [Item.str " shape=\"", Item.positionVector (env.nodes n).shape,
    Item.str "\">\n"]
  let into := into.put (env.writeLogic n)
  into.put [Item.closeTag false]

/-- The body of the innermost loop of `writeInternalNodes` (lines 407-436),
for the connection `k` of lane `j` of the incoming edge `i`. -/
def writeInternalNodes_body (env : WriteEnv) (n : NodePtr) (noInternalNoSplits : Nat)
    (innerID : String) (i : EdgePtr) (j : Nat) (v : InternalVars) (k : Connection) :
    InternalVars :=
  match k.toEdge with
  | none => v
  | some toEdge =>
    let cross := env.getCrossingPosition n i j toEdge k.toLane
    if cross ≤ 0 then
      { v with lno := v.lno + 1 }
    else
      let sid := innerID ++ "_" ++ toString (v.splitNo + noInternalNoSplits) ++ "_0"
      let iid := innerID ++ "_" ++ toString v.lno ++ "_0"
      let shape := env.computeInternalLaneShape n i j toEdge k.toLane
      let pos := env.positionAtLengthPosition shape cross
      let into := v.into.put [Item.openTag SumoXMLTag.SUMO_TAG_JUNCTION,
        Item.str (" id=\"" ++ sid ++ "\"")]
      let into := into.put [Item.str (" type=\"" ++
        env.toStringNodeType SumoXMLNodeType.NODETYPE_INTERNAL ++ "\"")]
      let into := into.put [Item.str " x=\"", Item.real pos.1, Item.str "\" y=\"",
        Item.real pos.2, Item.str "\""]
      let into := into.put [Item.str " incLanes=\""]
      let furtherIncoming := env.getCrossingSourcesNames_dividedBySpace n i j toEdge k.toLane
      let into := if furtherIncoming.length ≠ 0 then
          into.put [Item.str (iid ++ " " ++ furtherIncoming)]
        else into.put [Item.str iid]
      let into := into.put [Item.str "\""]
      let into := into.put [Item.str (" intLanes=\"" ++
        env.getCrossingNames_dividedBySpace n i j toEdge k.toLane ++ "\"")]
      let into := into.put [Item.str " shape=\"\""]
      let into := into.put [Item.closeTag true]
      { lno := v.lno + 1, splitNo := v.splitNo + 1, ret := true, into := into }

/-- The function `NWWriter_SUMO::writeInternalNodes`. -/
def writeInternalNodes (env : WriteEnv) (edges : EdgeTable) (into : Writer) (n : NodePtr) :
    Bool × Writer :=
  let noInternalNoSplits := countInternalLanes env.nodes edges n
  if noInternalNoSplits = 0 then
    (false, into)
  else
    let innerID := ":" ++ (env.nodes n).id
    let v := forIncomingLaneConnections env.nodes edges n
      (writeInternalNodes_body env n noInternalNoSplits innerID)
      { lno := 0, splitNo := 0, ret := false, into := into }
    (v.ret, v.into)

/-! ## `NWWriter_SUMO`: connections -/

/-- The function `NWWriter_SUMO::writeConnection`, for a connection `c` of the
edge at address `from_`. -/
def writeConnection (env : WriteEnv) (edges : EdgeTable) (into : Writer) (from_ : EdgePtr)
    (c : Connection) (includeInternal : Bool) (plain : Bool) : Writer :=
  match c.toEdge with
  | none => into.fail "assert(c.toEdge != 0)"
  | some toEdge =>
    let into := into.put [Item.openTag SumoXMLTag.SUMO_TAG_CONNECTION]
    let into := into.put [Item.writeAttr SumoXMLAttr.SUMO_ATTR_FROM (edges from_).id]
    let into := into.put [Item.writeAttr SumoXMLAttr.SUMO_ATTR_TO (edges toEdge).id]
    let into := into.put [Item.str " ", Item.attrName SumoXMLAttr.SUMO_ATTR_LANE,
      Item.str ("=\"" ++ toString c.fromLane ++ ":" ++ toString c.toLane ++ "\"")]
    let into := if plain = false then
        let into := if includeInternal then
            into.put [Item.writeAttr SumoXMLAttr.SUMO_ATTR_VIA
              (env.getInternalLaneID (edges from_).toNode from_ c.fromLane toEdge c.toLane ++ "_0")]
          else into
        let into := if c.tlID ≠ "" then
            let into := into.put [Item.writeAttr SumoXMLAttr.SUMO_ATTR_TLID c.tlID]
            into.put [Item.writeAttr SumoXMLAttr.SUMO_ATTR_TLLINKINDEX (toString c.tlLinkNo)]
          else into
        let dir := env.getDirection (edges from_).toNode from_ toEdge
        let into := if dir ≠ LinkDirection.LINKDIR_NODIR then into
          else into.fail "assert(dir != LINKDIR_NODIR)"
        let into := into.put [Item.writeAttr SumoXMLAttr.SUMO_ATTR_DIR
          (env.toStringLinkDirection dir)]
        let stateCode := if c.tlID ≠ "" then env.LINKSTATE_TL_OFF_BLINKING
          else env.stateCode (edges from_).toNode from_ toEdge c.toLane c.mayDefinitelyPass
        into.put [Item.writeAttr SumoXMLAttr.SUMO_ATTR_STATE stateCode]
      else into
    into.put [Item.closeTag true]

/-- The function `NWWriter_SUMO::writeInternalConnection`. -/
def writeInternalConnection (into : Writer) (from_ to_ : String) (toLane : Nat) (via : String) :
    Writer :=
  let into := into.put [Item.openTag SumoXMLTag.SUMO_TAG_CONNECTION]
  let into := into.put [Item.writeAttr SumoXMLAttr.SUMO_ATTR_FROM from_]
  let into := into.put [Item.writeAttr SumoXMLAttr.SUMO_ATTR_TO to_]
  let into := into.put [Item.str " ", Item.attrName SumoXMLAttr.SUMO_ATTR_LANE,
    Item.str ("=\"0:" ++ toString toLane ++ "\"")]
  let into := if via ≠ "" then into.put [Item.writeAttr SumoXMLAttr.SUMO_ATTR_VIA via] else into
  let into := into.put [Item.writeAttr SumoXMLAttr.SUMO_ATTR_DIR "s"]
  let into := into.put [Item.writeAttr SumoXMLAttr.SUMO_ATTR_STATE "M"]
  into.put [Item.closeTag true]

/-- The body of the inner loop of `writeInternalConnections` (lines 496-512),
for the connection `c` of the incoming edge `from_`. -/
def writeInternalConnections_body (env : WriteEnv) (edges : EdgeTable) (n : NodePtr)
    (noInternalNoSplits : Nat) (innerID : String) (from_ : EdgePtr)
    (v : InternalVars) (c : Connection) : InternalVars :=
  match c.toEdge with
  | none => { v with into := v.into.fail "assert(c.toEdge != 0)" }
  | some toEdge =>
    let id := innerID ++ "_" ++ toString v.lno
    let sid := innerID ++ "_" ++ toString (v.splitNo + noInternalNoSplits)
    let cross := env.getCrossingPosition n from_ c.fromLane toEdge c.toLane
    if cross ≥ 0 then
      let into := writeInternalConnection v.into id (edges toEdge).id c.toLane (sid ++ "_0")
      let into := writeInternalConnection into sid (edges toEdge).id c.toLane ""
      { lno := v.lno + 1, splitNo := v.splitNo + 1, ret := true, into := into }
    else
      let into := writeInternalConnection v.into id (edges toEdge).id c.toLane ""
      { lno := v.lno + 1, splitNo := v.splitNo, ret := true, into := into }

/-- The variables of `writeInternalConnections` with the edge objects, which
the function changes by sorting connection lists. -/
structure InternalConnVars where
  v : InternalVars
  edges : EdgeTable

/-- The body of the outer loop of `writeInternalConnections` (lines 492-513),
for the incoming edge `from_`; it is not run after a failure. -/
def writeInternalConnections_edge (env : WriteEnv) (n : NodePtr) (noInternalNoSplits : Nat)
    (innerID : String) (s : InternalConnVars) (from_ : EdgePtr) : InternalConnVars :=
  if s.v.into.failure.isSome then
    s
  else
    let edges := sortOutgoingConnectionsByIndex s.edges from_
    let connections := (edges from_).getConnections
    { v := connections.foldl
        (writeInternalConnections_body env edges n noInternalNoSplits innerID from_) s.v
      edges := edges }

/-- The function `NWWriter_SUMO::writeInternalConnections`; the result is the
returned flag, the effects and the edge objects. -/
def writeInternalConnections (env : WriteEnv) (edges : EdgeTable) (into : Writer) (n : NodePtr) :
    Bool × Writer × EdgeTable :=
  let noInternalNoSplits := countInternalLanes env.nodes edges n
  if noInternalNoSplits = 0 then
    (false, into, edges)
  else
    let innerID := ":" ++ (env.nodes n).id
    let r := (env.nodes n).incoming.foldl
      (writeInternalConnections_edge env n noInternalNoSplits innerID)
      { v := { lno := 0, splitNo := 0, ret := false, into := into }, edges := edges }
    (r.v.ret, r.v.into, r.edges)

/-! ## `NWWriter_SUMO`: roundabouts, districts and the network -/

/-- Modelled from the spec: the order `NBNode::nodes_by_id_sorter`, which is
not part of the sources ("sorted by identifier"). -/
def nodes_by_id_sorter (nodes : NodeTable) (n1 n2 : NodePtr) : Prop :=
  (nodes n1).id ≤ (nodes n2).id

instance (nodes : NodeTable) : DecidableRel (nodes_by_id_sorter nodes) := fun n1 n2 =>
  inferInstanceAs (Decidable ((nodes n1).id ≤ (nodes n2).id))

/-- The function `NWWriter_SUMO::writeRoundabout`; `r` lists the edges of the
roundabout in the order of the set. -/
def writeRoundabout (env : WriteEnv) (edges : EdgeTable) (into : Writer) (r : List EdgePtr) :
    Writer :=
  let nodes : List NodePtr := r.foldl (fun nodes j =>
    let n := (edges j).toNode
    if n ∈ nodes then nodes else nodes ++ [n]) []
  let nodes := nodes.insertionSort (nodes_by_id_sorter env.nodes)
  let into := into.put [Item.openTag SumoXMLTag.SUMO_TAG_ROUNDABOUT, Item.str " nodes=\""]
  let r := nodes.foldl (fun (s : Nat × Writer) j =>
    let into := if s.1 ≠ 0 then s.2.put [Item.str " "] else s.2
    let into := into.put [Item.str (env.nodes j).id]
    (s.1 + 1, into)) (0, into)
  let into := r.2.put [Item.str "\""]
  into.put [Item.closeTag true]

/-- The function `NWWriter_SUMO::writeDistrict`. -/
def writeDistrict (env : WriteEnv) (edges : EdgeTable) (into : Writer) (d : NBDistrict) :
    Writer :=
  let sourceW := env.normaliseSum d.sourceWeights 1.0
  let sinkW := env.normaliseSum d.sinkWeights 1.0
  let into := into.put [Item.openTag SumoXMLTag.SUMO_TAG_TAZ, Item.str (" id=\"" ++ d.id ++ "\"")]
  let into := if d.shape.length > 0 then
      into.put [Item.str " shape=\"", Item.positionVector d.shape, Item.str "\""]
    else into
  let into := into.put [Item.str ">\n"]
  let sources := d.sourceEdges
  let into := (List.range sources.length).foldl (fun into i =>
    let into := into.put [Item.openTag SumoXMLTag.SUMO_TAG_TAZSOURCE,
      Item.str (" id=\"" ++ (edges (sources.getD i 0)).id ++ "\" weight=\""),
      Item.real (sourceW.getD i 0), Item.str "\""]
    into.put [Item.closeTag true]) into
  let sinks := d.sinkEdges
  let into := (List.range sinks.length).foldl (fun into i =>
    let into := into.put [Item.openTag SumoXMLTag.SUMO_TAG_TAZSINK,
      Item.str (" id=\"" ++ (edges (sinks.getD i 0)).id ++ "\" weight=\""),
      Item.real (sinkW.getD i 0), Item.str "\""]
    into.put [Item.closeTag true]) into
  into.put [Item.closeTag false]

/-- Lines 104-115 of `writeNetwork`: one traffic light program. -/
def writeTLLogic (into : Writer) (it : NBTrafficLightLogic) : Writer :=
  let into := into.put [Item.openTag SumoXMLTag.SUMO_TAG_TLLOGIC,
    Item.str (" id=\"" ++ it.id ++ "\" type=\"static\"" ++ " programID=\"" ++ it.programID ++
      "\" offset=\"" ++ toString it.offset ++ "\">\n")]
  let into := it.phases.foldl (fun into j =>
    let into := into.put [Item.openTag SumoXMLTag.SUMO_TAG_PHASE,
      Item.str (" duration=\"" ++ toString j.duration ++ "\" state=\"" ++ j.state ++ "\"")]
    into.put [Item.closeTag true]) into
  into.put [Item.closeTag false]

/-- The state of `writeNetwork`: the effects and the edge objects. -/
structure NetState where
  into : Writer
  edges : EdgeTable

/-- The body of the loop of lines 139-147 of `writeNetwork`, for the entry
`it_edge` of the edge container; `r` holds `numConnections` and the state.  It
is not run after a failure. -/
def writeConnections_edge (env : WriteEnv) (includeInternal : Bool) (r : Nat × NetState)
    (it_edge : String × EdgePtr) : Nat × NetState :=
  if r.2.into.failure.isSome then
    r
  else
    let from_ := it_edge.2
    let edges := sortOutgoingConnectionsByIndex r.2.edges from_
    let connections := (edges from_).getConnections
    let numConnections := r.1 + connections.length
    let into := connections.foldl (fun into it_c =>
      writeConnection env edges into from_ it_c includeInternal false) r.2.into
    (numConnections, { into := into, edges := edges })

/-- Lines 139-147 of `writeNetwork`: the loop over the edges that writes the
connections; the result is `numConnections` and the state. -/
def writeConnections (env : WriteEnv) (nb : NBNetBuilder) (includeInternal : Bool)
    (s : NetState) : Nat × NetState :=
  nb.edgeCont.foldl (writeConnections_edge env includeInternal) (0, s)

/-- Lines 61-134 of `writeNetwork`: the header, the internal edges, the edges,
the traffic light programs, the junctions and the internal junctions. -/
def writeNetwork_elements (env : WriteEnv) (oc : OptionsCont) (nb : NBNetBuilder)
    (edges : EdgeTable) (device : Writer) : Writer :=
  let device := device.put [Item.writeXMLHeader "net" " encoding=\"iso-8859-1\""]
  let device := device.put [Item.str "\n"]
  let device := device.put [Item.openTag SumoXMLTag.SUMO_TAG_LOCATION, Item.str " netOffset=\"",
    Item.position env.getOffsetBase, Item.str ("\"" ++ " convBoundary=\""),
    Item.boundary env.getConvBoundary, Item.str "\""]
  let device := if env.usingGeoProjection then
      let device := device.put [Item.setPrecision true]
      let device := device.put [Item.str " origBoundary=\"", Item.boundary env.getOrigBoundary,
        Item.str "\""]
      device.put [Item.setPrecision false]
    else
      device.put [Item.str " origBoundary=\"", Item.boundary env.getOrigBoundary, Item.str "\""]
  let device := device.put [Item.str (" projParameter=\"" ++ env.getProjString ++ "\"")]
  let device := device.put [Item.closeTag true]
  let device := device.put [Item.str "\n"]
  -- write inner lanes
  let device := if oc.no_internal_links = false then
      let r := nb.nodeCont.foldl (fun (r : Bool × Writer) i =>
        let x := writeInternalEdges env edges r.2 i.2
        (r.1 || x.1, x.2)) (false, device)
      if r.1 then r.2.put [Item.str "\n"] else r.2
    else device
  -- write edges with lanes and connected edges
  let noNames := oc.output_no_names
  let device := nb.edgeCont.foldl (fun device i => writeEdge env edges device i.2 noNames) device
  let device := device.put [Item.str "\n"]
  -- write tls logics
  let logics := nb.tlLogics
  let device := logics.foldl writeTLLogic device
  let device := if logics.length > 0 then device.put [Item.str "\n"] else device
  -- write the nodes (junctions)
  let device := nb.nodeCont.foldl (fun device i => writeJunction env edges device i.2) device
  let device := device.put [Item.str "\n"]
  if oc.no_internal_links = false then
    -- ... internal nodes if not unwanted
    let r := nb.nodeCont.foldl (fun (r : Bool × Writer) i =>
      let x := writeInternalNodes env edges r.2 i.2
      (r.1 || x.1, x.2)) (false, device)
    if r.1 then r.2.put [Item.str "\n"] else r.2
  else device

/-- The body of the loop of lines 154-156 of `writeNetwork`, for the entry `i`
of the node container; `r` holds `hadAny` and the state. -/
def writeNetwork_internalConnections_node (env : WriteEnv) (r : Bool × NetState)
    (i : String × NodePtr) : Bool × NetState :=
  let x := writeInternalConnections env r.2.edges r.2.into i.2
  (r.1 || x.1, { into := x.2.1, edges := x.2.2 })

/-- Lines 152-159 of `writeNetwork`: the internal connections of all nodes. -/
def writeNetwork_internalConnections (env : WriteEnv) (nb : NBNetBuilder) (s : NetState) :
    NetState :=
  let r := nb.nodeCont.foldl (writeNetwork_internalConnections_node env) (false, s)
  if r.1 then { r.2 with into := r.2.into.put [Item.str "\n"] } else r.2

/-- Lines 162-178 of `writeNetwork`: the roundabouts and the districts, and
the close of the device. -/
def writeNetwork_rest (env : WriteEnv) (nb : NBNetBuilder) (edges : EdgeTable)
    (device : Writer) : Writer :=
  -- write roundabout information
  let roundabouts := nb.roundabouts
  let device := roundabouts.foldl (writeRoundabout env edges) device
  let device := if roundabouts.length ≠ 0 then device.put [Item.str "\n"] else device
  -- write the districts
  let device := nb.districtCont.foldl (fun device i => writeDistrict env edges device i.2) device
  let device := if nb.districtCont.length ≠ 0 then device.put [Item.str "\n"] else device
  device.put [Item.close]

/-- The function `NWWriter_SUMO::writeNetwork`.  The device of the output file
is `s.into`; the result holds the effects and the edge objects when the
function returns or fails. -/
def writeNetwork (env : WriteEnv) (oc : OptionsCont) (nb : NBNetBuilder) (s : NetState) :
    NetState :=
  if oc.output_file.isNone then
    s
  else
    let device := writeNetwork_elements env oc nb s.edges s.into
    -- write the successors of lanes
    let includeInternal := !oc.no_internal_links
    let c := writeConnections env nb includeInternal { into := device, edges := s.edges }
    let numConnections := c.1
    let device := if numConnections > 0 then c.2.into.put [Item.str "\n"] else c.2.into
    let s : NetState := if includeInternal then
        -- ... internal successors if not unwanted
        writeNetwork_internalConnections env nb { into := device, edges := c.2.edges }
      else { into := device, edges := c.2.edges }
    { into := writeNetwork_rest env nb s.edges s.into, edges := s.edges }

/-! ### Auxiliary definitions for the proofs about the writer -/

/-- The connections the three nested loops of `forIncomingLaneConnections`
visit, in the order they visit them, each with its incoming edge and lane. -/
def laneConnections (nodes : NodeTable) (edges : EdgeTable) (n : NodePtr) :
    List (EdgePtr × Nat × Connection) :=
  (nodes n).incoming.flatMap fun i =>
    (List.range (edges i).getNumLanes).flatMap fun j =>
      ((edges i).getConnectionsFromLane j).map fun k => (i, j, k)

/-- The variables of the loops of `writeInternalEdges` at node `n` when they
reach the connection number `m` of `laneConnections` (all of them when `m` is
the length of the list). -/
def writeInternalEdges_at (env : WriteEnv) (edges : EdgeTable) (into : Writer) (n : NodePtr)
    (m : Nat) : InternalVars :=
  ((laneConnections env.nodes edges n).take m).foldl
    (fun v p => writeInternalEdges_body env edges n (countInternalLanes env.nodes edges n)
      (":" ++ (env.nodes n).id) p.1 p.2.1 v p.2.2)
    { lno := 0, splitNo := 0, ret := false, into := into }

/-- The variables of the loops of `writeJunction` (lines 356-379) at node `n`
when they reach the connection number `m` of `laneConnections`. -/
def writeJunction_at (env : WriteEnv) (edges : EdgeTable) (into : Writer) (n : NodePtr)
    (m : Nat) : JunctionVars :=
  ((laneConnections env.nodes edges n).take m).foldl
    (fun v p => writeJunction_body env n p.1 p.2.1 v p.2.2)
    { l := 0, o := countInternalLanes env.nodes edges n, into := into }

/-- The variables of the loops of `writeInternalNodes` at node `n` when they
reach the connection number `m` of `laneConnections`. -/
def writeInternalNodes_at (env : WriteEnv) (edges : EdgeTable) (into : Writer) (n : NodePtr)
    (m : Nat) : InternalVars :=
  ((laneConnections env.nodes edges n).take m).foldl
    (fun v p => writeInternalNodes_body env n (countInternalLanes env.nodes edges n)
      (":" ++ (env.nodes n).id) p.1 p.2.1 v p.2.2)
    { lno := 0, splitNo := 0, ret := false, into := into }

/-- An entry of the internal layout of a node (spec, section 4.3): a
connection from lane `fromLane` of the incoming edge `fromEdge` to the edge
`toEdge`, the id of its primary internal edge and, when it is split, the id of
its second piece. -/
structure InternalLane where
  fromEdge : EdgePtr
  fromLane : Nat
  toEdge : EdgePtr
  toLane : Nat
  id : String
  splitId : Option String
  deriving DecidableEq, Repr

/-- The internal layout in the words of the spec, for the connections `ps` in
the order of the nested loops: a connection without destination edge is
skipped; every other one gets the running index `lno` as primary id; when the
right-of-way engine returns a split offset (a crossing position that is not
negative) the second piece gets `noSplits + splitCounter`. -/
def internalLayoutFrom (env : WriteEnv) (n : NodePtr) (noSplits : Nat) :
    Nat → Nat → List (EdgePtr × Nat × Connection) → List InternalLane
  | _, _, [] => []
  | lno, splitCounter, (i, j, k) :: ps =>
    match k.toEdge with
    | none => internalLayoutFrom env n noSplits lno splitCounter ps
    | some toEdge =>
      if env.getCrossingPosition n i j toEdge k.toLane ≥ 0 then
        { fromEdge := i, fromLane := j, toEdge := toEdge, toLane := k.toLane,
          id := ":" ++ (env.nodes n).id ++ "_" ++ toString lno,
          splitId := some (":" ++ (env.nodes n).id ++ "_" ++ toString (splitCounter + noSplits)) }
          :: internalLayoutFrom env n noSplits (lno + 1) (splitCounter + 1) ps
      else
        { fromEdge := i, fromLane := j, toEdge := toEdge, toLane := k.toLane,
          id := ":" ++ (env.nodes n).id ++ "_" ++ toString lno, splitId := none }
          :: internalLayoutFrom env n noSplits (lno + 1) splitCounter ps

/-- The internal layout of node `n`. -/
def internalLayout (env : WriteEnv) (edges : EdgeTable) (n : NodePtr) : List InternalLane :=
  internalLayoutFrom env n (countInternalLanes env.nodes edges n) 0 0
    (laneConnections env.nodes edges n)

/-- Writing the internal edge or the two internal edges of a layout entry. -/
def writeLayoutEdges (env : WriteEnv) (edges : EdgeTable) (n : NodePtr) (into : Writer)
    (x : InternalLane) : Writer :=
  let vmax := internalVmax env edges x.fromEdge x.fromLane x.toEdge x.toLane
  let shape := env.computeInternalLaneShape n x.fromEdge x.fromLane x.toEdge x.toLane
  let into := if shape.length ≥ 2 then into else into.fail "assert(shape.size() >= 2)"
  match x.splitId with
  | some sid =>
    let split := env.splitAt shape (env.getCrossingPosition n x.fromEdge x.fromLane x.toEdge x.toLane)
    writeInternalEdge env (writeInternalEdge env into x.id vmax split.1) sid vmax split.2
  | none => writeInternalEdge env into x.id vmax shape

/-- Two edge tables that differ at most in the order of the connection lists,
and have the same lists once these are sorted. -/
def SameButOrder (a b : EdgeTable) : Prop :=
  ∀ p, sortConnections (a p).connections = sortConnections (b p).connections ∧
    ({ a p with connections := [] } : NBEdge) = { b p with connections := [] }

/-! ### Concrete inputs for the writer -/

/-- An environment for node 0 (id "n") with the incoming edges `incoming`,
in which the right-of-way engine returns the crossing position `cross toEdge`
for a connection to `toEdge`; the other collaborators are simple stand-ins,
and `POSITION_EPS` is 0.1. -/
def demoEnv (incoming : List EdgePtr) (cross : EdgePtr → SUMOReal) : WriteEnv :=
  { nodes := fun _ => mkNode "n" incoming []
    options := { output_file := some "net.xml", no_internal_links := false,
                 output_no_names := false }
    getCrossingPosition := fun _ _ _ toEdge _ => cross toEdge
    computeInternalLaneShape := fun _ _ _ _ _ => [(0, 0), (10, 0)]
    getCrossingSourcesNames_dividedBySpace := fun _ _ _ _ _ => ""
    getCrossingNames_dividedBySpace := fun _ _ _ _ _ => ""
    getInternalLaneID := fun _ _ _ _ _ => ""
    getDirection := fun _ _ _ => LinkDirection.LINKDIR_STRAIGHT
    stateCode := fun _ _ _ _ _ => "M"
    writeLogic := fun _ => []
    length := fun v => (v.getLastD (0, 0)).1 - (v.headD (0, 0)).1
    splitAt := fun v x => ([v.headD (0, 0), ((v.headD (0, 0)).1 + x, 0)],
      [((v.headD (0, 0)).1 + x, 0), v.getLastD (0, 0)])
    getSubpart := fun v _ _ => v
    positionAtLengthPosition := fun v x => ((v.headD (0, 0)).1 + x, 0)
    distanceTo := fun p q => q.1 - p.1
    POSITION_EPS := 0.1
    PI := 3
    toStringReal := fun x => toString x.num ++ "/" ++ toString x.den
    toStringPositionVector := fun _ => ""
    toStringNodeType := fun _ => "priority"
    toStringLaneSpread := fun _ => "center"
    toStringLinkDirection := fun _ => "s"
    LINKSTATE_TL_OFF_BLINKING := "o"
    getVehicleClassNames := fun _ => ""
    getLaneID := fun e j => toString e ++ "_" ++ toString j
    getOffsetBase := (0, 0)
    getConvBoundary := { xmin := 0, ymin := 0, xmax := 100, ymax := 100 }
    getOrigBoundary := { xmin := 0, ymin := 0, xmax := 100, ymax := 100 }
    usingGeoProjection := false
    getProjString := "!"
    normaliseSum := fun v _ => v }

/-- The writer before anything is written. -/
def emptyWriter : Writer := { into := [], warnings := [], failure := none }

/-- Node 0 with one incoming edge 1 of one lane, which is connected to the
edges 2 and 3. -/
def forkEdges : EdgeTable := fun p =>
  if p = 1 then mkEdge "1" 1 0 1 [mkConnection 0 (some 2) 0, mkConnection 0 (some 3) 0]
  else if p = 2 then mkEdge "2" 0 2 1 []
  else mkEdge "3" 0 3 1 []

/-- The environment of `forkEdges` in which the crossing position of the
connection to edge 2 is 0 and that of the connection to edge 3 is 5. -/
def forkEnv : WriteEnv := demoEnv [1] fun toEdge => if toEdge = 2 then 0 else 5

/-- Node 0 with one incoming edge 1 of one lane, which is connected to edge 2. -/
def singleEdges : EdgeTable := fun p =>
  if p = 1 then mkEdge "1" 1 0 1 [mkConnection 0 (some 2) 0]
  else mkEdge "2" 0 2 1 []

/-- The environment of `singleEdges` in which the crossing position of the
connection is 0. -/
def singleEnv : WriteEnv := demoEnv [1] fun _ => 0

/-- Node 0 with one incoming edge 1 of two lanes, whose connection from lane 1
(to edge 2) is stored before the one from lane 0 (to edge 3). -/
def crossedEdges : EdgeTable := fun p =>
  if p = 1 then mkEdge "1" 1 0 2 [mkConnection 1 (some 2) 0, mkConnection 0 (some 3) 0]
  else if p = 2 then mkEdge "2" 0 2 1 []
  else mkEdge "3" 0 3 1 []

/-- The environment of `crossedEdges`, without crossings. -/
def crossedEnv : WriteEnv := demoEnv [1] fun _ => -1

/-- The network of `crossedEdges`: node 0 and the edges 1, 2 and 3. -/
def crossedNet : NBNetBuilder :=
  { nodeCont := [("n", 0)], edgeCont := [("1", 1), ("2", 2), ("3", 3)], tlLogics := [],
    districtCont := [], roundabouts := [] }

/-- The candidates the loop of lines 99-113 skips on the sorted list `cs`
when it starts with the set `seen`: those with an edge that was marked as seen
before, in the order of the list. -/
def skipped : List EdgePtr → List Combination → List Combination
  | _, [] => []
  | seen, j :: cs =>
    if j.from_ ∈ seen ∨ j.to_ ∈ seen then j :: skipped seen cs
    else skipped (j.to_ :: j.from_ :: seen) cs

/-- The warnings of `compute` at the node with id `nodeID` whose sorted
candidates are `cs`: one when a skipped candidate has a score above 360. -/
def ambiguityWarnings (nodeID : String) (cs : List Combination) : List String :=
  if ∃ c ∈ skipped [] cs, c.angle > 360 then
    ["Ambiguity in turnarounds computation at node '" ++ nodeID ++ "'."]
  else []


/-- The edge objects `a` are the edge objects `b` with the connection lists of
some edges sorted: every edge of `a` is the edge of `b` or that edge after
`sortOutgoingConnectionsByIndex`. -/
def SortedFrom (a b : EdgeTable) : Prop :=
  ∀ p, a p = b p ∨ a p = { b p with connections := sortConnections (b p).connections }


/-- The network without nodes, edges, traffic lights, districts and
roundabouts. -/
def emptyNet : NBNetBuilder :=
  { nodeCont := [], edgeCont := [], tlLogics := [], districtCont := [], roundabouts := [] }


/-! ### Auxiliary definitions for the proofs about edges and lanes -/

/-- The items `writeEdge` writes before the lanes (lines 250-270). -/
def edgeHead (env : WriteEnv) (edges : EdgeTable) (e : EdgePtr) (noNames : Bool) : List Item :=
  let items := [Item.openTag SumoXMLTag.SUMO_TAG_EDGE,
    Item.str (" id=\"" ++ (edges e).id ++ "\" from=\"" ++ (env.nodes (edges e).fromNode).id ++
      "\" to=\"" ++ (env.nodes (edges e).toNode).id)]
  let items := if noNames = false ∧ (edges e).streetName ≠ "" then
      items ++ [Item.str "\" ", Item.attrName SumoXMLAttr.SUMO_ATTR_NAME,
        Item.str ("=\"" ++ (edges e).streetName)]
    else items
  let items := items ++ [Item.str ("\" priority=\"" ++ toString (edges e).priority ++ "\"")]
  let items := if (edges e).typeName ≠ "" then
      items ++ [Item.str (" type=\"" ++ (edges e).typeName ++ "\"")]
    else items
  let items := if (edges e).macroscopicConnector then
      items ++ [Item.str " function=\"connector\""]
    else items
  let items := if (edges e).laneSpreadFunction ≠ LaneSpreadFunction.LANESPREAD_RIGHT then
      items ++ [Item.str (" spreadType=\"" ++
        env.toStringLaneSpread (edges e).laneSpreadFunction ++ "\"")]
    else items
  let items := if (edges e).defaultGeometry = false then
      items ++ [Item.str " ", Item.attrName SumoXMLAttr.SUMO_ATTR_SHAPE,
        Item.str ("=\"" ++ env.toStringPositionVector (edges e).geometry ++ "\"")]
    else items
  items ++ [Item.str ">\n"]

/-- The items `writeLane` writes before it looks at the speed (lines 287-299):
the opening tag, the id, the index and the vehicle classes. -/
def laneHead (env : WriteEnv) (lID : String) (lane : Lane) (index : Nat) : List Item :=
  let items := [Item.openTag SumoXMLTag.SUMO_TAG_LANE, Item.str (" id=\"" ++ lID ++ "\""),
    Item.str (" index=\"" ++ toString index ++ "\"")]
  let items := if lane.allowed.length > 0 then
      items ++ [Item.str (" allow=\"" ++ env.getVehicleClassNames lane.allowed ++ "\"")]
    else items
  let items := if lane.notAllowed.length > 0 then
      items ++ [Item.str (" disallow=\"" ++ env.getVehicleClassNames lane.notAllowed ++ "\"")]
    else items
  if lane.preferred.length > 0 then
    items ++ [Item.str (" prefer=\"" ++ env.getVehicleClassNames lane.preferred ++ "\"")]
  else items

/-- The items `writeLane` writes after it has looked at the speed (lines
307-322), for the length `length` it is called with. -/
def laneBody (env : WriteEnv) (lane : Lane) (length : SUMOReal) : List Item :=
  let length := if lane.offset > 0 then length - lane.offset else length
  let items := [Item.str " maxSpeed=\"", Item.real lane.speed, Item.str "\" length=\"",
    Item.real length, Item.str "\""]
  let items := if lane.offset > 0 then
      items ++ [Item.str " endOffset=\"", Item.real lane.offset, Item.str "\""]
    else items
  let items := if lane.width > 0 then
      items ++ [Item.str " width=\"", Item.real lane.width, Item.str "\""]
    else items
  let shape := lane.shape
  let shape := if lane.offset > 0 then
      env.getSubpart shape 0 (env.length shape - lane.offset)
    else shape
  items ++ [Item.str " shape=\"", Item.positionVector shape, Item.str "\"", Item.closeTag true]

/-- The warnings of `writeLane` for a lane whose speed is not negative: one
when the speed is 0. -/
def laneWarnings (eID : String) (lane : Lane) (index : Nat) : List String :=
  if lane.speed = 0 then
    ["Lane #" ++ toString index ++ " of edge '" ++ eID ++ "' has a maximum velocity of 0."]
  else []


/-- An edge "1" of loaded length 100 with two lanes of speed 10, of which lane
0 has the end offset 10; every address holds this edge. -/
def offsetEdges : EdgeTable := fun _ =>
  { mkEdge "1" 1 0 0 [] with lanes := [{ mkLane 10 with offset := 10 }, mkLane 10] }

/-- The environment of `offsetEdges`: the one of `demoEnv`, with the sub-part
of a straight shape along the x axis between two offsets from its begin. -/
def offsetEnv : WriteEnv :=
  { demoEnv [] (fun _ => 0) with
    getSubpart := fun v a b => [((v.headD (0, 0)).1 + a, 0), ((v.headD (0, 0)).1 + b, 0)] }


/-- An edge "1" with four lanes of the speeds 0, 10, -1 and 10; every address
holds this edge. -/
def slowEdges : EdgeTable := fun _ =>
  { mkEdge "1" 1 0 0 [] with lanes := [mkLane 0, mkLane 10, mkLane (-1), mkLane 10] }


/-! ### Auxiliary definitions for the proofs about districts -/

/-- Modelled from the spec: `VectorHelper<SUMOReal>::normaliseSum(v, msum)`,
which is not part of the sources ("weights are normalized to sum to 1.0",
"each divided by their sum"): every entry is divided by the sum of the entries
over `msum`. -/
def normaliseSum (v : List SUMOReal) (msum : SUMOReal) : List SUMOReal :=
  v.map fun x => x / (v.sum / msum)

/-- The numbers among the items of an output. -/
def realsOf (items : List Item) : List SUMOReal :=
  items.filterMap fun x => match x with
    | Item.real r => some r
    | _ => none

/-- The environment of `demoEnv` with `normaliseSum` as the normalisation. -/
def districtEnv : WriteEnv :=
  { demoEnv [] (fun _ => 0) with normaliseSum := normaliseSum }

/-- A district "d" with the source edges 1, 2 and 3 of the raw weights 1, 1
and 2, and the sink edges 3 and 1 of the raw weights 3 and 1. -/
def demoDistrict : NBDistrict :=
  { id := "d", shape := [], sourceEdges := [1, 2, 3], sourceWeights := [1, 1, 2],
    sinkEdges := [3, 1], sinkWeights := [3, 1] }

/-- A district "d" without source and sink edges. -/
def emptyDistrict : NBDistrict :=
  { id := "d", shape := [], sourceEdges := [], sourceWeights := [], sinkEdges := [],
    sinkWeights := [] }


/-! ### Auxiliary definitions for the proofs about roundabouts -/

instance (nodes : NodeTable) : IsTotal NodePtr (nodes_by_id_sorter nodes) :=
  ⟨fun a b => le_total (nodes a).id (nodes b).id⟩

instance (nodes : NodeTable) : IsTrans NodePtr (nodes_by_id_sorter nodes) :=
  ⟨fun _ _ _ h1 h2 => le_trans h1 h2⟩

/-- The vector `nodes` of `writeRoundabout` after lines 537-544: the to-nodes
of the edges of the roundabout, each kept at its first occurrence, sorted by
`nodes_by_id_sorter`. -/
def roundaboutNodes (env : WriteEnv) (edges : EdgeTable) (r : List EdgePtr) : List NodePtr :=
  (r.foldl (fun nodes j =>
    let n := (edges j).toNode
    if n ∈ nodes then nodes else nodes ++ [n]) []).insertionSort (nodes_by_id_sorter env.nodes)


/-! ### Auxiliary definitions for the proofs about connections -/

/-- The items `writeConnection` writes with `plain` unset for a connection
with a destination edge and a direction (lines 445-474); nothing for a
connection without destination edge. -/
def connectionItems (env : WriteEnv) (edges : EdgeTable) (from_ : EdgePtr) (c : Connection)
    (includeInternal : Bool) : List Item :=
  match c.toEdge with
  | none => []
  | some toEdge =>
    let items := [Item.openTag SumoXMLTag.SUMO_TAG_CONNECTION,
      Item.writeAttr SumoXMLAttr.SUMO_ATTR_FROM (edges from_).id,
      Item.writeAttr SumoXMLAttr.SUMO_ATTR_TO (edges toEdge).id,
      Item.str " ", Item.attrName SumoXMLAttr.SUMO_ATTR_LANE,
      Item.str ("=\"" ++ toString c.fromLane ++ ":" ++ toString c.toLane ++ "\"")]
    let items := if includeInternal then
        items ++ [Item.writeAttr SumoXMLAttr.SUMO_ATTR_VIA
          (env.getInternalLaneID (edges from_).toNode from_ c.fromLane toEdge c.toLane ++ "_0")]
      else items
    let items := if c.tlID ≠ "" then
        items ++ [Item.writeAttr SumoXMLAttr.SUMO_ATTR_TLID c.tlID,
          Item.writeAttr SumoXMLAttr.SUMO_ATTR_TLLINKINDEX (toString c.tlLinkNo)]
      else items
    let dir := env.getDirection (edges from_).toNode from_ toEdge
    let items := items ++ [Item.writeAttr SumoXMLAttr.SUMO_ATTR_DIR
      (env.toStringLinkDirection dir)]
    let stateCode := if c.tlID ≠ "" then env.LINKSTATE_TL_OFF_BLINKING
      else env.stateCode (edges from_).toNode from_ toEdge c.toLane c.mayDefinitelyPass
    items ++ [Item.writeAttr SumoXMLAttr.SUMO_ATTR_STATE stateCode, Item.closeTag true]

/-- The connections in the order in which the loop of lines 139-147 of
`writeNetwork` visits them, each with its edge: edge after edge of the
container, the connections of an edge as `sortOutgoingConnectionsByIndex`
leaves them. -/
def allConnections (edges : EdgeTable) (edgeCont : List (String × EdgePtr)) :
    List (EdgePtr × Connection) :=
  edgeCont.flatMap fun it => (sortConnections (edges it.2).connections).map fun c => (it.2, c)


/-- Node 0 with one incoming edge 1 of two lanes with three connections: from
lane 0 to edge 2, from lane 0 without destination edge, and from lane 1 to
edge 3. -/
def danglingEdges : EdgeTable := fun p =>
  if p = 1 then mkEdge "1" 1 0 2
    [mkConnection 0 (some 2) 0, mkConnection 0 none 0, mkConnection 1 (some 3) 0]
  else if p = 2 then mkEdge "2" 0 2 1 []
  else mkEdge "3" 0 3 1 []

/-- The edges of `danglingEdges`, but with a negative speed on the only lane
of edge 1. -/
def danglingSlowEdges : EdgeTable := fun p =>
  if p = 1 then
    { mkEdge "1" 1 0 1 [mkConnection 0 (some 2) 0, mkConnection 0 none 0] with
      lanes := [mkLane (-1)] }
  else if p = 2 then mkEdge "2" 0 2 1 []
  else mkEdge "3" 0 3 1 []


/-- Two candidates have an edge in common: the loop of lines 99-113 keeps the
two edges of an assigned candidate in the one set `seen`. -/
def SharesEdge (c c' : Combination) : Prop :=
  c.from_ = c'.from_ ∨ c.from_ = c'.to_ ∨ c.to_ = c'.from_ ∨ c.to_ = c'.to_

instance : DecidableRel SharesEdge := fun c c' =>
  inferInstanceAs (Decidable (c.from_ = c'.from_ ∨ c.from_ = c'.to_ ∨ c.to_ = c'.from_ ∨
    c.to_ = c'.to_))


/-- The test of line 79 of `compute` for a candidate: its incoming edge comes
from the node its outgoing edge leads to. -/
def ReverseGeometry (edges : EdgeTable) (c : Combination) : Prop :=
  (edges c.from_).fromNode = (edges c.to_).toNode

instance (edges : EdgeTable) : DecidablePred (ReverseGeometry edges) := fun c =>
  inferInstanceAs (Decidable ((edges c.from_).fromNode = (edges c.to_).toNode))


/-- A 4-way node 0 with the neighbours 1 (north), 2 (east), 3 (south) and 4
(west): the edges 1, 3, 5 and 7 arrive from them and the edges 2, 4, 6 and 8
leave to them; no connections are set. -/
def fourWayEdges : EdgeTable := fun p =>
  if p = 1 then mkEdge "1" 1 0 1 []
  else if p = 2 then mkEdge "2" 0 1 1 []
  else if p = 3 then mkEdge "3" 2 0 1 []
  else if p = 4 then mkEdge "4" 0 2 1 []
  else if p = 5 then mkEdge "5" 3 0 1 []
  else if p = 6 then mkEdge "6" 0 3 1 []
  else if p = 7 then mkEdge "7" 4 0 1 []
  else mkEdge "8" 0 4 1 []

/-- The environment of the 4-way node: the edges from north, east, south and
west arrive with the bearings 180, 270, 0 and 90, the edges to north, east,
south and west leave with the bearings 0, 90, 180 and 270.  The node lists its
incoming edges in the order north, east, south, west and its outgoing edges in
the order south, west, north, east. -/
def fourWayEnv : TurnEnv :=
  { nodes := fun _ => mkNode "0" [1, 3, 5, 7] [6, 8, 2, 4]
    getAngle := fun p _ =>
      if p = 1 then 180 else if p = 2 then 0 else if p = 3 then 270 else if p = 4 then 90
      else if p = 5 then 0 else if p = 6 then 180 else if p = 7 then 90 else 270
    relAngle := relAngle
    sortCombinations := sortByAngle }


/-! ### Auxiliary definitions for the proofs about the internal ids -/

/-- The pairs of an incoming lane and a connection at node `n` that have a
destination edge, in the order of the nested loops (incoming edges, lanes by
index, connections of the lane): incoming edge, lane, destination edge and
destination lane. -/
def destinationPairs (nodes : NodeTable) (edges : EdgeTable) (n : NodePtr) :
    List (EdgePtr × Nat × EdgePtr × Nat) :=
  (laneConnections nodes edges n).filterMap fun p =>
    p.2.2.toEdge.map fun t => (p.1, p.2.1, t, p.2.2.toLane)

/-- The test of line 217 of `writeInternalEdges` for a pair: the right-of-way
engine returns a crossing position that is not negative. -/
def isSplit (env : WriteEnv) (n : NodePtr) (d : EdgePtr × Nat × EdgePtr × Nat) : Bool :=
  decide (env.getCrossingPosition n d.1 d.2.1 d.2.2.1 d.2.2.2 ≥ 0)

/-- The id of the internal edge number `k` of node `n`. -/
def internalEdgeID (env : WriteEnv) (n : NodePtr) (k : Nat) : String :=
  ":" ++ (env.nodes n).id ++ "_" ++ toString k


/-- The number a list of decimal digits stands for. -/
def decodeDigits (l : List Char) : Nat := l.foldl (fun a c => a * 10 + (c.toNat - 48)) 0


/-! ### Auxiliary definitions for the proofs about the incoming lanes -/

/-- The ids of the lanes of the edges `incoming`, edge by edge in the order of
the list and lane by lane in the order of the index: `<edge id>_<index>`. -/
def incLaneIDs (edges : EdgeTable) (incoming : List EdgePtr) : List Item :=
  incoming.flatMap fun i =>
    (List.range (edges i).getNumLanes).map fun j => Item.str ((edges i).id ++ "_" ++ toString j)

/-- The last edge of `incoming` has no lanes. -/
def lastHasNoLanes (edges : EdgeTable) (incoming : List EdgePtr) : Bool :=
  match incoming.getLast? with
  | some i => decide ((edges i).getNumLanes = 0)
  | none => false


/-! ## `NIArcView_Loader`: reading the shapes -/

/-- A node as the loader knows it: the id and the position it is built with
(`new NBNode(id, pos)`) or found at. -/
structure ImportNode where
  id : String
  position : Position
  deriving DecidableEq, Repr

/-- The enum `NBEdge::EdgeBasicFunction`, as far as `parseBin` uses it. -/
inductive EdgeBasicFunction where
  | EDGEFUNCTION_NORMAL
  deriving DecidableEq, Repr

/-- The arguments of a constructor call `new NBEdge(id, name, from, to, type,
speed, nolanes, length, priority, shape, spread, function)` of `parseBin`; the
two nodes are pointers, which `retrieve` may leave null. -/
structure NewEdge where
  id : String
  name : String
  from_ : Option ImportNode
  to_ : Option ImportNode
  type : String
  speed : SUMOReal
  nolanes : Nat
  length : SUMOReal
  priority : Int
  shape : PositionVector
  spread : LaneSpreadFunction
  function : EdgeBasicFunction
  deriving DecidableEq, Repr

/-- The shape the `myBinShapeReader` stands at: its attributes by name (`none`
when `getAttribute` throws), the positions of its two ends, its length, and
its geometry in both directions. -/
structure Shape where
  getAttribute : String → Option String
  getFromNodePosition : Position
  getToNodePosition : Position
  getLength : SUMOReal
  getShape : PositionVector
  getReverseShape : PositionVector

/-- A call on the node container `myNodeCont` that may change it. -/
inductive NodeContCall where
  | insertIdPos (id : String) (pos : Position)
  | insertNode (node : ImportNode)
  deriving DecidableEq, Repr

/-- What the loader consults, none of it part of the sources: the answers of
the node container and of the edge container, each as a function of the calls
made on the container so far; the conversions of `TplConvert` and the queries
of `NINavTeqHelper` (`none` when they throw); the conversion of an `int` to
`size_t`; and the two flags of the constructor. -/
structure LoaderEnv where
  /-- the result of `myNodeCont.insert(id, pos)` -/
  insert : List NodeContCall → String → Position → Bool
  /-- the result of `myNodeCont.retrieve(pos)` -/
  retrieveNode : List NodeContCall → Position → Option ImportNode
  /-- the result of `myEdgeCont.retrieve(id)`, for the edges inserted so far -/
  retrieveEdge : List NewEdge → String → Option NewEdge
  _2SUMOReal : String → Option SUMOReal
  _2int : String → Option Int
  /-- the function `NINavTeqHelper::getSpeed(edgeid, def)` -/
  navTeqSpeed : String → String → Option SUMOReal
  /-- the function `NINavTeqHelper::getLaneNumber(edgeid, def, speed, flag)` -/
  navTeqLaneNumber : String → String → SUMOReal → Bool → Option Nat
  toSizeT : Int → Nat
  mySpeedInKMH : Bool
  myUseNewLaneNumberInfoPlain : Bool

/-- The members of the loader and of its containers that `parseBin` changes:
the calls made on the node container, the edges inserted into the edge
container, the counter `myNameAddition`, and the errors reported with
`addError`. -/
structure LoaderState where
  nodeCalls : List NodeContCall
  edgeCont : List NewEdge
  myNameAddition : Nat
  errors : List String
  deriving DecidableEq, Repr

/-- The method `NIArcView_Loader::getSpeed`; the result is the speed and the
errors reported. -/
def getSpeed (env : LoaderEnv) (shape : Shape) (errors : List String) (edgeid : String) :
    SUMOReal × List String :=
  match (shape.getAttribute "speed").bind env._2SUMOReal with
  | some v => (v, errors)
  | none =>
    match (shape.getAttribute "SPEED").bind env._2SUMOReal with
    | some v => (v, errors)
    | none =>
      match (shape.getAttribute "SPEED_CAT").bind (env.navTeqSpeed edgeid) with
      | some v => (v, errors)
      | none =>
        (0, errors ++ ["Error on parsing edge speed definition for edge '" ++ edgeid ++ "'."])

set_option linter.unusedVariables false in
/-- The method `NIArcView_Loader::getLaneNo`; the result is the number of
lanes and the errors reported.  The last parameter is not used: the call of
`getLaneNumber` passes the member `myUseNewLaneNumberInfoPlain`. -/
def getLaneNo (env : LoaderEnv) (shape : Shape) (errors : List String) (edgeid : String)
    (speed : SUMOReal) ( useNewLaneNumberInfoPlain : Bool) : Nat × List String :=
  match (shape.getAttribute "nolanes").bind env._2int with
  | some v => (env.toSizeT v, errors)
  | none =>
    match (shape.getAttribute "NOLANES").bind env._2int with
    | some v => (env.toSizeT v, errors)
    | none =>
      match (shape.getAttribute "rnol").bind env._2int with
      | some v => (env.toSizeT v, errors)
      | none =>
        match (shape.getAttribute "LANE_CAT").bind fun d =>
            env.navTeqLaneNumber edgeid d speed env.myUseNewLaneNumberInfoPlain with
        | some v => (v, errors)
        | none =>
          (0, errors ++ ["Error on parsing edge's number of lanes information for edge '" ++
            edgeid ++ "'."])

/-- The method `NIArcView_Loader::getPriority`; the result is the priority and
the errors reported. -/
def getPriority (env : LoaderEnv) (shape : Shape) (errors : List String) (edgeid : String) :
    Int × List String :=
  match (shape.getAttribute "priority").bind env._2int with
  | some v => (v, errors)
  | none =>
    match (shape.getAttribute "PRIORITY").bind env._2int with
    | some v => (v, errors)
    | none =>
      match (shape.getAttribute "FUNC_CLASS").bind env._2int with
      | some prio => (5 - prio, errors)
      | none =>
        (0, errors ++ ["Error on parsing edge priority information for edge '" ++ edgeid ++ "'."])


/-- Lines 186-193 and 195-202 of `parseBin`: the node for the end of the shape
with the id `node_id` at the position `pos`.  When `insert(id, pos)` fails a
node with a new name is built and inserted, otherwise the node at the position
is retrieved. -/
def buildNode (env : LoaderEnv) (st : LoaderState) (node_id : String) (pos : Position) :
    Option ImportNode × LoaderState :=
  if env.insert st.nodeCalls node_id pos = false then
    let node : ImportNode :=
      { id := node_id ++ "___" ++ toString st.myNameAddition, position := pos }
    (some node,
      { st with
        myNameAddition := st.myNameAddition + 1
        nodeCalls := st.nodeCalls ++
          [NodeContCall.insertIdPos node_id pos, NodeContCall.insertNode node] })
  else
    let calls := st.nodeCalls ++ [NodeContCall.insertIdPos node_id pos]
    (env.retrieveNode calls pos, { st with nodeCalls := calls })

/-- Lines 172-177 of `parseBin`, the body of the `try`: speed, number of lanes
and priority of the edge `id`, with the errors reported.  The three methods
catch what is thrown inside them, so nothing reaches the `catch` of
`parseBin`. -/
def parseBin_values (env : LoaderEnv) (shape : Shape) (errors : List String) (id : String) :
    SUMOReal × Nat × Int × List String :=
  let r := getSpeed env shape errors id
  let speed := if env.mySpeedInKMH then r.1 / 3.6 else r.1
  let l := getLaneNo env shape r.2 id speed env.myUseNewLaneNumberInfoPlain
  let p := getPriority env shape l.2 id
  (speed, l.1, p.1, p.2)

/-- The body of the loop of `parseBin` (lines 164-236) for the shape the
reader stands at; `none` when a `getAttribute` outside the `try` throws, which
nothing catches. -/
def parseBin_shape (env : LoaderEnv) (st : LoaderState) (shape : Shape) : Option LoaderState :=
  match shape.getAttribute "LINK_ID", shape.getAttribute "ST_NAME",
    shape.getAttribute "REF_IN_ID", shape.getAttribute "NREF_IN_ID",
    shape.getAttribute "ST_TYP_AFT" with
  | some id, some name, some from_node, some to_node, some type =>
    let v := parseBin_values env shape st.errors id
    let speed := v.1
    let nolanes := v.2.1
    let priority := v.2.2.1
    let st := { st with errors := v.2.2.2 }
    let function := EdgeBasicFunction.EDGEFUNCTION_NORMAL
    -- build from-node
    let f := buildNode env st from_node shape.getFromNodePosition
    let from_ := f.1
    -- build to-node
    let t := buildNode env f.2 to_node shape.getToNodePosition
    let to_ := t.1
    let st := t.2
    -- retrieve length
    let length := shape.getLength
    -- retrieve the information whether the street is bi-directional
    match shape.getAttribute "DIR_TRAVEL" with
    | none => none
    | some dir =>
      -- add positive direction if wanted
      let st := if dir = "B" ∨ dir = "F" then
          if env.retrieveEdge st.edgeCont id = none then
            let spread := if dir = "B" then LaneSpreadFunction.LANESPREAD_RIGHT
              else LaneSpreadFunction.LANESPREAD_CENTER
            { st with edgeCont := st.edgeCont ++
                [{ id := id, name := name, from_ := from_, to_ := to_, type := type,
                   speed := speed, nolanes := nolanes, length := length, priority := priority,
                   shape := shape.getShape, spread := spread, function := function }] }
          else st
        else st
      -- add negative direction if wanted
      let st := if dir = "B" ∨ dir = "T" then
          let id := "-" ++ id
          if env.retrieveEdge st.edgeCont id = none then
            let spread := if dir = "B" then LaneSpreadFunction.LANESPREAD_RIGHT
              else LaneSpreadFunction.LANESPREAD_CENTER
            { st with edgeCont := st.edgeCont ++
                [{ id := id, name := name, from_ := to_, to_ := from_, type := type,
                   speed := speed, nolanes := nolanes, length := length, priority := priority,
                   shape := shape.getReverseShape, spread := spread, function := function }] }
          else st
        else st
      some st
  | _, _, _, _, _ => none

/-- The method `NIArcView_Loader::parseBin`, for the shapes of the reader in
order; the result is the state and the returned flag, which tells that no
error was reported, or `none` when an exception leaves the method. -/
def parseBin (env : LoaderEnv) (st : LoaderState) (shapes : List Shape) :
    Option (LoaderState × Bool) :=
  (shapes.foldl (fun r shape => r.bind fun st => parseBin_shape env st shape) (some st)).map
    fun st => (st, decide (st.errors = []))


/-! ### Auxiliary definitions for the proofs about `parseBin` -/

/-- The node `parseBin` has in `from` for a shape with the link id `id` and the
reference node id `ref`: the node of the reference end of the shape. -/
def referenceNode (env : LoaderEnv) (st : LoaderState) (shape : Shape) (id ref : String) :
    Option ImportNode :=
  (buildNode env { st with errors := (parseBin_values env shape st.errors id).2.2.2 } ref
    shape.getFromNodePosition).1

/-- The node `parseBin` has in `to` for a shape with the link id `id`, the
reference node id `ref` and the non-reference node id `nref`: the node of the
other end of the shape. -/
def nonReferenceNode (env : LoaderEnv) (st : LoaderState) (shape : Shape) (id ref nref : String) :
    Option ImportNode :=
  (buildNode env
    (buildNode env { st with errors := (parseBin_values env shape st.errors id).2.2.2 } ref
      shape.getFromNodePosition).2 nref shape.getToNodePosition).1

/-- The edge in the positive direction of a shape: it has the link id as id,
leads from the reference node to the non-reference node and has the geometry
of the shape. -/
def forwardEdge (env : LoaderEnv) (st : LoaderState) (shape : Shape)
    (id name ref nref type : String) (spread : LaneSpreadFunction) : NewEdge :=
  { id := id, name := name, from_ := referenceNode env st shape id ref,
    to_ := nonReferenceNode env st shape id ref nref, type := type,
    speed := (parseBin_values env shape st.errors id).1,
    nolanes := (parseBin_values env shape st.errors id).2.1, length := shape.getLength,
    priority := (parseBin_values env shape st.errors id).2.2.1, shape := shape.getShape,
    spread := spread, function := EdgeBasicFunction.EDGEFUNCTION_NORMAL }

/-- The edge in the negative direction of a shape: its id is the link id after
a minus sign, it leads from the non-reference node to the reference node and
has the reversed geometry. -/
def backwardEdge (env : LoaderEnv) (st : LoaderState) (shape : Shape)
    (id name ref nref type : String) (spread : LaneSpreadFunction) : NewEdge :=
  { id := "-" ++ id, name := name, from_ := nonReferenceNode env st shape id ref nref,
    to_ := referenceNode env st shape id ref, type := type,
    speed := (parseBin_values env shape st.errors id).1,
    nolanes := (parseBin_values env shape st.errors id).2.1, length := shape.getLength,
    priority := (parseBin_values env shape st.errors id).2.2.1,
    shape := shape.getReverseShape, spread := spread,
    function := EdgeBasicFunction.EDGEFUNCTION_NORMAL }

/-- A loader environment with simple containers: every `insert(id, pos)`
succeeds, a node is found at a position when it was inserted there, an edge is
found when one with its id was inserted; the conversions know the numbers 2, 3
and 13 only. -/
def demoLoaderEnv : LoaderEnv :=
  { insert := fun _ _ _ => true
    retrieveNode := fun calls pos => calls.findSome? fun c =>
      match c with
      | NodeContCall.insertIdPos id p => if p = pos then some { id := id, position := p } else none
      | NodeContCall.insertNode node => if node.position = pos then some node else none
    retrieveEdge := fun l id => l.find? fun e => decide (e.id = id)
    _2SUMOReal := fun s => if s = "13" then some 13 else none
    _2int := fun s => if s = "2" then some 2 else if s = "3" then some 3 else none
    navTeqSpeed := fun _ _ => none
    navTeqLaneNumber := fun _ _ _ _ => none
    toSizeT := Int.toNat
    mySpeedInKMH := false
    myUseNewLaneNumberInfoPlain := false }

/-- A shape with the link id "7" from the reference node "a" at (0, 0) to the
non-reference node "b" at (100, 0), with the travel direction `dir`. -/
def demoShape (dir : String) : Shape :=
  { getAttribute := fun a =>
      if a = "LINK_ID" then some "7" else if a = "ST_NAME" then some "Main"
      else if a = "REF_IN_ID" then some "a" else if a = "NREF_IN_ID" then some "b"
      else if a = "ST_TYP_AFT" then some "t" else if a = "DIR_TRAVEL" then some dir
      else if a = "speed" then some "13" else if a = "nolanes" then some "2"
      else if a = "priority" then some "3" else none
    getFromNodePosition := (0, 0)
    getToNodePosition := (100, 0)
    getLength := 100
    getShape := [(0, 0), (100, 0)]
    getReverseShape := [(100, 0), (0, 0)] }

/-- The loader before the first shape, with empty containers. -/
def emptyLoader : LoaderState :=
  { nodeCalls := [], edgeCont := [], myNameAddition := 0, errors := [] }


/-! ### Auxiliary definitions for the proofs about the running index -/

/-- The test of line 370 of `writeJunction` and of line 411 of
`writeInternalNodes` fails for a pair: the crossing position that the
right-of-way engine returns is not `<= 0`. -/
def hasCrossing (env : WriteEnv) (n : NodePtr) (d : EdgePtr × Nat × EdgePtr × Nat) : Bool :=
  decide (¬ env.getCrossingPosition n d.1 d.2.1 d.2.2.1 d.2.2.2 ≤ 0)

/-- Lines 203-224 of `writeInternalEdges` for the pair `d` (incoming edge,
lane, destination edge, destination lane) when the counters `lno` and
`splitNo` have the given values. -/
def writePairEdges (env : WriteEnv) (edges : EdgeTable) (n : NodePtr)
    (noInternalNoSplits lno splitNo : Nat) (into : Writer) (d : EdgePtr × Nat × EdgePtr × Nat) :
    Writer :=
  let vmax := internalVmax env edges d.1 d.2.1 d.2.2.1 d.2.2.2
  let shape := env.computeInternalLaneShape n d.1 d.2.1 d.2.2.1 d.2.2.2
  let into := if shape.length ≥ 2 then into else into.fail "assert(shape.size() >= 2)"
  let cross := env.getCrossingPosition n d.1 d.2.1 d.2.2.1 d.2.2.2
  if cross ≥ 0 then
    let split := env.splitAt shape cross
    let into := writeInternalEdge env into (":" ++ (env.nodes n).id ++ "_" ++ toString lno) vmax
      split.1
    writeInternalEdge env into
      (":" ++ (env.nodes n).id ++ "_" ++ toString (splitNo + noInternalNoSplits)) vmax split.2
  else
    writeInternalEdge env into (":" ++ (env.nodes n).id ++ "_" ++ toString lno) vmax shape

/-- Lines 366-374 of `writeJunction` for the pair `d` when the counters `l`
and `o` have the given values: what is written into `intLanes`. -/
def junctionPairItems (env : WriteEnv) (n : NodePtr) (l o : Nat)
    (d : EdgePtr × Nat × EdgePtr × Nat) : List Item :=
  (if l ≠ 0 then [Item.str " "] else []) ++
    (if env.getCrossingPosition n d.1 d.2.1 d.2.2.1 d.2.2.2 ≤ 0 then
      [Item.str (":" ++ (env.nodes n).id ++ "_" ++ toString l ++ "_0")]
    else
      [Item.str (":" ++ (env.nodes n).id ++ "_" ++ toString o ++ "_0")])

/-- Lines 411-433 of `writeInternalNodes` for the pair `d` when the counters
`lno` and `splitNo` have the given values: the internal junction written for
the pair, nothing when its crossing position is `<= 0`. -/
def internalNodeItems (env : WriteEnv) (n : NodePtr) (noInternalNoSplits lno splitNo : Nat)
    (d : EdgePtr × Nat × EdgePtr × Nat) : List Item :=
  let cross := env.getCrossingPosition n d.1 d.2.1 d.2.2.1 d.2.2.2
  if cross ≤ 0 then
    []
  else
    let sid := ":" ++ (env.nodes n).id ++ "_" ++ toString (splitNo + noInternalNoSplits) ++ "_0"
    let iid := ":" ++ (env.nodes n).id ++ "_" ++ toString lno ++ "_0"
    let shape := env.computeInternalLaneShape n d.1 d.2.1 d.2.2.1 d.2.2.2
    let pos := env.positionAtLengthPosition shape cross
    let furtherIncoming := env.getCrossingSourcesNames_dividedBySpace n d.1 d.2.1 d.2.2.1 d.2.2.2
    [Item.openTag SumoXMLTag.SUMO_TAG_JUNCTION, Item.str (" id=\"" ++ sid ++ "\""),
      Item.str (" type=\"" ++ env.toStringNodeType SumoXMLNodeType.NODETYPE_INTERNAL ++ "\""),
      Item.str " x=\"", Item.real pos.1, Item.str "\" y=\"", Item.real pos.2, Item.str "\"",
      Item.str " incLanes=\"",
      Item.str (if furtherIncoming.length ≠ 0 then iid ++ " " ++ furtherIncoming else iid),
      Item.str "\"",
      Item.str (" intLanes=\"" ++
        env.getCrossingNames_dividedBySpace n d.1 d.2.1 d.2.2.1 d.2.2.2 ++ "\""),
      Item.str " shape=\"\"", Item.closeTag true]


/-! ### Auxiliary definitions for the proofs about the internal connections -/

/-- The edge objects without the connections that have no destination edge. -/
def withoutDangling (edges : EdgeTable) : EdgeTable := fun p =>
  { edges p with connections := (edges p).connections.filter fun c => c.toEdge.isSome }


/-! ## Theorems -/

/-! ### `compute`: the greedy loop -/

theorem foldl_assignStep_calls (nodeID : String) (cs : List Combination) (s : AssignState) :
    (cs.foldl (assignStep nodeID) s).calls = s.calls ++ greedy s.seen cs ∧
    (cs.foldl (assignStep nodeID) s).edges = applyCalls s.edges (greedy s.seen cs) := by
  induction cs generalizing s with
  | nil => simp [greedy, applyCalls]
  | cons j cs ih =>
    rw [List.foldl_cons]
    obtain ⟨ih1, ih2⟩ := ih (assignStep nodeID s j)
    rw [ih1, ih2]
    by_cases h : j.from_ ∈ s.seen ∨ j.to_ ∈ s.seen
    · have hs : (assignStep nodeID s j).seen = s.seen ∧ (assignStep nodeID s j).calls = s.calls ∧
          (assignStep nodeID s j).edges = s.edges := by
        unfold assignStep
        rw [if_pos h]
        split <;> simp
      obtain ⟨h1, h2, h3⟩ := hs
      rw [h1, h2, h3]
      simp [greedy, h]
    · have hs : (assignStep nodeID s j).seen = j.to_ :: j.from_ :: s.seen ∧
          (assignStep nodeID s j).calls = s.calls ++ [(j.from_, j.to_)] ∧
          (assignStep nodeID s j).edges = setTurningDestination s.edges j.from_ j.to_ := by
        unfold assignStep
        rw [if_neg h]
        simp
      obtain ⟨h1, h2, h3⟩ := hs
      rw [h1, h2, h3]
      simp [greedy, h, applyCalls]

theorem computeNode_eq (env : TurnEnv) (st : TurnState) (i : String × NodePtr) :
    (computeNode env st i).edges
        = applyCalls st.edges (greedy [] (env.sortCombinations (combinations env st.edges i.2))) ∧
    (computeNode env st i).trace
        = st.trace ++ [(i.2, greedy [] (env.sortCombinations (combinations env st.edges i.2)))] := by
  unfold computeNode
  have h := foldl_assignStep_calls i.1 (env.sortCombinations (combinations env st.edges i.2))
    { seen := [], haveWarned := false, edges := st.edges, warnings := st.warnings, calls := [] }
  simp only [List.nil_append] at h
  exact ⟨h.2, by show _ ++ [(i.2, _)] = _; rw [h.1]⟩

theorem greedy_spec (cs : List Combination) (seen : List EdgePtr) :
    (∀ c ∈ greedy seen cs, c.1 ∉ seen ∧ c.2 ∉ seen) ∧
    ((greedy seen cs).map Prod.fst).Nodup ∧ ((greedy seen cs).map Prod.snd).Nodup ∧
    (∀ c ∈ greedy seen cs, ∃ j ∈ cs, j.from_ = c.1 ∧ j.to_ = c.2) := by
  induction cs generalizing seen with
  | nil => simp [greedy]
  | cons j cs ih =>
    by_cases h : j.from_ ∈ seen ∨ j.to_ ∈ seen
    · have hg : greedy seen (j :: cs) = greedy seen cs := by simp [greedy, h]
      rw [hg]
      obtain ⟨h1, h2, h3, h4⟩ := ih seen
      refine ⟨h1, h2, h3, ?_⟩
      intro c hc
      obtain ⟨j', hj', e⟩ := h4 c hc
      exact ⟨j', List.mem_cons_of_mem _ hj', e⟩
    · have hg : greedy seen (j :: cs) = (j.from_, j.to_) :: greedy (j.to_ :: j.from_ :: seen) cs := by
        simp [greedy, h]
      rw [hg]
      obtain ⟨h1, h2, h3, h4⟩ := ih (j.to_ :: j.from_ :: seen)
      push_neg at h
      refine ⟨?_, ?_, ?_, ?_⟩
      · intro c hc
        rcases List.mem_cons.1 hc with rfl | hc
        · exact h
        · have := h1 c hc
          simp only [List.mem_cons, not_or] at this
          exact ⟨this.1.2.2, this.2.2.2⟩
      · rw [List.map_cons, List.nodup_cons]
        refine ⟨?_, h2⟩
        intro hm
        obtain ⟨c, hc, hce⟩ := List.mem_map.1 hm
        have := (h1 c hc).1
        simp only [List.mem_cons, not_or] at this
        exact this.2.1 hce
      · rw [List.map_cons, List.nodup_cons]
        refine ⟨?_, h3⟩
        intro hm
        obtain ⟨c, hc, hce⟩ := List.mem_map.1 hm
        have := (h1 c hc).2
        simp only [List.mem_cons, not_or] at this
        exact this.1 hce
      · intro c hc
        rcases List.mem_cons.1 hc with rfl | hc
        · exact ⟨j, List.mem_cons_self _ _, rfl, rfl⟩
        · obtain ⟨j', hj', e⟩ := h4 c hc
          exact ⟨j', List.mem_cons_of_mem _ hj', e⟩

/-! ### `compute`: what a run changes -/

theorem eraseTurn_setTurn (e : NBEdge) (o : Option EdgePtr) :
    eraseTurn { e with turnDestination := o } = eraseTurn e := rfl

theorem eq_of_eraseTurn_eq {x y : NBEdge} (h : eraseTurn x = eraseTurn y)
    (ht : x.turnDestination = y.turnDestination) : x = y := by
  cases x
  cases y
  simp only [eraseTurn, NBEdge.mk.injEq] at h
  simp only [NBEdge.mk.injEq]
  simp only at ht
  tauto

theorem setTurningDestination_sameButTurn (a : EdgeTable) (e o : EdgePtr) :
    SameButTurn (setTurningDestination a e o) a := by
  intro p
  unfold setTurningDestination
  by_cases hp : p = e
  · subst hp
    rw [Function.update_same]
    rfl
  · rw [Function.update_noteq hp]

theorem SameButTurn.trans_turn {a b c : EdgeTable} (h1 : SameButTurn a b) (h2 : SameButTurn b c) :
    SameButTurn a c := fun p => (h1 p).trans (h2 p)

theorem SameButTurn.symm_turn {a b : EdgeTable} (h : SameButTurn a b) : SameButTurn b a :=
  fun p => (h p).symm

theorem applyCalls_sameButTurn (calls : List (EdgePtr × EdgePtr)) (a : EdgeTable) :
    SameButTurn (applyCalls a calls) a := by
  induction calls generalizing a with
  | nil => intro p; rfl
  | cons c cs ih =>
    exact (ih (setTurningDestination a c.1 c.2)).trans_turn (setTurningDestination_sameButTurn a c.1 c.2)

theorem applyCalls_append (a : EdgeTable) (l1 l2 : List (EdgePtr × EdgePtr)) :
    applyCalls a (l1 ++ l2) = applyCalls (applyCalls a l1) l2 := by
  simp [applyCalls, List.foldl_append]

theorem combinations_congr (env : TurnEnv) {a b : EdgeTable} (h : SameButTurn a b) (n : NodePtr) :
    combinations env a n = combinations env b n := by
  have hc : ∀ p, (a p).connections = (b p).connections := by
    intro p
    have := congrArg NBEdge.connections (h p)
    exact this
  have hf : ∀ p, (a p).fromNode = (b p).fromNode := by
    intro p
    have := congrArg NBEdge.fromNode (h p)
    exact this
  have ht : ∀ p, (a p).toNode = (b p).toNode := by
    intro p
    have := congrArg NBEdge.toNode (h p)
    exact this
  simp only [combinations, NBEdge.getConnections, NBEdge.isConnectedTo, hc, hf, ht]

theorem traceOf_congr (env : TurnEnv) {a b : EdgeTable} (h : SameButTurn a b)
    (nc : List (String × NodePtr)) : traceOf env a nc = traceOf env b nc := by
  simp only [traceOf, combinations_congr env h]

theorem foldl_computeNode (env : TurnEnv) (edges0 : EdgeTable) (nc : List (String × NodePtr))
    (st : TurnState) (h : SameButTurn st.edges edges0) :
    (nc.foldl (computeNode env) st).trace = st.trace ++ traceOf env edges0 nc ∧
    (nc.foldl (computeNode env) st).edges = applyCalls st.edges (allCalls (traceOf env edges0 nc)) := by
  induction nc generalizing st with
  | nil => simp [traceOf, allCalls, applyCalls]
  | cons i nc ih =>
    rw [List.foldl_cons]
    obtain ⟨he, ht⟩ := computeNode_eq env st i
    rw [combinations_congr env h] at he ht
    have h1 : SameButTurn (computeNode env st i).edges edges0 := by
      rw [he]
      exact (applyCalls_sameButTurn _ _).trans_turn h
    obtain ⟨ih1, ih2⟩ := ih (computeNode env st i) h1
    rw [ih1, ih2, ht, he]
    constructor
    · simp [traceOf]
    · simp only [traceOf, allCalls, List.map_cons, List.flatMap_cons, applyCalls_append]

theorem compute_eq (env : TurnEnv) (nc : List (String × NodePtr)) (edges : EdgeTable) :
    (compute env nc edges).trace = traceOf env edges nc ∧
    (compute env nc edges).edges = applyCalls edges (allCalls (traceOf env edges nc)) := by
  have h := foldl_computeNode env edges nc { edges := edges, warnings := [], trace := [] }
    (fun _ => rfl)
  simpa [compute] using h

theorem applyCalls_turn (p : EdgePtr) (calls : List (EdgePtr × EdgePtr)) (a : EdgeTable) :
    (applyCalls a calls p).turnDestination = turnAfter p calls (a p).turnDestination := by
  induction calls generalizing a with
  | nil => rfl
  | cons c cs ih =>
    show (applyCalls (setTurningDestination a c.1 c.2) cs p).turnDestination = _
    rw [ih]
    show _ = turnAfter p cs (if c.1 = p then some c.2 else (a p).turnDestination)
    congr 1
    unfold setTurningDestination
    by_cases hp : c.1 = p
    · subst hp
      simp
    · rw [Function.update_noteq (Ne.symm hp), if_neg hp]

theorem turnAfter_absorb (p : EdgePtr) (calls : List (EdgePtr × EdgePtr)) (d d' : Option EdgePtr) :
    turnAfter p calls d = turnAfter p calls d' ∨
      (turnAfter p calls d = d ∧ turnAfter p calls d' = d') := by
  induction calls generalizing d d' with
  | nil => right; exact ⟨rfl, rfl⟩
  | cons c cs ih =>
    by_cases hp : c.1 = p
    · left
      simp [turnAfter, List.foldl_cons, hp]
    · have e : ∀ x, turnAfter p (c :: cs) x = turnAfter p cs x := by
        intro x
        simp [turnAfter, List.foldl_cons, hp]
      rw [e, e]
      exact ih d d'

theorem applyCalls_twice (calls : List (EdgePtr × EdgePtr)) (a : EdgeTable) :
    applyCalls (applyCalls a calls) calls = applyCalls a calls := by
  funext p
  apply eq_of_eraseTurn_eq
  · exact (applyCalls_sameButTurn calls (applyCalls a calls)) p
  · rw [applyCalls_turn, applyCalls_turn]
    rcases turnAfter_absorb p calls (turnAfter p calls (a p).turnDestination)
      (a p).turnDestination with h | ⟨h, _⟩
    · exact h
    · exact h

theorem turnAfter_some (p o : EdgePtr) (calls : List (EdgePtr × EdgePtr)) (d : Option EdgePtr)
    (h : turnAfter p calls d = some o) : d = some o ∨ (p, o) ∈ calls := by
  induction calls generalizing d with
  | nil => left; exact h
  | cons c cs ih =>
    have h' : turnAfter p cs (if c.1 = p then some c.2 else d) = some o := h
    rcases ih _ h' with h1 | h1
    · by_cases hp : c.1 = p
      · rw [if_pos hp] at h1
        right
        have : c = (p, o) := by
          cases c
          simp only [Option.some.injEq] at h1
          simp only at hp
          rw [hp, h1]
        rw [this]
        exact List.mem_cons_self _ _
      · rw [if_neg hp] at h1
        left
        exact h1
    · right
      exact List.mem_cons_of_mem _ h1

theorem mem_combinations {env : TurnEnv} {edges : EdgeTable} {n : NodePtr} {c : Combination}
    (h : c ∈ combinations env edges n) :
    c.from_ ∈ (env.nodes n).incoming ∧ c.to_ ∈ (env.nodes n).outgoing ∧
    ((edges c.from_).getConnections.length = 0 ∨ (edges c.from_).isConnectedTo c.to_ = true) ∧
    160 ≤ |env.relAngle (env.getAngle c.from_ n) (env.getAngle c.to_ n)| ∧
    c.angle = (if (edges c.from_).fromNode = (edges c.to_).toNode
      then |env.relAngle (env.getAngle c.from_ n) (env.getAngle c.to_ n)| + 360
      else |env.relAngle (env.getAngle c.from_ n) (env.getAngle c.to_ n)|) := by
  unfold combinations at h
  obtain ⟨o, ho, h⟩ := List.mem_flatMap.1 h
  obtain ⟨e, he, h⟩ := List.mem_filterMap.1 h
  split at h
  · exact absurd h (by simp)
  · rename_i hconn
    simp only at h
    split at h
    · exact absurd h (by simp)
    · rename_i hang
      simp only [Option.some.injEq] at h
      subst h
      refine ⟨he, ho, ?_, not_lt.1 hang, rfl⟩
      by_contra hc
      push_neg at hc
      exact hconn ⟨hc.1, by simpa using hc.2⟩

theorem mem_traceOf {env : TurnEnv} (hsort : SortsByAngle env.sortCombinations)
    {edges : EdgeTable} {nc : List (String × NodePtr)} {entry : NodePtr × List (EdgePtr × EdgePtr)}
    (h : entry ∈ traceOf env edges nc) {c : EdgePtr × EdgePtr} (hc : c ∈ entry.2) :
    ∃ i ∈ nc, i.2 = entry.1 ∧ ∃ j ∈ combinations env edges i.2, j.from_ = c.1 ∧ j.to_ = c.2 := by
  obtain ⟨i, hi, rfl⟩ := List.mem_map.1 h
  obtain ⟨j, hj, e⟩ := (greedy_spec _ []).2.2.2 c hc
  exact ⟨i, hi, rfl, j, ((hsort _).1.mem_iff).1 hj, e⟩

instance : IsTotal Combination combination_by_angle_sorter :=
  ⟨fun a b => le_total b.angle a.angle⟩

instance : IsTrans Combination combination_by_angle_sorter :=
  ⟨fun _ _ _ h1 h2 => le_trans h2 h1⟩

theorem sortByAngle_sorts : SortsByAngle sortByAngle := fun l =>
  ⟨List.perm_insertionSort _ l, List.sorted_insertionSort _ l⟩

/-- C1: `compute` visits the nodes of the container in order, and among the
calls of `setTurningDestination` it makes at one node no incoming edge occurs
twice as the edge that is given a turnaround and no outgoing edge occurs twice
as the turnaround. -/
theorem compute_turnarounds_unique (env : TurnEnv) (nc : List (String × NodePtr))
    (edges : EdgeTable) :
    (compute env nc edges).trace.map Prod.fst = nc.map Prod.snd ∧
    ∀ entry ∈ (compute env nc edges).trace,
      (entry.2.map Prod.fst).Nodup ∧ (entry.2.map Prod.snd).Nodup := by
  rw [(compute_eq env nc edges).1]
  constructor
  · simp [traceOf, Function.comp_def]
  · intro entry h
    obtain ⟨i, _, rfl⟩ := List.mem_map.1 h
    exact ⟨(greedy_spec _ []).2.1, (greedy_spec _ []).2.2.1⟩

/-- C2: every call `e.setTurningDestination(o)` that `compute` makes while it
processes a node is for an incoming edge `e` and an outgoing edge `o` of that
node whose absolute relative angle there is at least 160; and an edge whose
turnaround is `o` after the run either had it before or is such a pair at a
node of the container. -/
theorem compute_never_below_160 (env : TurnEnv) (hsort : SortsByAngle env.sortCombinations)
    (nc : List (String × NodePtr)) (edges : EdgeTable) :
    (∀ entry ∈ (compute env nc edges).trace, ∀ c ∈ entry.2,
      c.1 ∈ (env.nodes entry.1).incoming ∧ c.2 ∈ (env.nodes entry.1).outgoing ∧
      ¬ |env.relAngle (env.getAngle c.1 entry.1) (env.getAngle c.2 entry.1)| < 160) ∧
    (∀ e o, ((compute env nc edges).edges e).turnDestination = some o →
      (edges e).turnDestination = some o ∨
      ∃ i ∈ nc, e ∈ (env.nodes i.2).incoming ∧ o ∈ (env.nodes i.2).outgoing ∧
        ¬ |env.relAngle (env.getAngle e i.2) (env.getAngle o i.2)| < 160) := by
  have key : ∀ entry ∈ traceOf env edges nc, ∀ c ∈ entry.2,
      ∃ i ∈ nc, i.2 = entry.1 ∧ c.1 ∈ (env.nodes i.2).incoming ∧
        c.2 ∈ (env.nodes i.2).outgoing ∧
        ¬ |env.relAngle (env.getAngle c.1 i.2) (env.getAngle c.2 i.2)| < 160 := by
    intro entry h c hc
    obtain ⟨i, hi, hie, j, hj, hj1, hj2⟩ := mem_traceOf hsort h hc
    obtain ⟨m1, m2, _, m4, _⟩ := mem_combinations hj
    simp only [hj1, hj2] at m1 m2 m4
    exact ⟨i, hi, hie, m1, m2, not_lt.2 m4⟩
  obtain ⟨ht, he⟩ := compute_eq env nc edges
  constructor
  · intro entry h c hc
    rw [ht] at h
    obtain ⟨i, _, hie, h1, h2, h3⟩ := key entry h c hc
    rw [hie] at h1 h2 h3
    exact ⟨h1, h2, h3⟩
  · intro e o h
    rw [he, applyCalls_turn] at h
    rcases turnAfter_some e o _ _ h with h | h
    · left
      exact h
    · right
      obtain ⟨entry, hentry, hc⟩ := List.mem_flatMap.1 h
      obtain ⟨i, hi, _, h1, h2, h3⟩ := key entry hentry (e, o) hc
      exact ⟨i, hi, h1, h2, h3⟩

/-- Witness of C2 at the crossing: both incoming edges get the outgoing edge
back to their origin. -/
theorem compute_never_below_160_witness :
    SortsByAngle crossingEnv.sortCombinations ∧
    (compute crossingEnv [("0", 0)] crossingEdges).trace = [(0, [(1, 2), (3, 4)])] ∧
    (∀ entry ∈ (compute crossingEnv [("0", 0)] crossingEdges).trace, ∀ c ∈ entry.2,
      c.1 ∈ (crossingEnv.nodes entry.1).incoming ∧ c.2 ∈ (crossingEnv.nodes entry.1).outgoing ∧
      ¬ |crossingEnv.relAngle (crossingEnv.getAngle c.1 entry.1)
          (crossingEnv.getAngle c.2 entry.1)| < 160) :=
  ⟨sortByAngle_sorts, by with_unfolding_all decide,
    (compute_never_below_160 crossingEnv sortByAngle_sorts [("0", 0)] crossingEdges).1⟩

/-- C4: `compute` is idempotent: a second run on the edge objects the first
run left leaves every edge object, and so every turnaround, as the first run
left it, and makes the same calls. -/
theorem compute_idempotent (env : TurnEnv) (nc : List (String × NodePtr)) (edges : EdgeTable) :
    (compute env nc (compute env nc edges).edges).edges = (compute env nc edges).edges ∧
    (compute env nc (compute env nc edges).edges).trace = (compute env nc edges).trace := by
  obtain ⟨ht, he⟩ := compute_eq env nc edges
  obtain ⟨ht2, he2⟩ := compute_eq env nc (compute env nc edges).edges
  have hs : SameButTurn (compute env nc edges).edges edges := by
    rw [he]
    exact applyCalls_sameButTurn _ _
  rw [traceOf_congr env hs] at ht2 he2
  constructor
  · rw [he2, he, applyCalls_twice]
  · rw [ht2, ht]

theorem turnAfter_const (p o : EdgePtr) (calls : List (EdgePtr × EdgePtr))
    (h : ∀ c ∈ calls, c.1 = p → c.2 = o) : turnAfter p calls (some o) = some o := by
  induction calls with
  | nil => rfl
  | cons c cs ih =>
    show turnAfter p cs (if c.1 = p then some c.2 else some o) = some o
    have hc := h c (List.mem_cons_self _ _)
    by_cases hp : c.1 = p
    · rw [if_pos hp, hc hp]
      exact ih fun c' hc' => h c' (List.mem_cons_of_mem _ hc')
    · rw [if_neg hp]
      exact ih fun c' hc' => h c' (List.mem_cons_of_mem _ hc')

theorem turnAfter_unique (p o : EdgePtr) (calls : List (EdgePtr × EdgePtr)) (d : Option EdgePtr)
    (hm : (p, o) ∈ calls) (h : ∀ c ∈ calls, c.1 = p → c.2 = o) : turnAfter p calls d = some o := by
  induction calls generalizing d with
  | nil => exact absurd hm (List.not_mem_nil _)
  | cons c cs ih =>
    have h' : ∀ c' ∈ cs, c'.1 = p → c'.2 = o := fun c' hc' => h c' (List.mem_cons_of_mem _ hc')
    show turnAfter p cs (if c.1 = p then some c.2 else d) = some o
    by_cases hcs : (p, o) ∈ cs
    · exact ih _ hcs h'
    · have hc : (p, o) = c := by
        rcases List.mem_cons.1 hm with h1 | h1
        · exact h1
        · exact absurd h1 hcs
      subst hc
      simp only [if_true]
      exact turnAfter_const p o cs h'

theorem foldl_flatMap_eq {α β σ : Type} (f : α → List β) (g : σ → β → σ) (l : List α) (s : σ) :
    (l.flatMap f).foldl g s = l.foldl (fun s a => (f a).foldl g s) s := by
  induction l generalizing s with
  | nil => rfl
  | cons a l ih => simp [List.flatMap_cons, List.foldl_append, ih]

theorem forIncomingLaneConnections_eq {σ : Type} (nodes : NodeTable) (edges : EdgeTable)
    (n : NodePtr) (body : EdgePtr → Nat → σ → Connection → σ) (init : σ) :
    forIncomingLaneConnections nodes edges n body init
      = (laneConnections nodes edges n).foldl (fun v p => body p.1 p.2.1 v p.2.2) init := by
  unfold forIncomingLaneConnections laneConnections
  rw [foldl_flatMap_eq]
  congr 1
  funext v i
  rw [foldl_flatMap_eq]
  congr 1
  funext v j
  rw [List.foldl_map]

theorem countInternalLanes_eq (nodes : NodeTable) (edges : EdgeTable) (n : NodePtr) :
    countInternalLanes nodes edges n
      = (laneConnections nodes edges n).countP (fun p => p.2.2.toEdge.isSome) := by
  have h := forIncomingLaneConnections_eq nodes edges n
    (fun _ _ lno k => if k.toEdge = none then lno else lno + 1) 0
  have key : ∀ (ps : List (EdgePtr × Nat × Connection)) (c : Nat),
      ps.foldl (fun v p => if p.2.2.toEdge = none then v else v + 1) c
        = c + ps.countP (fun p => p.2.2.toEdge.isSome) := by
    intro ps
    induction ps with
    | nil => simp
    | cons p ps ih =>
      intro c
      rw [List.foldl_cons, ih, List.countP_cons]
      cases hp : p.2.2.toEdge
      · simp
      · simp
        omega
  unfold forIncomingLaneConnections at h
  unfold countInternalLanes
  rw [h, key, Nat.zero_add]

theorem writeInternalEdges_body_lno (env : WriteEnv) (edges : EdgeTable) (n : NodePtr) (c : Nat)
    (innerID : String) (i : EdgePtr) (j : Nat) (v : InternalVars) (k : Connection) :
    (writeInternalEdges_body env edges n c innerID i j v k).lno
      = v.lno + (if k.toEdge.isSome then 1 else 0) := by
  unfold writeInternalEdges_body
  cases k.toEdge with
  | none => simp
  | some t =>
    simp only [Option.isSome_some, if_true]
    split <;> rfl

theorem writeJunction_body_l (env : WriteEnv) (n : NodePtr) (i : EdgePtr) (j : Nat)
    (v : JunctionVars) (k : Connection) :
    (writeJunction_body env n i j v k).l = v.l + (if k.toEdge.isSome then 1 else 0) := by
  unfold writeJunction_body
  cases k.toEdge with
  | none => simp
  | some t =>
    simp only [Option.isSome_some, if_true]
    split <;> rfl

theorem writeInternalNodes_body_lno (env : WriteEnv) (n : NodePtr) (c : Nat)
    (innerID : String) (i : EdgePtr) (j : Nat) (v : InternalVars) (k : Connection) :
    (writeInternalNodes_body env n c innerID i j v k).lno
      = v.lno + (if k.toEdge.isSome then 1 else 0) := by
  unfold writeInternalNodes_body
  cases k.toEdge with
  | none => simp
  | some t =>
    simp only [Option.isSome_some, if_true]
    split <;> rfl

theorem foldl_counter {σ : Type} (step : σ → EdgePtr × Nat × Connection → σ) (ctr : σ → Nat)
    (hstep : ∀ v p, ctr (step v p) = ctr v + (if p.2.2.toEdge.isSome then 1 else 0))
    (ps : List (EdgePtr × Nat × Connection)) (v : σ) :
    ctr (ps.foldl step v) = ctr v + ps.countP (fun p => p.2.2.toEdge.isSome) := by
  induction ps generalizing v with
  | nil => simp
  | cons p ps ih =>
    rw [List.foldl_cons, ih, hstep, List.countP_cons]
    cases hp : p.2.2.toEdge
    · simp
    · simp
      omega

theorem loop_index_agrees (env : WriteEnv) (edges : EdgeTable)
    (intoE intoJ intoN : Writer) (n : NodePtr) (m : Nat) :
    (writeInternalEdges_at env edges intoE n m).lno = (writeJunction_at env edges intoJ n m).l ∧
    (writeInternalEdges_at env edges intoE n m).lno
      = (writeInternalNodes_at env edges intoN n m).lno ∧
    (writeInternalEdges_at env edges intoE n m).lno
      = ((laneConnections env.nodes edges n).take m).countP (fun p => p.2.2.toEdge.isSome) ∧
    forIncomingLaneConnections env.nodes edges n
        (writeInternalEdges_body env edges n (countInternalLanes env.nodes edges n)
          (":" ++ (env.nodes n).id)) { lno := 0, splitNo := 0, ret := false, into := intoE }
      = writeInternalEdges_at env edges intoE n (laneConnections env.nodes edges n).length ∧
    forIncomingLaneConnections env.nodes edges n (writeJunction_body env n)
        { l := 0, o := countInternalLanes env.nodes edges n, into := intoJ }
      = writeJunction_at env edges intoJ n (laneConnections env.nodes edges n).length ∧
    forIncomingLaneConnections env.nodes edges n
        (writeInternalNodes_body env n (countInternalLanes env.nodes edges n)
          (":" ++ (env.nodes n).id)) { lno := 0, splitNo := 0, ret := false, into := intoN }
      = writeInternalNodes_at env edges intoN n (laneConnections env.nodes edges n).length := by
  have hE : (writeInternalEdges_at env edges intoE n m).lno
      = ((laneConnections env.nodes edges n).take m).countP (fun p => p.2.2.toEdge.isSome) := by
    unfold writeInternalEdges_at
    rw [foldl_counter _ InternalVars.lno
      (fun v p => writeInternalEdges_body_lno env edges n _ _ p.1 p.2.1 v p.2.2)]
    simp
  have hJ : (writeJunction_at env edges intoJ n m).l
      = ((laneConnections env.nodes edges n).take m).countP (fun p => p.2.2.toEdge.isSome) := by
    unfold writeJunction_at
    rw [foldl_counter _ JunctionVars.l
      (fun v p => writeJunction_body_l env n p.1 p.2.1 v p.2.2)]
    simp
  have hN : (writeInternalNodes_at env edges intoN n m).lno
      = ((laneConnections env.nodes edges n).take m).countP (fun p => p.2.2.toEdge.isSome) := by
    unfold writeInternalNodes_at
    rw [foldl_counter _ InternalVars.lno
      (fun v p => writeInternalNodes_body_lno env n _ _ p.1 p.2.1 v p.2.2)]
    simp
  refine ⟨by rw [hE, hJ], by rw [hE, hN], hE, ?_, ?_, ?_⟩
  · rw [forIncomingLaneConnections_eq, writeInternalEdges_at, List.take_length]
  · rw [forIncomingLaneConnections_eq, writeJunction_at, List.take_length]
  · rw [forIncomingLaneConnections_eq, writeInternalNodes_at, List.take_length]

/-! ### The writer: the ids of internal lanes at a crossing position of 0 -/

/-- C5 (failing input): at a node whose incoming lane has two connections,
with crossing position 0 for the first and 5 for the second,
`writeInternalEdges` writes both connections split, the first as `:n_0` and
`:n_2`, the second as `:n_1` and `:n_3`; `writeJunction` lists `:n_0_0` for
the first, the lane of its first piece, and `:n_2_0` for the second, which is
the lane of the second piece of the first connection. -/
theorem junction_intLanes_mismatch :
    internalLayout forkEnv forkEdges 0
      = [{ fromEdge := 1, fromLane := 0, toEdge := 2, toLane := 0, id := ":n_0",
           splitId := some ":n_2" },
         { fromEdge := 1, fromLane := 0, toEdge := 3, toLane := 0, id := ":n_1",
           splitId := some ":n_3" }] ∧
    writeInternalEdges forkEnv forkEdges emptyWriter 0
      = (true, writeInternalEdge forkEnv (writeInternalEdge forkEnv
          (writeInternalEdge forkEnv (writeInternalEdge forkEnv emptyWriter
            ":n_0" 10 [(0, 0), (0, 0)]) ":n_2" 10 [(0, 0), (10, 0)])
            ":n_1" 10 [(0, 0), (5, 0)]) ":n_3" 10 [(5, 0), (10, 0)]) ∧
    (writeJunction_at forkEnv forkEdges emptyWriter 0 2).into.into
      = [Item.str ":n_0_0", Item.str " ", Item.str ":n_2_0"] ∧
    (writeJunction forkEnv forkEdges emptyWriter 0).into
      = [Item.openTag SumoXMLTag.SUMO_TAG_JUNCTION, Item.str " id=\"n\"",
         Item.str " type=\"priority\"", Item.str " x=\"", Item.real 0, Item.str "\" y=\"",
         Item.real 0, Item.str "\"", Item.str " incLanes=\"", Item.str "1_0", Item.str "\"",
         Item.str " intLanes=\"", Item.str ":n_0_0", Item.str " ", Item.str ":n_2_0",
         Item.str "\"", Item.str " shape=\"", Item.positionVector [], Item.str "\">\n",
         Item.closeTag false] := by
  refine ⟨?_, ?_, ?_, ?_⟩ <;> with_unfolding_all decide

/-- C8 (failing input): at a node with a single connection whose crossing
position is 0, `writeInternalEdges` writes the connection split, as `:n_0` and
`:n_1`, and `writeInternalNodes` writes no internal junction at all. -/
theorem internal_nodes_miss_split :
    writeInternalEdges singleEnv singleEdges emptyWriter 0
      = (true, writeInternalEdge singleEnv (writeInternalEdge singleEnv emptyWriter
          ":n_0" 10 [(0, 0), (0, 0)]) ":n_1" 10 [(0, 0), (10, 0)]) ∧
    writeInternalNodes singleEnv singleEdges emptyWriter 0 = (false, emptyWriter) := by
  refine ⟨?_, ?_⟩ <;> with_unfolding_all decide

/-! ### The writer: the length of an internal lane -/

theorem Writer.put_put (w : Writer) (a b : List Item) : (w.put a).put b = w.put (a ++ b) := by
  unfold Writer.put
  by_cases h : w.failure.isSome
  · simp [h]
  · simp [h]

theorem MAX2_eq_max (a b : SUMOReal) : MAX2 a b = max a b := by
  unfold MAX2
  split
  · rename_i h
    exact (max_eq_left (le_of_lt h)).symm
  · rename_i h
    exact (max_eq_right (not_lt.1 h)).symm

/-- C10: for every shape, `writeInternalEdge` writes as length the larger of
the length of the shape and `POSITION_EPS`, and that number is positive when
`POSITION_EPS` is. -/
theorem writeInternalEdge_length (env : WriteEnv) (heps : 0 < env.POSITION_EPS) (into : Writer)
    (id : String) (vmax : SUMOReal) (shape : PositionVector) :
    writeInternalEdge env into id vmax shape
      = into.put [Item.openTag SumoXMLTag.SUMO_TAG_EDGE,
          Item.str (" id=\"" ++ id ++ "\" function=\"internal\">\n"),
          Item.openTag SumoXMLTag.SUMO_TAG_LANE,
          Item.str (" id=\"" ++ id ++ "_0\" index=\"0\" " ++ "maxSpeed=\""), Item.real vmax,
          Item.str ("\" " ++ "length=\"" ++
            env.toStringReal (max (env.length shape) env.POSITION_EPS) ++ "\" " ++ "shape=\""),
          Item.positionVector shape, Item.str "\"", Item.closeTag true, Item.closeTag false] ∧
    0 < max (env.length shape) env.POSITION_EPS := by
  constructor
  · unfold writeInternalEdge
    simp only [Writer.put_put, MAX2_eq_max, List.cons_append, List.nil_append]
  · exact lt_max_of_lt_right heps

/-- Witness of C10: a shape of length 0 is written with length 1/10. -/
theorem writeInternalEdge_length_witness :
    (0 : SUMOReal) < (demoEnv [] fun _ => 0).POSITION_EPS ∧
    (demoEnv [] fun _ => 0).length [(3, 0), (3, 0)] = 0 ∧
    (writeInternalEdge (demoEnv [] fun _ => 0) emptyWriter ":n_0" 10 [(3, 0), (3, 0)]
      = emptyWriter.put [Item.openTag SumoXMLTag.SUMO_TAG_EDGE,
          Item.str (" id=\"" ++ ":n_0" ++ "\" function=\"internal\">\n"),
          Item.openTag SumoXMLTag.SUMO_TAG_LANE,
          Item.str (" id=\"" ++ ":n_0" ++ "_0\" index=\"0\" " ++ "maxSpeed=\""), Item.real 10,
          Item.str ("\" " ++ "length=\"" ++
            (demoEnv [] fun _ => 0).toStringReal
              (max ((demoEnv [] fun _ => 0).length [(3, 0), (3, 0)])
                (demoEnv [] fun _ => 0).POSITION_EPS) ++ "\" " ++ "shape=\""),
          Item.positionVector [(3, 0), (3, 0)], Item.str "\"", Item.closeTag true,
          Item.closeTag false] ∧
      0 < max ((demoEnv [] fun _ => 0).length [(3, 0), (3, 0)])
        (demoEnv [] fun _ => 0).POSITION_EPS) :=
  ⟨by with_unfolding_all decide, by with_unfolding_all decide,
    writeInternalEdge_length (demoEnv [] fun _ => 0) (by with_unfolding_all decide) emptyWriter
      ":n_0" 10 [(3, 0), (3, 0)]⟩

/-! ### The writer: sorting the connections of an edge -/

instance : IsTotal Connection connections_sorter :=
  ⟨fun a b => le_total a.fromLane b.fromLane⟩

instance : IsTrans Connection connections_sorter :=
  ⟨fun _ _ _ h1 h2 => le_trans h1 h2⟩

theorem sortConnections_sorted (l : List Connection) :
    (sortConnections l).Pairwise connections_sorter :=
  List.sorted_insertionSort _ l

theorem sortConnections_perm (l : List Connection) : (sortConnections l).Perm l :=
  List.perm_insertionSort _ l

theorem sortConnections_idem (l : List Connection) :
    sortConnections (sortConnections l) = sortConnections l :=
  List.Sorted.insertionSort_eq (sortConnections_sorted l)

theorem filter_orderedInsert (j : Nat) (a : Connection) (l : List Connection) :
    (l.orderedInsert connections_sorter a).filter (fun c => decide (c.fromLane = j))
      = (a :: l).filter (fun c => decide (c.fromLane = j)) := by
  induction l with
  | nil => rfl
  | cons b l ih =>
    rw [List.orderedInsert]
    split
    · rfl
    · rename_i h
      have hlt : b.fromLane < a.fromLane := not_le.1 h
      rw [List.filter_cons, ih]
      by_cases ha : a.fromLane = j
      · have hb : ¬ b.fromLane = j := by omega
        simp [List.filter_cons, ha, hb]
      · simp [List.filter_cons, ha]

/-- The sort is stable: the connections from a lane keep their order. -/
theorem filter_sortConnections (j : Nat) (l : List Connection) :
    (sortConnections l).filter (fun c => decide (c.fromLane = j))
      = l.filter (fun c => decide (c.fromLane = j)) := by
  induction l with
  | nil => rfl
  | cons a l ih =>
    show ((sortConnections l).orderedInsert connections_sorter a).filter _ = _
    rw [filter_orderedInsert, List.filter_cons, List.filter_cons, ih]

theorem Writer.put_failure (w : Writer) (items : List Item) :
    (w.put items).failure = w.failure := by
  unfold Writer.put
  split <;> rfl

theorem internalLayoutFrom_length (env : WriteEnv) (n : NodePtr) (c : Nat)
    (ps : List (EdgePtr × Nat × Connection)) (lno splitNo : Nat) :
    (internalLayoutFrom env n c lno splitNo ps).length
      = ps.countP (fun p => p.2.2.toEdge.isSome) := by
  induction ps generalizing lno splitNo with
  | nil => rfl
  | cons p ps ih =>
    obtain ⟨i, j, k⟩ := p
    rw [internalLayoutFrom, List.countP_cons]
    cases hk : k.toEdge with
    | none => simp [ih]
    | some t =>
      simp only [Option.isSome_some, if_true]
      split <;> simp [ih]

theorem internalLayout_eq_nil (env : WriteEnv) (edges : EdgeTable) (n : NodePtr)
    (h : countInternalLanes env.nodes edges n = 0) : internalLayout env edges n = [] := by
  apply List.eq_nil_of_length_eq_zero
  rw [internalLayout, internalLayoutFrom_length, ← countInternalLanes_eq, h]

theorem foldl_writeInternalEdges_body (env : WriteEnv) (edges : EdgeTable) (n : NodePtr) (c : Nat)
    (ps : List (EdgePtr × Nat × Connection)) (v : InternalVars) :
    (ps.foldl (fun v p => writeInternalEdges_body env edges n c (":" ++ (env.nodes n).id)
        p.1 p.2.1 v p.2.2) v).into
      = (internalLayoutFrom env n c v.lno v.splitNo ps).foldl (writeLayoutEdges env edges n)
          v.into := by
  induction ps generalizing v with
  | nil => rfl
  | cons p ps ih =>
    obtain ⟨i, j, k⟩ := p
    rw [List.foldl_cons, ih, internalLayoutFrom]
    simp only [writeInternalEdges_body]
    cases hk : k.toEdge with
    | none => rfl
    | some t =>
      simp only
      by_cases hc : env.getCrossingPosition n i j t k.toLane ≥ 0
      · simp only [if_pos hc, List.foldl_cons, writeLayoutEdges]
      · simp only [if_neg hc, List.foldl_cons, writeLayoutEdges]

theorem SameButOrder.refl_order (a : EdgeTable) : SameButOrder a a := fun _ => ⟨rfl, rfl⟩

theorem SameButOrder.symm_order {a b : EdgeTable} (h : SameButOrder a b) : SameButOrder b a :=
  fun p => ⟨(h p).1.symm, (h p).2.symm⟩

theorem SameButOrder.trans_order {a b c : EdgeTable} (h1 : SameButOrder a b) (h2 : SameButOrder b c) :
    SameButOrder a c := fun p => ⟨(h1 p).1.trans (h2 p).1, (h1 p).2.trans (h2 p).2⟩

theorem SameButOrder.id_eq {a b : EdgeTable} (h : SameButOrder a b) (p : EdgePtr) :
    (a p).id = (b p).id := by
  have := congrArg NBEdge.id (h p).2
  exact this

theorem sortOutgoingConnectionsByIndex_sameButOrder (a : EdgeTable) (e : EdgePtr) :
    SameButOrder (sortOutgoingConnectionsByIndex a e) a := by
  intro p
  unfold sortOutgoingConnectionsByIndex
  by_cases hp : p = e
  · subst hp
    rw [Function.update_same]
    exact ⟨sortConnections_idem _, rfl⟩
  · rw [Function.update_noteq hp]
    exact ⟨rfl, rfl⟩

theorem sortOutgoingConnectionsByIndex_connections (a : EdgeTable) (e : EdgePtr) :
    (sortOutgoingConnectionsByIndex a e e).connections = sortConnections (a e).connections := by
  unfold sortOutgoingConnectionsByIndex
  rw [Function.update_same]

theorem writeInternalConnections_body_congr (env : WriteEnv) {a b : EdgeTable}
    (h : ∀ p, (a p).id = (b p).id) (n : NodePtr) (c : Nat) (innerID : String) (from_ : EdgePtr) :
    writeInternalConnections_body env a n c innerID from_
      = writeInternalConnections_body env b n c innerID from_ := by
  funext v k
  simp only [writeInternalConnections_body, h]

theorem flatMap_congr_mem {α β : Type} (l : List α) (f g : α → List β)
    (h : ∀ a ∈ l, f a = g a) : l.flatMap f = l.flatMap g := by
  induction l with
  | nil => rfl
  | cons a l ih =>
    rw [List.flatMap_cons, List.flatMap_cons, h a (List.mem_cons_self _ _),
      ih fun x hx => h x (List.mem_cons_of_mem _ hx)]

theorem SameButOrder.fields {a b : EdgeTable} (h : SameButOrder a b) (p : EdgePtr) :
    (a p).id = (b p).id ∧ (a p).fromNode = (b p).fromNode ∧ (a p).toNode = (b p).toNode ∧
    (a p).streetName = (b p).streetName ∧ (a p).priority = (b p).priority ∧
    (a p).typeName = (b p).typeName ∧
    (a p).macroscopicConnector = (b p).macroscopicConnector ∧
    (a p).laneSpreadFunction = (b p).laneSpreadFunction ∧
    (a p).defaultGeometry = (b p).defaultGeometry ∧ (a p).geometry = (b p).geometry ∧
    (a p).speed = (b p).speed ∧ (a p).loadedLength = (b p).loadedLength ∧
    (a p).lanes = (b p).lanes := by
  have e := (h p).2
  generalize a p = x at e ⊢
  generalize b p = y at e ⊢
  cases x
  cases y
  simp only [NBEdge.mk.injEq] at e
  simp only
  tauto

theorem SameButOrder.connectionsFromLane_eq {a b : EdgeTable} (h : SameButOrder a b)
    (p : EdgePtr) (j : Nat) :
    (a p).getConnectionsFromLane j = (b p).getConnectionsFromLane j := by
  unfold NBEdge.getConnectionsFromLane
  rw [← filter_sortConnections j (a p).connections, ← filter_sortConnections j (b p).connections,
    (h p).1]

theorem SameButOrder.length_eq {a b : EdgeTable} (h : SameButOrder a b) (p : EdgePtr) :
    (a p).connections.length = (b p).connections.length := by
  rw [← (sortConnections_perm (a p).connections).length_eq,
    ← (sortConnections_perm (b p).connections).length_eq, (h p).1]

theorem countInternalLanes_congr (nodes : NodeTable) {a b : EdgeTable} (h : SameButOrder a b) :
    countInternalLanes nodes a = countInternalLanes nodes b := by
  funext n
  have hl : ∀ p, (a p).lanes = (b p).lanes := fun p => (h.fields p).2.2.2.2.2.2.2.2.2.2.2.2
  simp only [countInternalLanes, NBEdge.getNumLanes, hl, h.connectionsFromLane_eq]

theorem forIncomingLaneConnections_congr {σ : Type} (nodes : NodeTable) {a b : EdgeTable}
    (h : SameButOrder a b) :
    @forIncomingLaneConnections σ nodes a = @forIncomingLaneConnections σ nodes b := by
  funext n body init
  have hl : ∀ p, (a p).lanes = (b p).lanes := fun p => (h.fields p).2.2.2.2.2.2.2.2.2.2.2.2
  simp only [forIncomingLaneConnections, NBEdge.getNumLanes, hl, h.connectionsFromLane_eq]

theorem writeInternalEdges_congr (env : WriteEnv) {a b : EdgeTable} (h : SameButOrder a b) :
    writeInternalEdges env a = writeInternalEdges env b := by
  funext into n
  have hl : ∀ p, (a p).lanes = (b p).lanes := fun p => (h.fields p).2.2.2.2.2.2.2.2.2.2.2.2
  have hs : ∀ p, (a p).speed = (b p).speed := fun p => (h.fields p).2.2.2.2.2.2.2.2.2.2.1
  have hb : writeInternalEdges_body env a = writeInternalEdges_body env b := by
    funext n c innerID i j v k
    simp only [writeInternalEdges_body, internalVmax, NBEdge.getLaneShape, hl, hs]
  simp only [writeInternalEdges, countInternalLanes_congr env.nodes h,
    forIncomingLaneConnections_congr env.nodes h, hb]

theorem writeEdge_congr (env : WriteEnv) {a b : EdgeTable} (h : SameButOrder a b) :
    writeEdge env a = writeEdge env b := by
  funext into e noNames
  obtain ⟨h1, h2, h3, h4, h5, h6, h7, h8, h9, h10, _, h12, h13⟩ := h.fields e
  simp only [writeEdge, h1, h2, h3, h4, h5, h6, h7, h8, h9, h10, h12, h13]

theorem writeIncLanes_congr {a b : EdgeTable} (h : SameButOrder a b) (l : List EdgePtr)
    (into : Writer) : writeIncLanes a l into = writeIncLanes b l into := by
  induction l generalizing into with
  | nil => rfl
  | cons i l ih =>
    obtain ⟨h1, _, _, _, _, _, _, _, _, _, _, _, h13⟩ := h.fields i
    simp only [writeIncLanes, NBEdge.getNumLanes, h1, h13, ih]

theorem writeJunction_congr (env : WriteEnv) {a b : EdgeTable} (h : SameButOrder a b) :
    writeJunction env a = writeJunction env b := by
  funext into n
  have hlen : ∀ p, (a p).getConnections.length = (b p).getConnections.length := h.length_eq
  simp only [writeJunction, countInternalLanes_congr env.nodes h,
    forIncomingLaneConnections_congr env.nodes h, hlen, writeIncLanes_congr h]

theorem writeInternalNodes_congr (env : WriteEnv) {a b : EdgeTable} (h : SameButOrder a b) :
    writeInternalNodes env a = writeInternalNodes env b := by
  funext into n
  simp only [writeInternalNodes, countInternalLanes_congr env.nodes h,
    forIncomingLaneConnections_congr env.nodes h]

theorem writeConnection_congr (env : WriteEnv) {a b : EdgeTable} (h : SameButOrder a b) :
    writeConnection env a = writeConnection env b := by
  funext into from_ c includeInternal plain
  have hid : ∀ p, (a p).id = (b p).id := fun p => (h.fields p).1
  have hto : ∀ p, (a p).toNode = (b p).toNode := fun p => (h.fields p).2.2.1
  simp only [writeConnection, hid, hto]

theorem writeRoundabout_congr (env : WriteEnv) {a b : EdgeTable} (h : SameButOrder a b) :
    writeRoundabout env a = writeRoundabout env b := by
  funext into r
  have hto : ∀ p, (a p).toNode = (b p).toNode := fun p => (h.fields p).2.2.1
  simp only [writeRoundabout, hto]

theorem writeDistrict_congr (env : WriteEnv) {a b : EdgeTable} (h : SameButOrder a b) :
    writeDistrict env a = writeDistrict env b := by
  funext into d
  have hid : ∀ p, (a p).id = (b p).id := fun p => (h.fields p).1
  simp only [writeDistrict, hid]

theorem writeNetwork_elements_congr (env : WriteEnv) (oc : OptionsCont) (nb : NBNetBuilder)
    {a b : EdgeTable} (h : SameButOrder a b) :
    writeNetwork_elements env oc nb a = writeNetwork_elements env oc nb b := by
  funext device
  simp only [writeNetwork_elements, writeInternalEdges_congr env h, writeEdge_congr env h,
    writeJunction_congr env h, writeInternalNodes_congr env h]

theorem writeNetwork_rest_congr (env : WriteEnv) (nb : NBNetBuilder)
    {a b : EdgeTable} (h : SameButOrder a b) :
    writeNetwork_rest env nb a = writeNetwork_rest env nb b := by
  funext device
  simp only [writeNetwork_rest, writeRoundabout_congr env h, writeDistrict_congr env h]

theorem writeConnections_edge_congr (env : WriteEnv) (includeInternal : Bool)
    (x y : Nat × NetState) (h1 : x.1 = y.1) (h2 : x.2.into = y.2.into)
    (h3 : SameButOrder x.2.edges y.2.edges) (it_edge : String × EdgePtr) :
    (writeConnections_edge env includeInternal x it_edge).1
      = (writeConnections_edge env includeInternal y it_edge).1 ∧
    (writeConnections_edge env includeInternal x it_edge).2.into
      = (writeConnections_edge env includeInternal y it_edge).2.into ∧
    SameButOrder (writeConnections_edge env includeInternal x it_edge).2.edges
      (writeConnections_edge env includeInternal y it_edge).2.edges := by
  unfold writeConnections_edge
  rw [← h2]
  by_cases hf : x.2.into.failure.isSome
  · simp only [hf, if_true]
    exact ⟨h1, h2, h3⟩
  · simp only [hf]
    have hs : SameButOrder (sortOutgoingConnectionsByIndex x.2.edges it_edge.2)
        (sortOutgoingConnectionsByIndex y.2.edges it_edge.2) :=
      ((sortOutgoingConnectionsByIndex_sameButOrder _ _).trans_order h3).trans_order
        (sortOutgoingConnectionsByIndex_sameButOrder _ _).symm_order
    have hc : (sortOutgoingConnectionsByIndex x.2.edges it_edge.2 it_edge.2).getConnections
        = (sortOutgoingConnectionsByIndex y.2.edges it_edge.2 it_edge.2).getConnections := by
      simp only [NBEdge.getConnections, sortOutgoingConnectionsByIndex_connections]
      exact (h3 it_edge.2).1
    simp only [Bool.false_eq_true, if_false, hc, h1, writeConnection_congr env hs]
    exact ⟨trivial, trivial, hs⟩

theorem writeConnections_congr (env : WriteEnv) (nb : NBNetBuilder) (includeInternal : Bool)
    (device : Writer) {a b : EdgeTable} (h : SameButOrder a b) :
    (writeConnections env nb includeInternal { into := device, edges := a }).1
      = (writeConnections env nb includeInternal { into := device, edges := b }).1 ∧
    (writeConnections env nb includeInternal { into := device, edges := a }).2.into
      = (writeConnections env nb includeInternal { into := device, edges := b }).2.into ∧
    SameButOrder (writeConnections env nb includeInternal { into := device, edges := a }).2.edges
      (writeConnections env nb includeInternal { into := device, edges := b }).2.edges := by
  unfold writeConnections
  have key : ∀ (l : List (String × EdgePtr)) (x y : Nat × NetState), x.1 = y.1 →
      x.2.into = y.2.into → SameButOrder x.2.edges y.2.edges →
      (l.foldl (writeConnections_edge env includeInternal) x).1
        = (l.foldl (writeConnections_edge env includeInternal) y).1 ∧
      (l.foldl (writeConnections_edge env includeInternal) x).2.into
        = (l.foldl (writeConnections_edge env includeInternal) y).2.into ∧
      SameButOrder (l.foldl (writeConnections_edge env includeInternal) x).2.edges
        (l.foldl (writeConnections_edge env includeInternal) y).2.edges := by
    intro l
    induction l with
    | nil => exact fun x y h1 h2 h3 => ⟨h1, h2, h3⟩
    | cons e l ih =>
      intro x y h1 h2 h3
      obtain ⟨g1, g2, g3⟩ := writeConnections_edge_congr env includeInternal x y h1 h2 h3 e
      exact ih _ _ g1 g2 g3
  exact key _ _ _ rfl rfl h

theorem writeConnections_edges (env : WriteEnv) (nb : NBNetBuilder) (includeInternal : Bool)
    (s : NetState) :
    SameButOrder (writeConnections env nb includeInternal s).2.edges s.edges := by
  unfold writeConnections
  have key : ∀ (l : List (String × EdgePtr)) (x : Nat × NetState),
      SameButOrder (l.foldl (writeConnections_edge env includeInternal) x).2.edges x.2.edges := by
    intro l
    induction l with
    | nil => exact fun x => SameButOrder.refl_order _
    | cons e l ih =>
      intro x
      refine (ih _).trans_order ?_
      unfold writeConnections_edge
      split
      · exact SameButOrder.refl_order _
      · exact sortOutgoingConnectionsByIndex_sameButOrder _ _
  exact key _ _

theorem writeInternalConnections_edge_congr (env : WriteEnv) (n : NodePtr) (c : Nat)
    (innerID : String) (x y : InternalConnVars) (h1 : x.v = y.v)
    (h2 : SameButOrder x.edges y.edges) (from_ : EdgePtr) :
    (writeInternalConnections_edge env n c innerID x from_).v
      = (writeInternalConnections_edge env n c innerID y from_).v ∧
    SameButOrder (writeInternalConnections_edge env n c innerID x from_).edges
      (writeInternalConnections_edge env n c innerID y from_).edges := by
  unfold writeInternalConnections_edge
  rw [← h1]
  by_cases hf : x.v.into.failure.isSome
  · simp only [hf, if_true]
    exact ⟨h1, h2⟩
  · have hs : SameButOrder (sortOutgoingConnectionsByIndex x.edges from_)
        (sortOutgoingConnectionsByIndex y.edges from_) :=
      ((sortOutgoingConnectionsByIndex_sameButOrder _ _).trans_order h2).trans_order
        (sortOutgoingConnectionsByIndex_sameButOrder _ _).symm_order
    have hc : (sortOutgoingConnectionsByIndex x.edges from_ from_).getConnections
        = (sortOutgoingConnectionsByIndex y.edges from_ from_).getConnections := by
      simp only [NBEdge.getConnections, sortOutgoingConnectionsByIndex_connections]
      exact (h2 from_).1
    simp only [hf, Bool.false_eq_true, if_false, hc,
      writeInternalConnections_body_congr env hs.id_eq]
    exact ⟨trivial, hs⟩

theorem writeInternalConnections_congr (env : WriteEnv) (into : Writer) (n : NodePtr)
    {a b : EdgeTable} (h : SameButOrder a b) :
    (writeInternalConnections env a into n).1 = (writeInternalConnections env b into n).1 ∧
    (writeInternalConnections env a into n).2.1 = (writeInternalConnections env b into n).2.1 ∧
    SameButOrder (writeInternalConnections env a into n).2.2
      (writeInternalConnections env b into n).2.2 := by
  unfold writeInternalConnections
  rw [countInternalLanes_congr env.nodes h]
  by_cases h0 : countInternalLanes env.nodes b n = 0
  · simp only [h0, if_true]
    exact ⟨trivial, trivial, h⟩
  · simp only [h0, if_false]
    have key : ∀ (l : List EdgePtr) (x y : InternalConnVars), x.v = y.v →
        SameButOrder x.edges y.edges →
        (l.foldl (writeInternalConnections_edge env n (countInternalLanes env.nodes b n)
            (":" ++ (env.nodes n).id)) x).v
          = (l.foldl (writeInternalConnections_edge env n (countInternalLanes env.nodes b n)
            (":" ++ (env.nodes n).id)) y).v ∧
        SameButOrder
          (l.foldl (writeInternalConnections_edge env n (countInternalLanes env.nodes b n)
            (":" ++ (env.nodes n).id)) x).edges
          (l.foldl (writeInternalConnections_edge env n (countInternalLanes env.nodes b n)
            (":" ++ (env.nodes n).id)) y).edges := by
      intro l
      induction l with
      | nil => exact fun x y h1 h2 => ⟨h1, h2⟩
      | cons e l ih =>
        intro x y h1 h2
        obtain ⟨g1, g2⟩ := writeInternalConnections_edge_congr env n _ _ x y h1 h2 e
        exact ih _ _ g1 g2
    obtain ⟨k1, k2⟩ := key (env.nodes n).incoming
      { v := { lno := 0, splitNo := 0, ret := false, into := into }, edges := a }
      { v := { lno := 0, splitNo := 0, ret := false, into := into }, edges := b } rfl h
    exact ⟨by rw [k1], by rw [k1], k2⟩

theorem writeInternalConnections_edges (env : WriteEnv) (into : Writer) (n : NodePtr)
    (a : EdgeTable) : SameButOrder (writeInternalConnections env a into n).2.2 a := by
  unfold writeInternalConnections
  by_cases h0 : countInternalLanes env.nodes a n = 0
  · simp only [h0, if_true]
    exact SameButOrder.refl_order _
  · simp only [h0, if_false]
    have key : ∀ (l : List EdgePtr) (x : InternalConnVars),
        SameButOrder
          (l.foldl (writeInternalConnections_edge env n (countInternalLanes env.nodes a n)
            (":" ++ (env.nodes n).id)) x).edges x.edges := by
      intro l
      induction l with
      | nil => exact fun x => SameButOrder.refl_order _
      | cons e l ih =>
        intro x
        refine (ih _).trans_order ?_
        unfold writeInternalConnections_edge
        split
        · exact SameButOrder.refl_order _
        · exact sortOutgoingConnectionsByIndex_sameButOrder _ _
    exact key _ _

theorem writeNetwork_internalConnections_congr (env : WriteEnv) (nb : NBNetBuilder)
    (device : Writer) {a b : EdgeTable} (h : SameButOrder a b) :
    (writeNetwork_internalConnections env nb { into := device, edges := a }).into
      = (writeNetwork_internalConnections env nb { into := device, edges := b }).into ∧
    SameButOrder (writeNetwork_internalConnections env nb { into := device, edges := a }).edges
      (writeNetwork_internalConnections env nb { into := device, edges := b }).edges := by
  have key : ∀ (l : List (String × NodePtr)) (x y : Bool × NetState), x.1 = y.1 →
      x.2.into = y.2.into → SameButOrder x.2.edges y.2.edges →
      (l.foldl (writeNetwork_internalConnections_node env) x).1
        = (l.foldl (writeNetwork_internalConnections_node env) y).1 ∧
      (l.foldl (writeNetwork_internalConnections_node env) x).2.into
        = (l.foldl (writeNetwork_internalConnections_node env) y).2.into ∧
      SameButOrder (l.foldl (writeNetwork_internalConnections_node env) x).2.edges
        (l.foldl (writeNetwork_internalConnections_node env) y).2.edges := by
    intro l
    induction l with
    | nil => exact fun x y h1 h2 h3 => ⟨h1, h2, h3⟩
    | cons i l ih =>
      intro x y h1 h2 h3
      obtain ⟨g1, g2, g3⟩ := writeInternalConnections_congr env x.2.into i.2 h3
      apply ih
      · show (x.1 || _) = (y.1 || _)
        rw [h1, g1, h2]
      · show (writeInternalConnections env x.2.edges x.2.into i.2).2.1 = _
        rw [g2, h2]
        rfl
      · show SameButOrder (writeInternalConnections env x.2.edges x.2.into i.2).2.2
          (writeInternalConnections env y.2.edges y.2.into i.2).2.2
        rw [← h2]
        exact g3
  obtain ⟨k1, k2, k3⟩ := key nb.nodeCont (false, { into := device, edges := a })
    (false, { into := device, edges := b }) rfl rfl h
  unfold writeNetwork_internalConnections
  simp only [k1]
  split
  · exact ⟨by rw [k2], k3⟩
  · exact ⟨k2, k3⟩

theorem writeNetwork_internalConnections_edges (env : WriteEnv) (nb : NBNetBuilder)
    (s : NetState) : SameButOrder (writeNetwork_internalConnections env nb s).edges s.edges := by
  have key : ∀ (l : List (String × NodePtr)) (x : Bool × NetState),
      SameButOrder (l.foldl (writeNetwork_internalConnections_node env) x).2.edges x.2.edges := by
    intro l
    induction l with
    | nil => exact fun x => SameButOrder.refl_order _
    | cons i l ih =>
      intro x
      exact (ih _).trans_order (writeInternalConnections_edges env x.2.into i.2 x.2.edges)
  unfold writeNetwork_internalConnections
  simp only
  split
  · exact key _ _
  · exact key _ _

theorem writeNetwork_edges (env : WriteEnv) (oc : OptionsCont) (nb : NBNetBuilder)
    (s : NetState) : SameButOrder (writeNetwork env oc nb s).edges s.edges := by
  unfold writeNetwork
  by_cases h0 : oc.output_file.isNone
  · simp only [h0, if_true]
    exact SameButOrder.refl_order _
  · simp only [h0, Bool.false_eq_true, if_false]
    split
    · exact (writeNetwork_internalConnections_edges env nb _).trans_order
        (writeConnections_edges env nb _ _)
    · exact writeConnections_edges env nb _ _

theorem writeNetwork_congr (env : WriteEnv) (oc : OptionsCont) (nb : NBNetBuilder)
    (device : Writer) {a b : EdgeTable} (h : SameButOrder a b) :
    (writeNetwork env oc nb { into := device, edges := a }).into
      = (writeNetwork env oc nb { into := device, edges := b }).into := by
  unfold writeNetwork
  by_cases h0 : oc.output_file.isNone
  · simp only [h0, if_true]
  · simp only [h0, Bool.false_eq_true, if_false, writeNetwork_elements_congr env oc nb h]
    generalize (!oc.no_internal_links) = inc
    obtain ⟨c1, c2, c3⟩ := writeConnections_congr env nb inc
      (writeNetwork_elements env oc nb b device) h
    rw [c1, c2]
    cases inc with
    | true =>
      simp only [if_true]
      obtain ⟨d1, d2⟩ := writeNetwork_internalConnections_congr env nb
        (if (writeConnections env nb true
              { into := writeNetwork_elements env oc nb b device, edges := b }).1 > 0 then
            (writeConnections env nb true
              { into := writeNetwork_elements env oc nb b device, edges := b }).2.into.put
              [Item.str "\n"]
          else (writeConnections env nb true
              { into := writeNetwork_elements env oc nb b device, edges := b }).2.into) c3
      rw [d1, writeNetwork_rest_congr env nb d2]
    | false =>
      simp only [Bool.false_eq_true, if_false]
      rw [writeNetwork_rest_congr env nb c3]

/-- C9: a second run of `writeNetwork` with the same options, the same
collaborators and the same state of the device, on the edge objects as the
first run left them, writes the same output as the first run. -/
theorem writeNetwork_deterministic (env : WriteEnv) (oc : OptionsCont) (nb : NBNetBuilder)
    (device : Writer) (edges : EdgeTable) :
    (writeNetwork env oc nb
        { into := device,
          edges := (writeNetwork env oc nb { into := device, edges := edges }).edges }).into
      = (writeNetwork env oc nb { into := device, edges := edges }).into :=
  writeNetwork_congr env oc nb device
    (writeNetwork_edges env oc nb { into := device, edges := edges })

set_option maxRecDepth 100000 in
/-- Claim C20, as stated, fails: a run of `writeNetwork` that changes the edge
objects.  The connection of edge 1 from lane 1 is stored before the one from
lane 0; the run ends without failure, and after it the one from lane 0 comes
first, so the stored connection list is not in the same order as before. -/
theorem writeNetwork_sorts_connections :
    (crossedEdges 1).connections = [mkConnection 1 (some 2) 0, mkConnection 0 (some 3) 0] ∧
    ((writeNetwork crossedEnv crossedEnv.options crossedNet
        { into := emptyWriter, edges := crossedEdges }).edges 1).connections
      = [mkConnection 0 (some 3) 0, mkConnection 1 (some 2) 0] ∧
    (writeNetwork crossedEnv crossedEnv.options crossedNet
        { into := emptyWriter, edges := crossedEdges }).into.failure = none ∧
    ((writeNetwork crossedEnv crossedEnv.options crossedNet
        { into := emptyWriter, edges := crossedEdges }).edges 1).connections
      ≠ (crossedEdges 1).connections := by
  refine ⟨?_, ?_, ?_, ?_⟩ <;> with_unfolding_all decide

/-! ### The speed of the internal lanes -/

theorem writeInternalEdges_layout (env : WriteEnv) (edges : EdgeTable) (into : Writer)
    (n : NodePtr) :
    (writeInternalEdges env edges into n).2
      = (internalLayout env edges n).foldl (writeLayoutEdges env edges n) into := by
  unfold writeInternalEdges
  by_cases h0 : countInternalLanes env.nodes edges n = 0
  · simp only [h0, if_true, internalLayout_eq_nil env edges n h0, List.foldl_nil]
  · simp only [h0, if_false]
    rw [forIncomingLaneConnections_eq, foldl_writeInternalEdges_body]
    rfl

/-- Claim C18: the maximum speed `writeInternalEdges` passes on for the
internal lane of a connection is the mean of the speed of the incoming edge
and the speed of the destination edge; along the internal layout of the node
every internal edge, and both pieces of a split one, is written by
`writeInternalEdge` with that mean, which `writeInternalEdge` puts out
unchanged as the value of `maxSpeed`; and the distance between the end points
of the bordering lanes has no influence: with any other distance function the
function returns the same flag and writes the same output. -/
theorem internal_lane_speed_is_mean (env : WriteEnv) (edges : EdgeTable) (into : Writer)
    (n : NodePtr) :
    (∀ (i : EdgePtr) (j : Nat) (t : EdgePtr) (tl : Nat),
      internalVmax env edges i j t tl = ((edges i).speed + (edges t).speed) / 2) ∧
    (writeInternalEdges env edges into n).2
      = (internalLayout env edges n).foldl (fun w x =>
          let mean := ((edges x.fromEdge).speed + (edges x.toEdge).speed) / 2
          let shape := env.computeInternalLaneShape n x.fromEdge x.fromLane x.toEdge x.toLane
          let w := if shape.length ≥ 2 then w else w.fail "assert(shape.size() >= 2)"
          match x.splitId with
          | some sid =>
            let split := env.splitAt shape
              (env.getCrossingPosition n x.fromEdge x.fromLane x.toEdge x.toLane)
            writeInternalEdge env (writeInternalEdge env w x.id mean split.1) sid mean split.2
          | none => writeInternalEdge env w x.id mean shape) into ∧
    (∀ (w : Writer) (id : String) (vmax : SUMOReal) (shape : PositionVector),
      writeInternalEdge env w id vmax shape
        = w.put [Item.openTag SumoXMLTag.SUMO_TAG_EDGE,
            Item.str (" id=\"" ++ id ++ "\" function=\"internal\">\n"),
            Item.openTag SumoXMLTag.SUMO_TAG_LANE,
            Item.str (" id=\"" ++ id ++ "_0\" index=\"0\" " ++ "maxSpeed=\""), Item.real vmax,
            Item.str ("\" " ++ "length=\"" ++
              env.toStringReal (MAX2 (env.length shape) env.POSITION_EPS) ++ "\" " ++ "shape=\""),
            Item.positionVector shape, Item.str "\"", Item.closeTag true, Item.closeTag false]) ∧
    (∀ d : Position → Position → SUMOReal,
      writeInternalEdges { env with distanceTo := d } edges into n
        = writeInternalEdges env edges into n) := by
  refine ⟨fun i j t tl => ?_, ?_, ?_, fun d => rfl⟩
  · show ((edges i).speed + (edges t).speed) / 2.0 = _
    norm_num
  · rw [writeInternalEdges_layout]
    congr 1
    funext w x
    unfold writeLayoutEdges
    have hv : internalVmax env edges x.fromEdge x.fromLane x.toEdge x.toLane
        = ((edges x.fromEdge).speed + (edges x.toEdge).speed) / 2 := by
      show ((edges x.fromEdge).speed + (edges x.toEdge).speed) / 2.0 = _
      norm_num
    simp only [hv]
  · intro w id vmax shape
    unfold writeInternalEdge
    simp only [Writer.put_put, List.cons_append, List.nil_append]

/-! ### The type of a junction -/

theorem Writer.put_nil (w : Writer) : w.put [] = w := by
  unfold Writer.put
  split
  · rfl
  · simp

theorem foldl_put_exists {α : Type} (l : List α) (f : Writer → α → Writer)
    (hf : ∀ w a, ∃ items, f w a = w.put items) (w : Writer) :
    ∃ items, l.foldl f w = w.put items := by
  induction l generalizing w with
  | nil => exact ⟨[], (Writer.put_nil w).symm⟩
  | cons a l ih =>
    obtain ⟨x, hx⟩ := hf w a
    obtain ⟨y, hy⟩ := ih (f w a)
    exact ⟨x ++ y, by rw [List.foldl_cons, hy, hx, Writer.put_put]⟩

theorem writeIncLanes_put (edges : EdgeTable) (l : List EdgePtr) (w : Writer) :
    ∃ items, writeIncLanes edges l w = w.put items := by
  induction l generalizing w with
  | nil => exact ⟨[], (Writer.put_nil w).symm⟩
  | cons i rest ih =>
    unfold writeIncLanes
    obtain ⟨x, hx⟩ := foldl_put_exists (List.range (edges i).getNumLanes)
      (fun into j =>
        let into := into.put [Item.str ((edges i).id ++ "_" ++ toString j)]
        if rest ≠ [] ∨ j < (edges i).getNumLanes - 1 then into.put [Item.str " "] else into)
      (fun w j => by
        by_cases hc : rest ≠ [] ∨ j < (edges i).getNumLanes - 1
        · exact ⟨_, by show (if _ then _ else _) = _; rw [if_pos hc, Writer.put_put]⟩
        · exact ⟨_, by show (if _ then _ else _) = _; rw [if_neg hc]⟩) w
    obtain ⟨y, hy⟩ := ih ((List.range (edges i).getNumLanes).foldl (fun into j =>
        let into := into.put [Item.str ((edges i).id ++ "_" ++ toString j)]
        if rest ≠ [] ∨ j < (edges i).getNumLanes - 1 then into.put [Item.str " "] else into) w)
    exact ⟨x ++ y, by simp only; rw [hy, hx, Writer.put_put]⟩

theorem writeJunction_intLanes_put (env : WriteEnv) (edges : EdgeTable) (n : NodePtr)
    (v : JunctionVars) :
    ∃ items, (forIncomingLaneConnections env.nodes edges n (writeJunction_body env n) v).into
      = v.into.put items := by
  rw [forIncomingLaneConnections_eq]
  generalize laneConnections env.nodes edges n = ps
  induction ps generalizing v with
  | nil => exact ⟨[], (Writer.put_nil _).symm⟩
  | cons p ps ih =>
    obtain ⟨y, hy⟩ := ih (writeJunction_body env n p.1 p.2.1 v p.2.2)
    have hx : ∃ x, (writeJunction_body env n p.1 p.2.1 v p.2.2).into = v.into.put x := by
      unfold writeJunction_body
      cases p.2.2.toEdge with
      | none => exact ⟨[], (Writer.put_nil _).symm⟩
      | some t =>
        simp only
        by_cases hl : v.l ≠ 0
        · simp only [if_pos hl]
          split
          · exact ⟨_, Writer.put_put _ _ _⟩
          · exact ⟨_, Writer.put_put _ _ _⟩
        · simp only [if_neg hl]
          split
          · exact ⟨_, rfl⟩
          · exact ⟨_, rfl⟩
    obtain ⟨x, hx⟩ := hx
    exact ⟨x ++ y, by rw [List.foldl_cons, hy, hx, Writer.put_put]⟩

/-- Claim C17: what `writeJunction` writes for a node is the opening tag and
the id, then the attribute `type`, then the position, the incoming lanes, the
internal lanes, the shape, the logic and the closing tag; the type written is
the dead-end type when every incoming edge of the node has an empty connection
list, which includes the node without incoming edges, and the type of the node
itself otherwise, that is when some incoming edge has a connection. -/
theorem junction_type_dead_end (env : WriteEnv) (edges : EdgeTable) (w : Writer)
    (n : NodePtr) :
    ∃ incLanes intLanes : List Item,
      writeJunction env edges w n
        = w.put ([Item.openTag SumoXMLTag.SUMO_TAG_JUNCTION,
            Item.str (" id=\"" ++ (env.nodes n).id ++ "\""),
            Item.str (" type=\"" ++ env.toStringNodeType
              (if ∀ i ∈ (env.nodes n).incoming, (edges i).getConnections = []
                then SumoXMLNodeType.NODETYPE_DEAD_END else (env.nodes n).type) ++ "\""),
            Item.str " x=\"", Item.real (env.nodes n).position.1, Item.str "\" y=\"",
            Item.real (env.nodes n).position.2, Item.str "\"", Item.str " incLanes=\""]
          ++ incLanes ++ [Item.str "\"", Item.str " intLanes=\""] ++ intLanes
          ++ [Item.str "\"", Item.str " shape=\"", Item.positionVector (env.nodes n).shape,
            Item.str "\">\n"] ++ env.writeLogic n ++ [Item.closeTag false]) := by
  have htype : (if (env.nodes n).incoming.any
        (fun i => decide ((edges i).getConnections.length > 0))
      then (env.nodes n).type else SumoXMLNodeType.NODETYPE_DEAD_END)
      = (if ∀ i ∈ (env.nodes n).incoming, (edges i).getConnections = []
          then SumoXMLNodeType.NODETYPE_DEAD_END else (env.nodes n).type) := by
    by_cases h : ∀ i ∈ (env.nodes n).incoming, (edges i).getConnections = []
    · rw [if_pos h, if_neg]
      simp only [List.any_eq_true, decide_eq_true_eq, not_exists, not_and]
      intro i hi
      simp [h i hi]
    · rw [if_neg h, if_pos]
      simp only [not_forall] at h
      obtain ⟨i, hi, hne⟩ := h
      simp only [List.any_eq_true, decide_eq_true_eq]
      exact ⟨i, hi, List.length_pos.2 hne⟩
  unfold writeJunction
  simp only [htype]
  generalize hw1 : ((w.put [Item.openTag SumoXMLTag.SUMO_TAG_JUNCTION,
    Item.str (" id=\"" ++ (env.nodes n).id ++ "\"")]).put _).put _ = w1
  obtain ⟨inc, hinc⟩ := writeIncLanes_put edges (env.nodes n).incoming
    (w1.put [Item.str " incLanes=\""])
  rw [hinc]
  by_cases hopt : env.options.no_internal_links = false
  · obtain ⟨int, hint⟩ := writeJunction_intLanes_put env edges n
      { l := 0, o := countInternalLanes env.nodes edges n,
        into := (((w1.put [Item.str " incLanes=\""]).put inc).put [Item.str "\""]).put
          [Item.str " intLanes=\""] }
    refine ⟨inc, int, ?_⟩
    simp only [hopt, if_true]
    rw [hint]
    simp only [← hw1, Writer.put_put, List.cons_append, List.nil_append, List.append_assoc]
  · refine ⟨inc, [], ?_⟩
    rw [if_neg hopt]
    simp only [← hw1, Writer.put_put, List.cons_append, List.nil_append,
      List.append_assoc]

/-! ### `compute`: the ambiguity warning -/

theorem foldl_assignStep_warnings (nodeID : String) (cs : List Combination) (s : AssignState) :
    (cs.foldl (assignStep nodeID) s).warnings
      = s.warnings ++ (if s.haveWarned = false ∧ ∃ c ∈ skipped s.seen cs, c.angle > 360 then
          ["Ambiguity in turnarounds computation at node '" ++ nodeID ++ "'."] else []) := by
  induction cs generalizing s with
  | nil => simp [skipped]
  | cons j cs ih =>
    rw [List.foldl_cons, ih]
    by_cases h : j.from_ ∈ s.seen ∨ j.to_ ∈ s.seen
    · by_cases hw : j.angle > 360 ∧ s.haveWarned = false
      · have hs : assignStep nodeID s j = { s with
            warnings := s.warnings ++ ["Ambiguity in turnarounds computation at node '" ++ nodeID ++ "'."]
            haveWarned := true } := by
          unfold assignStep
          rw [if_pos h, if_pos hw]
        rw [hs]
        have hex : ∃ c ∈ skipped s.seen (j :: cs), c.angle > 360 :=
          ⟨j, by simp [skipped, h], hw.1⟩
        simp [hw.2, hex]
      · have hs : assignStep nodeID s j = s := by
          unfold assignStep
          rw [if_pos h, if_neg hw]
        rw [hs]
        congr 1
        by_cases hb : s.haveWarned = false
        · have hj : ¬ j.angle > 360 := fun hj => hw ⟨hj, hb⟩
          have hiff : (∃ c ∈ skipped s.seen (j :: cs), c.angle > 360)
              ↔ ∃ c ∈ skipped s.seen cs, c.angle > 360 := by
            simp only [skipped, if_pos h, List.mem_cons, exists_eq_or_imp]
            exact ⟨fun hc => hc.resolve_left hj, Or.inr⟩
          simp only [hb, true_and, hiff]
        · simp [hb]
    · have hs : (assignStep nodeID s j).seen = j.to_ :: j.from_ :: s.seen ∧
          (assignStep nodeID s j).warnings = s.warnings ∧
          (assignStep nodeID s j).haveWarned = s.haveWarned := by
        unfold assignStep
        rw [if_neg h]
        simp
      obtain ⟨h1, h2, h3⟩ := hs
      rw [h1, h2, h3]
      simp only [skipped, if_neg h]

theorem computeNode_warnings (env : TurnEnv) (st : TurnState) (i : String × NodePtr) :
    (computeNode env st i).warnings = st.warnings ++
      ambiguityWarnings i.1 (env.sortCombinations (combinations env st.edges i.2)) := by
  unfold computeNode ambiguityWarnings
  have h := foldl_assignStep_warnings i.1 (env.sortCombinations (combinations env st.edges i.2))
    { seen := [], haveWarned := false, edges := st.edges, warnings := st.warnings, calls := [] }
  simp only [true_and] at h
  exact h

theorem foldl_computeNode_warnings (env : TurnEnv) (edges0 : EdgeTable)
    (nc : List (String × NodePtr)) (st : TurnState) (h : SameButTurn st.edges edges0) :
    (nc.foldl (computeNode env) st).warnings = st.warnings ++ nc.flatMap fun i =>
      ambiguityWarnings i.1 (env.sortCombinations (combinations env edges0 i.2)) := by
  induction nc generalizing st with
  | nil => simp
  | cons i nc ih =>
    rw [List.foldl_cons]
    have h1 : SameButTurn (computeNode env st i).edges edges0 := by
      rw [(computeNode_eq env st i).1]
      exact (applyCalls_sameButTurn _ _).trans_turn h
    rw [ih _ h1, computeNode_warnings, combinations_congr env h, List.flatMap_cons,
      List.append_assoc]

theorem skipped_consumed (cs : List Combination) (seen : List EdgePtr) :
    ∀ c ∈ skipped seen cs, c.from_ ∈ seen ∨ c.to_ ∈ seen ∨
      ∃ call ∈ greedy seen cs,
        c.from_ = call.1 ∨ c.from_ = call.2 ∨ c.to_ = call.1 ∨ c.to_ = call.2 := by
  induction cs generalizing seen with
  | nil => intro c hc; simp [skipped] at hc
  | cons j cs ih =>
    intro c hc
    by_cases h : j.from_ ∈ seen ∨ j.to_ ∈ seen
    · simp only [skipped, if_pos h, List.mem_cons] at hc
      simp only [greedy, if_pos h]
      rcases hc with rfl | hc
      · rcases h with h | h
        · exact Or.inl h
        · exact Or.inr (Or.inl h)
      · exact ih seen c hc
    · simp only [skipped, if_neg h] at hc
      simp only [greedy, if_neg h, List.mem_cons, exists_eq_or_imp]
      rcases ih _ c hc with h1 | h1 | h1
      · simp only [List.mem_cons] at h1
        rcases h1 with h1 | h1 | h1
        · exact Or.inr (Or.inr (Or.inl (Or.inr (Or.inl h1))))
        · exact Or.inr (Or.inr (Or.inl (Or.inl h1)))
        · exact Or.inl h1
      · simp only [List.mem_cons] at h1
        rcases h1 with h1 | h1 | h1
        · exact Or.inr (Or.inr (Or.inl (Or.inr (Or.inr (Or.inr h1)))))
        · exact Or.inr (Or.inr (Or.inl (Or.inr (Or.inr (Or.inl h1)))))
        · exact Or.inr (Or.inl h1)
      · exact Or.inr (Or.inr (Or.inr h1))

/-- Claim C19: the warnings of `compute` are, node after node in the order of
the container, at most one ambiguity warning with the id of the node: the
warning is there exactly when the loop over the sorted candidates of the node
skips a candidate with a score above 360, and a candidate is skipped only for
an edge that a call made before at this node has consumed.  The calls of
`setTurningDestination` and the edge objects after `compute` are those of the
greedy loop, which does not look at the warning flag. -/
theorem compute_warns_once_per_node (env : TurnEnv) (nc : List (String × NodePtr))
    (edges : EdgeTable) :
    (compute env nc edges).warnings = (nc.flatMap fun i =>
      ambiguityWarnings i.1 (env.sortCombinations (combinations env edges i.2))) ∧
    (∀ (nodeID : String) (cs : List Combination),
      (ambiguityWarnings nodeID cs).length ≤ 1 ∧
      (ambiguityWarnings nodeID cs
          = ["Ambiguity in turnarounds computation at node '" ++ nodeID ++ "'."]
        ↔ ∃ c ∈ skipped [] cs, c.angle > 360) ∧
      (ambiguityWarnings nodeID cs = [] ↔ ¬ ∃ c ∈ skipped [] cs, c.angle > 360) ∧
      (∀ c ∈ skipped [] cs, ∃ call ∈ greedy [] cs,
        c.from_ = call.1 ∨ c.from_ = call.2 ∨ c.to_ = call.1 ∨ c.to_ = call.2)) ∧
    (compute env nc edges).trace = traceOf env edges nc ∧
    (compute env nc edges).edges = applyCalls edges (allCalls (traceOf env edges nc)) := by
  refine ⟨?_, fun nodeID cs => ⟨?_, ?_, ?_, ?_⟩, (compute_eq env nc edges).1,
    (compute_eq env nc edges).2⟩
  · have h := foldl_computeNode_warnings env edges nc
      { edges := edges, warnings := [], trace := [] } (fun _ => rfl)
    simpa [compute] using h
  · unfold ambiguityWarnings
    split <;> simp
  · unfold ambiguityWarnings
    by_cases h : ∃ c ∈ skipped [] cs, c.angle > 360
    · rw [if_pos h]
      exact ⟨fun _ => h, fun _ => rfl⟩
    · rw [if_neg h]
      exact ⟨fun hn => (by cases hn), fun hn => absurd hn h⟩
  · unfold ambiguityWarnings
    by_cases h : ∃ c ∈ skipped [] cs, c.angle > 360
    · rw [if_pos h]
      exact ⟨fun hn => (by cases hn), fun hn => absurd h hn⟩
    · rw [if_neg h]
      exact ⟨fun _ => h, fun _ => rfl⟩
  · intro c hc
    rcases skipped_consumed cs [] c hc with h | h | h
    · cases h
    · cases h
    · exact h

/-! ### What `writeNetwork` changes in the edge objects -/

theorem SortedFrom.refl_sorted (a : EdgeTable) : SortedFrom a a := fun _ => Or.inl rfl

theorem SortedFrom.trans_sorted {a b c : EdgeTable} (h1 : SortedFrom a b) (h2 : SortedFrom b c) :
    SortedFrom a c := by
  intro p
  rcases h1 p with h | h
  · rw [h]
    exact h2 p
  · rcases h2 p with g | g
    · rw [h, g]
      exact Or.inr rfl
    · rw [h, g]
      right
      simp only [sortConnections_idem]

theorem sortOutgoingConnectionsByIndex_sortedFrom (a : EdgeTable) (e : EdgePtr) :
    SortedFrom (sortOutgoingConnectionsByIndex a e) a := by
  intro p
  unfold sortOutgoingConnectionsByIndex
  by_cases hp : p = e
  · subst hp
    rw [Function.update_same]
    exact Or.inr rfl
  · rw [Function.update_noteq hp]
    exact Or.inl rfl

theorem writeConnections_sortedFrom (env : WriteEnv) (nb : NBNetBuilder) (includeInternal : Bool)
    (s : NetState) :
    SortedFrom (writeConnections env nb includeInternal s).2.edges s.edges := by
  unfold writeConnections
  have key : ∀ (l : List (String × EdgePtr)) (x : Nat × NetState),
      SortedFrom (l.foldl (writeConnections_edge env includeInternal) x).2.edges x.2.edges := by
    intro l
    induction l with
    | nil => exact fun x => SortedFrom.refl_sorted _
    | cons e l ih =>
      intro x
      refine (ih _).trans_sorted ?_
      unfold writeConnections_edge
      split
      · exact SortedFrom.refl_sorted _
      · exact sortOutgoingConnectionsByIndex_sortedFrom _ _
  exact key _ _

theorem writeInternalConnections_sortedFrom (env : WriteEnv) (into : Writer) (n : NodePtr)
    (a : EdgeTable) : SortedFrom (writeInternalConnections env a into n).2.2 a := by
  unfold writeInternalConnections
  by_cases h0 : countInternalLanes env.nodes a n = 0
  · simp only [h0, if_true]
    exact SortedFrom.refl_sorted _
  · simp only [h0, if_false]
    have key : ∀ (l : List EdgePtr) (x : InternalConnVars),
        SortedFrom
          (l.foldl (writeInternalConnections_edge env n (countInternalLanes env.nodes a n)
            (":" ++ (env.nodes n).id)) x).edges x.edges := by
      intro l
      induction l with
      | nil => exact fun x => SortedFrom.refl_sorted _
      | cons e l ih =>
        intro x
        refine (ih _).trans_sorted ?_
        unfold writeInternalConnections_edge
        split
        · exact SortedFrom.refl_sorted _
        · exact sortOutgoingConnectionsByIndex_sortedFrom _ _
    exact key _ _

theorem writeNetwork_internalConnections_sortedFrom (env : WriteEnv) (nb : NBNetBuilder)
    (s : NetState) : SortedFrom (writeNetwork_internalConnections env nb s).edges s.edges := by
  have key : ∀ (l : List (String × NodePtr)) (x : Bool × NetState),
      SortedFrom (l.foldl (writeNetwork_internalConnections_node env) x).2.edges x.2.edges := by
    intro l
    induction l with
    | nil => exact fun x => SortedFrom.refl_sorted _
    | cons i l ih =>
      intro x
      exact (ih _).trans_sorted (writeInternalConnections_sortedFrom env x.2.into i.2 x.2.edges)
  unfold writeNetwork_internalConnections
  simp only
  split
  · exact key _ _
  · exact key _ _

theorem writeNetwork_sortedFrom (env : WriteEnv) (oc : OptionsCont) (nb : NBNetBuilder)
    (s : NetState) : SortedFrom (writeNetwork env oc nb s).edges s.edges := by
  unfold writeNetwork
  by_cases h0 : oc.output_file.isNone
  · simp only [h0, if_true]
    exact SortedFrom.refl_sorted _
  · simp only [h0, Bool.false_eq_true, if_false]
    split
    · exact (writeNetwork_internalConnections_sortedFrom env nb _).trans_sorted
        (writeConnections_sortedFrom env nb _ _)
    · exact writeConnections_sortedFrom env nb _ _

/-- Claim C20, amended: `writeNetwork` changes nothing in the edge objects but
the order of connection lists.  After the call the connection list of every
edge is the list before the call or that list stably sorted by the lane the
connections start at, so it has the same elements and, lane by lane, the same
connections in the same order; the lanes, the turnaround and every other field
of the edge are as before. -/
theorem writeNetwork_only_sorts_connections (env : WriteEnv) (oc : OptionsCont)
    (nb : NBNetBuilder) (s : NetState) (p : EdgePtr) :
    (((writeNetwork env oc nb s).edges p).connections = (s.edges p).connections ∨
      ((writeNetwork env oc nb s).edges p).connections
        = sortConnections (s.edges p).connections) ∧
    ((writeNetwork env oc nb s).edges p).connections.Perm (s.edges p).connections ∧
    (∀ j : Nat, ((writeNetwork env oc nb s).edges p).getConnectionsFromLane j
      = (s.edges p).getConnectionsFromLane j) ∧
    ((writeNetwork env oc nb s).edges p).lanes = (s.edges p).lanes ∧
    ((writeNetwork env oc nb s).edges p).turnDestination = (s.edges p).turnDestination ∧
    ({ (writeNetwork env oc nb s).edges p with connections := [] } : NBEdge)
      = { s.edges p with connections := [] } := by
  have hso := writeNetwork_edges env oc nb s
  have hsf := writeNetwork_sortedFrom env oc nb s p
  have hrec := (hso p).2
  refine ⟨?_, ?_, fun j => hso.connectionsFromLane_eq p j, ?_, ?_, hrec⟩
  · rcases hsf with h | h
    · exact Or.inl (by rw [h])
    · exact Or.inr (by rw [h])
  · rcases hsf with h | h
    · rw [h]
    · rw [h]
      exact sortConnections_perm _
  · exact (hso.fields p).2.2.2.2.2.2.2.2.2.2.2.2
  · have := congrArg NBEdge.turnDestination hrec
    exact this

/-! ### The blank lines between the sections -/

set_option maxRecDepth 100000 in
/-- Claim C16, evaluated at the network without any entry: `writeNetwork`
writes the header and the location element, each followed by its line break,
and then, although the section of the edges and the section of the junctions
have no entry, one blank line for each of the two (lines 100 and 124 of the
source put them out without a test), before it closes the device. -/
theorem empty_sections_write_blank_lines :
    (writeNetwork crossedEnv crossedEnv.options emptyNet
        { into := emptyWriter, edges := crossedEdges }).into
      = { into := [Item.writeXMLHeader "net" " encoding=\"iso-8859-1\"", Item.str "\n",
            Item.openTag SumoXMLTag.SUMO_TAG_LOCATION, Item.str " netOffset=\"",
            Item.position (0, 0), Item.str "\" convBoundary=\"",
            Item.boundary { xmin := 0, ymin := 0, xmax := 100, ymax := 100 }, Item.str "\"",
            Item.str " origBoundary=\"",
            Item.boundary { xmin := 0, ymin := 0, xmax := 100, ymax := 100 }, Item.str "\"",
            Item.str " projParameter=\"!\"", Item.closeTag true, Item.str "\n",
            Item.str "\n", Item.str "\n", Item.close],
          warnings := [], failure := none } := by
  with_unfolding_all decide

/-! ### Edges and lanes -/

theorem Writer.put_eq (w : Writer) (h : w.failure = none) (items : List Item) :
    w.put items = { into := w.into ++ items, warnings := w.warnings, failure := none } := by
  unfold Writer.put
  rw [h]
  simp only [Option.isSome_none, Bool.false_eq_true, if_false]

theorem Writer.put_of_failed (w : Writer) (h : w.failure.isSome) (items : List Item) :
    w.put items = w := by
  unfold Writer.put
  rw [if_pos h]

theorem writeEdge_head (env : WriteEnv) (edges : EdgeTable) (w : Writer) (e : EdgePtr)
    (noNames : Bool) :
    writeEdge env edges w e noNames
      = ((List.range (edges e).lanes.length).foldl (fun into i =>
          writeLane env into (edges e).id (env.getLaneID e i) ((edges e).lanes.getD i (mkLane 0))
            (if (edges e).loadedLength > 0 then (edges e).loadedLength else 0.1) i)
          (w.put (edgeHead env edges e noNames))).put [Item.closeTag false] := by
  have hL : (if (edges e).loadedLength ≤ 0 then (0.1 : SUMOReal) else (edges e).loadedLength)
      = (if (edges e).loadedLength > 0 then (edges e).loadedLength else 0.1) := by
    by_cases h : (edges e).loadedLength ≤ 0
    · rw [if_pos h, if_neg (not_lt.2 h)]
    · rw [if_neg h, if_pos (not_le.1 h)]
  unfold writeEdge edgeHead
  simp only [hL]
  congr 2
  split_ifs <;> simp only [Writer.put_put, List.cons_append, List.nil_append, List.append_assoc]

theorem writeLane_failed (env : WriteEnv) (w : Writer) (eID lID : String) (lane : Lane)
    (length : SUMOReal) (index : Nat) (h : w.failure.isSome) :
    writeLane env w eID lID lane length index = w := by
  unfold writeLane
  simp only [Writer.put, Writer.warn, Writer.fail, h, if_true, ite_self]

theorem writeLane_start (env : WriteEnv) (w : Writer) (eID lID : String) (lane : Lane)
    (length : SUMOReal) (index : Nat) :
    writeLane env w eID lID lane length index
      = ((if lane.speed = 0 then
            (w.put (laneHead env lID lane index)).warn ("Lane #" ++ toString index ++
              " of edge '" ++ eID ++ "' has a maximum velocity of 0.")
          else if lane.speed < 0 then
            (w.put (laneHead env lID lane index)).fail ("Negative velocity (" ++
              env.toStringReal lane.speed ++ " on edge '" ++ eID ++ "' lane#" ++
              toString index ++ ".")
          else w.put (laneHead env lID lane index)).put (laneBody env lane length)) := by
  by_cases h1 : lane.allowed.length > 0
  all_goals by_cases h2 : lane.notAllowed.length > 0
  all_goals by_cases h3 : lane.preferred.length > 0
  all_goals by_cases h4 : lane.offset > 0
  all_goals by_cases h5 : lane.width > 0
  all_goals simp only [writeLane, laneHead, laneBody, h1, h2, h3, h4, h5, if_true, if_false,
    Writer.put_put, List.cons_append, List.nil_append, List.append_assoc]

theorem writeLane_ok (env : WriteEnv) (w : Writer) (eID lID : String) (lane : Lane)
    (length : SUMOReal) (index : Nat) (hw : w.failure = none) (hs : ¬ lane.speed < 0) :
    writeLane env w eID lID lane length index
      = { into := w.into ++ (laneHead env lID lane index ++ laneBody env lane length),
          warnings := w.warnings ++ laneWarnings eID lane index, failure := none } := by
  rw [writeLane_start, if_neg hs, Writer.put_eq w hw]
  unfold laneWarnings
  by_cases h0 : lane.speed = 0
  · rw [if_pos h0, if_pos h0]
    simp [Writer.warn, Writer.put]
  · rw [if_neg h0, if_neg h0]
    simp [Writer.put]

theorem writeLane_negative (env : WriteEnv) (w : Writer) (eID lID : String) (lane : Lane)
    (length : SUMOReal) (index : Nat) (hw : w.failure = none) (hs : lane.speed < 0) :
    writeLane env w eID lID lane length index
      = { into := w.into ++ laneHead env lID lane index, warnings := w.warnings,
          failure := some ("Negative velocity (" ++ env.toStringReal lane.speed ++
            " on edge '" ++ eID ++ "' lane#" ++ toString index ++ ".") } := by
  rw [writeLane_start, if_neg (ne_of_lt hs), if_pos hs, Writer.put_eq w hw]
  simp [Writer.fail, Writer.put]

theorem foldl_writeLane_failed (env : WriteEnv) (eID : String) (lID : Nat → String)
    (lane : Nat → Lane) (length : SUMOReal) (l : List Nat) (w : Writer)
    (h : w.failure.isSome) :
    l.foldl (fun into i => writeLane env into eID (lID i) (lane i) length i) w = w := by
  induction l with
  | nil => rfl
  | cons i l ih => rw [List.foldl_cons, writeLane_failed env w eID _ _ _ _ h, ih]

theorem foldl_writeLane_ok (env : WriteEnv) (eID : String) (lID : Nat → String)
    (lane : Nat → Lane) (length : SUMOReal) (l : List Nat) (w : Writer)
    (hw : w.failure = none) (hs : ∀ i ∈ l, ¬ (lane i).speed < 0) :
    l.foldl (fun into i => writeLane env into eID (lID i) (lane i) length i) w
      = { into := w.into ++ l.flatMap (fun i =>
            laneHead env (lID i) (lane i) i ++ laneBody env (lane i) length),
          warnings := w.warnings ++ l.flatMap (fun i => laneWarnings eID (lane i) i),
          failure := none } := by
  induction l generalizing w with
  | nil =>
    cases w
    simp only at hw
    simp [hw]
  | cons i l ih =>
    rw [List.foldl_cons, writeLane_ok env w eID _ _ _ _ hw (hs i (List.mem_cons_self _ _)),
      ih _ rfl (fun j hj => hs j (List.mem_cons_of_mem _ hj))]
    simp only [List.flatMap_cons, List.append_assoc]

theorem mem_of_getD_lt {α : Type} (l : List α) (i : Nat) (d : α) (h : i < l.length) :
    l.getD i d ∈ l := by
  rw [List.getD_eq_getElem l d h]
  exact List.getElem_mem h

/-- Claim C11: when the writer has not failed and no lane of the edge has a
negative speed, `writeEdge` writes the head of the edge, then for every lane
in order the head of the lane and its body for the length `L`, which is the
loaded length of the edge when that is positive and 0.1 otherwise, then the
closing tag.  In the body of a lane the length is `L` when the end offset of
the lane is not positive and `L` minus the offset when it is; the attribute
`endOffset` is there exactly when the offset is positive, and exactly then the
shape is cut to its sub-part from 0 to its length minus the offset. -/
theorem lane_length_and_offset (env : WriteEnv) (edges : EdgeTable) (w : Writer) (e : EdgePtr)
    (noNames : Bool) (hw : w.failure = none)
    (hs : ∀ lane ∈ (edges e).lanes, ¬ lane.speed < 0) :
    (writeEdge env edges w e noNames).into
      = w.into ++ edgeHead env edges e noNames ++
        ((List.range (edges e).lanes.length).flatMap fun i =>
          laneHead env (env.getLaneID e i) ((edges e).lanes.getD i (mkLane 0)) i ++
          laneBody env ((edges e).lanes.getD i (mkLane 0))
            (if (edges e).loadedLength > 0 then (edges e).loadedLength else 0.1)) ++
        [Item.closeTag false] ∧
    (writeEdge env edges w e noNames).failure = none ∧
    ∀ (lane : Lane) (L : SUMOReal), laneBody env lane L
      = [Item.str " maxSpeed=\"", Item.real lane.speed, Item.str "\" length=\"",
          Item.real (if lane.offset > 0 then L - lane.offset else L), Item.str "\""] ++
        (if lane.offset > 0 then
          [Item.str " endOffset=\"", Item.real lane.offset, Item.str "\""] else []) ++
        (if lane.width > 0 then
          [Item.str " width=\"", Item.real lane.width, Item.str "\""] else []) ++
        [Item.str " shape=\"",
          Item.positionVector (if lane.offset > 0 then
            env.getSubpart lane.shape 0 (env.length lane.shape - lane.offset) else lane.shape),
          Item.str "\"", Item.closeTag true] := by
  have hfold := foldl_writeLane_ok env (edges e).id (env.getLaneID e)
    (fun i => (edges e).lanes.getD i (mkLane 0))
    (if (edges e).loadedLength > 0 then (edges e).loadedLength else 0.1)
    (List.range (edges e).lanes.length) (w.put (edgeHead env edges e noNames))
    (by rw [Writer.put_failure, hw])
    (fun i hi => hs _ (mem_of_getD_lt _ i _ (List.mem_range.1 hi)))
  refine ⟨?_, ?_, fun lane L => ?_⟩
  · rw [writeEdge_head, hfold, Writer.put_eq _ rfl, Writer.put_eq w hw]
  · rw [writeEdge_head, hfold, Writer.put_eq _ rfl]
  · by_cases h4 : lane.offset > 0
    all_goals by_cases h5 : lane.width > 0
    all_goals simp only [laneBody, h4, h5, if_true, if_false, List.cons_append, List.nil_append,
      List.append_nil]

set_option maxRecDepth 100000 in
/-- The edge of loaded length 100 whose lane 0 has the end offset 10: lane 0 is
written with length 90, the attribute `endOffset` and the shape cut at 90,
lane 1 with length 100 and its whole shape. -/
theorem lane_length_and_offset_witness :
    emptyWriter.failure = none ∧ (∀ lane ∈ (offsetEdges 1).lanes, ¬ lane.speed < 0) ∧
    (writeEdge offsetEnv offsetEdges emptyWriter 1 false).into
      = [Item.openTag SumoXMLTag.SUMO_TAG_EDGE, Item.str " id=\"1\" from=\"n\" to=\"n",
          Item.str "\" priority=\"1\"", Item.str ">\n",
          Item.openTag SumoXMLTag.SUMO_TAG_LANE, Item.str " id=\"1_0\"", Item.str " index=\"0\"",
          Item.str " maxSpeed=\"", Item.real 10, Item.str "\" length=\"", Item.real 90,
          Item.str "\"", Item.str " endOffset=\"", Item.real 10, Item.str "\"",
          Item.str " shape=\"", Item.positionVector [(0, 0), (90, 0)], Item.str "\"",
          Item.closeTag true,
          Item.openTag SumoXMLTag.SUMO_TAG_LANE, Item.str " id=\"1_1\"", Item.str " index=\"1\"",
          Item.str " maxSpeed=\"", Item.real 10, Item.str "\" length=\"", Item.real 100,
          Item.str "\"", Item.str " shape=\"", Item.positionVector [(0, 0), (100, 0)],
          Item.str "\"", Item.closeTag true, Item.closeTag false] :=
  ⟨rfl, by with_unfolding_all decide,
    (lane_length_and_offset offsetEnv offsetEdges emptyWriter 1 false rfl
      (by with_unfolding_all decide)).1.trans (by with_unfolding_all decide)⟩

theorem laneBody_eq (env : WriteEnv) (lane : Lane) (L : SUMOReal) :
    laneBody env lane L
      = [Item.str " maxSpeed=\"", Item.real lane.speed, Item.str "\" length=\"",
          Item.real (if lane.offset > 0 then L - lane.offset else L), Item.str "\""] ++
        (if lane.offset > 0 then
          [Item.str " endOffset=\"", Item.real lane.offset, Item.str "\""] else []) ++
        (if lane.width > 0 then
          [Item.str " width=\"", Item.real lane.width, Item.str "\""] else []) ++
        [Item.str " shape=\"",
          Item.positionVector (if lane.offset > 0 then
            env.getSubpart lane.shape 0 (env.length lane.shape - lane.offset) else lane.shape),
          Item.str "\"", Item.closeTag true] := by
  by_cases h4 : lane.offset > 0
  all_goals by_cases h5 : lane.width > 0
  all_goals simp only [laneBody, h4, h5, if_true, if_false, List.cons_append, List.nil_append,
    List.append_nil]

theorem range_split (n k : Nat) (h : k < n) : ∃ rest, List.range n = List.range k ++ k :: rest := by
  induction n with
  | zero => exact absurd h (Nat.not_lt_zero k)
  | succ n ih =>
    rw [List.range_succ]
    rcases Nat.lt_succ_iff_lt_or_eq.1 h with hlt | heq
    · obtain ⟨rest, hr⟩ := ih hlt
      exact ⟨rest ++ [n], by rw [hr]; simp⟩
    · subst heq
      exact ⟨[], rfl⟩

theorem writeLane_failure (env : WriteEnv) (w : Writer) (eID lID : String) (lane : Lane)
    (length : SUMOReal) (index : Nat) (hw : w.failure = none) :
    (writeLane env w eID lID lane length index).failure
      = if lane.speed < 0 then
          some ("Negative velocity (" ++ env.toStringReal lane.speed ++ " on edge '" ++ eID ++
            "' lane#" ++ toString index ++ ".")
        else none := by
  by_cases hs : lane.speed < 0
  · rw [writeLane_negative env w eID lID lane length index hw hs, if_pos hs]
  · rw [writeLane_ok env w eID lID lane length index hw hs, if_neg hs]

theorem foldl_writeLane_failed_mk (env : WriteEnv) (eID : String) (lID : Nat → String)
    (lane : Nat → Lane) (length : SUMOReal) (l : List Nat) (a : OutputDevice)
    (ws : List String) (m : String) :
    l.foldl (fun into i => writeLane env into eID (lID i) (lane i) length i)
        { into := a, warnings := ws, failure := some m }
      = { into := a, warnings := ws, failure := some m } :=
  foldl_writeLane_failed env eID lID lane length l
    { into := a, warnings := ws, failure := some m } rfl

theorem Writer.put_of_failed_mk (a : OutputDevice) (ws : List String) (m : String)
    (items : List Item) :
    ({ into := a, warnings := ws, failure := some m } : Writer).put items
      = { into := a, warnings := ws, failure := some m } :=
  Writer.put_of_failed { into := a, warnings := ws, failure := some m } rfl items

theorem writeEdge_negative (env : WriteEnv) (edges : EdgeTable) (w : Writer) (e : EdgePtr)
    (noNames : Bool) (k : Nat) (hw : w.failure = none) (hk : k < (edges e).lanes.length)
    (hneg : ((edges e).lanes.getD k (mkLane 0)).speed < 0)
    (hbefore : ∀ i < k, ¬ ((edges e).lanes.getD i (mkLane 0)).speed < 0) :
    writeEdge env edges w e noNames
      = { into := w.into ++ edgeHead env edges e noNames ++
            ((List.range k).flatMap fun i =>
              laneHead env (env.getLaneID e i) ((edges e).lanes.getD i (mkLane 0)) i ++
              laneBody env ((edges e).lanes.getD i (mkLane 0))
                (if (edges e).loadedLength > 0 then (edges e).loadedLength else 0.1)) ++
            laneHead env (env.getLaneID e k) ((edges e).lanes.getD k (mkLane 0)) k,
          warnings := w.warnings ++ (List.range k).flatMap fun i =>
            laneWarnings (edges e).id ((edges e).lanes.getD i (mkLane 0)) i,
          failure := some ("Negative velocity (" ++
            env.toStringReal ((edges e).lanes.getD k (mkLane 0)).speed ++ " on edge '" ++
            (edges e).id ++ "' lane#" ++ toString k ++ ".") } := by
  obtain ⟨rest, hr⟩ := range_split _ k hk
  have hfold := foldl_writeLane_ok env (edges e).id (env.getLaneID e)
    (fun i => (edges e).lanes.getD i (mkLane 0))
    (if (edges e).loadedLength > 0 then (edges e).loadedLength else 0.1)
    (List.range k) (w.put (edgeHead env edges e noNames))
    (by rw [Writer.put_failure, hw])
    (fun i hi => hbefore i (List.mem_range.1 hi))
  rw [writeEdge_head, hr, List.foldl_append, List.foldl_cons, hfold,
    writeLane_negative env _ _ _ _ _ _ rfl hneg, foldl_writeLane_failed_mk,
    Writer.put_of_failed_mk, Writer.put_eq w hw]

/-- Claim C12: on a writer that has not failed, `writeLane` fails, with the
message about the negative velocity, exactly when the speed of the lane is
negative.  A lane of speed 0 adds one warning and is written in full, with 0
as `maxSpeed`.  When lane `k` is the first lane of an edge with a negative
speed, `writeEdge` ends with that failure, and the output then holds what was
there before, the head of the edge, the lanes before `k` in full and the head
of lane `k`: nothing that was written is taken back. -/
theorem negative_speed_is_fatal (env : WriteEnv) (edges : EdgeTable) (w : Writer) (e : EdgePtr)
    (noNames : Bool) (k : Nat) (hw : w.failure = none) (hk : k < (edges e).lanes.length)
    (hneg : ((edges e).lanes.getD k (mkLane 0)).speed < 0)
    (hbefore : ∀ i < k, ¬ ((edges e).lanes.getD i (mkLane 0)).speed < 0) :
    (∀ (eID lID : String) (lane : Lane) (L : SUMOReal) (index : Nat),
      (writeLane env w eID lID lane L index).failure
        = if lane.speed < 0 then
            some ("Negative velocity (" ++ env.toStringReal lane.speed ++ " on edge '" ++ eID ++
              "' lane#" ++ toString index ++ ".")
          else none) ∧
    (∀ (eID lID : String) (lane : Lane) (L : SUMOReal) (index : Nat), lane.speed = 0 →
      writeLane env w eID lID lane L index
        = { into := w.into ++ (laneHead env lID lane index ++
              ([Item.str " maxSpeed=\"", Item.real 0, Item.str "\" length=\"",
                Item.real (if lane.offset > 0 then L - lane.offset else L), Item.str "\""] ++
              (if lane.offset > 0 then
                [Item.str " endOffset=\"", Item.real lane.offset, Item.str "\""] else []) ++
              (if lane.width > 0 then
                [Item.str " width=\"", Item.real lane.width, Item.str "\""] else []) ++
              [Item.str " shape=\"",
                Item.positionVector (if lane.offset > 0 then
                  env.getSubpart lane.shape 0 (env.length lane.shape - lane.offset)
                  else lane.shape),
                Item.str "\"", Item.closeTag true])),
            warnings := w.warnings ++ ["Lane #" ++ toString index ++ " of edge '" ++ eID ++
              "' has a maximum velocity of 0."],
            failure := none }) ∧
    writeEdge env edges w e noNames
      = { into := w.into ++ edgeHead env edges e noNames ++
            ((List.range k).flatMap fun i =>
              laneHead env (env.getLaneID e i) ((edges e).lanes.getD i (mkLane 0)) i ++
              laneBody env ((edges e).lanes.getD i (mkLane 0))
                (if (edges e).loadedLength > 0 then (edges e).loadedLength else 0.1)) ++
            laneHead env (env.getLaneID e k) ((edges e).lanes.getD k (mkLane 0)) k,
          warnings := w.warnings ++ (List.range k).flatMap fun i =>
            laneWarnings (edges e).id ((edges e).lanes.getD i (mkLane 0)) i,
          failure := some ("Negative velocity (" ++
            env.toStringReal ((edges e).lanes.getD k (mkLane 0)).speed ++ " on edge '" ++
            (edges e).id ++ "' lane#" ++ toString k ++ ".") } := by
  refine ⟨fun eID lID lane L index => writeLane_failure env w eID lID lane L index hw,
    fun eID lID lane L index h0 => ?_,
    writeEdge_negative env edges w e noNames k hw hk hneg hbefore⟩
  have hs : ¬ lane.speed < 0 := by
    rw [h0]
    exact lt_irrefl 0
  rw [writeLane_ok env w eID lID lane L index hw hs, laneBody_eq, h0]
  simp only [laneWarnings, h0, if_true]

set_option maxRecDepth 100000 in
/-- The edge with the lane speeds 0, 10, -1 and 10: lane 0 is written in full
with a warning, lane 1 in full, of lane 2 only the head, and lane 3 not at
all. -/
theorem negative_speed_is_fatal_witness :
    emptyWriter.failure = none ∧ 2 < (slowEdges 1).lanes.length ∧
    ((slowEdges 1).lanes.getD 2 (mkLane 0)).speed < 0 ∧
    (∀ i < 2, ¬ ((slowEdges 1).lanes.getD i (mkLane 0)).speed < 0) ∧
    writeEdge crossedEnv slowEdges emptyWriter 1 false
      = { into := [Item.openTag SumoXMLTag.SUMO_TAG_EDGE, Item.str " id=\"1\" from=\"n\" to=\"n",
            Item.str "\" priority=\"1\"", Item.str ">\n",
            Item.openTag SumoXMLTag.SUMO_TAG_LANE, Item.str " id=\"1_0\"",
            Item.str " index=\"0\"", Item.str " maxSpeed=\"", Item.real 0,
            Item.str "\" length=\"", Item.real 100, Item.str "\"", Item.str " shape=\"",
            Item.positionVector [(0, 0), (100, 0)], Item.str "\"", Item.closeTag true,
            Item.openTag SumoXMLTag.SUMO_TAG_LANE, Item.str " id=\"1_1\"",
            Item.str " index=\"1\"", Item.str " maxSpeed=\"", Item.real 10,
            Item.str "\" length=\"", Item.real 100, Item.str "\"", Item.str " shape=\"",
            Item.positionVector [(0, 0), (100, 0)], Item.str "\"", Item.closeTag true,
            Item.openTag SumoXMLTag.SUMO_TAG_LANE, Item.str " id=\"1_2\"",
            Item.str " index=\"2\""],
          warnings := ["Lane #0 of edge '1' has a maximum velocity of 0."],
          failure := some "Negative velocity (-1/1 on edge '1' lane#2." } :=
  ⟨rfl, by decide, by with_unfolding_all decide, by with_unfolding_all decide,
    (negative_speed_is_fatal crossedEnv slowEdges emptyWriter 1 false 2 rfl (by decide)
      (by with_unfolding_all decide) (by with_unfolding_all decide)).2.2.trans
      (by with_unfolding_all decide)⟩

/-! ### Districts -/

theorem foldl_put_flatMap {α : Type} (l : List α) (f : α → List Item) (w : Writer) :
    l.foldl (fun into a => into.put (f a)) w = w.put (l.flatMap f) := by
  induction l generalizing w with
  | nil => exact (Writer.put_nil w).symm
  | cons a l ih => rw [List.foldl_cons, ih, Writer.put_put, List.flatMap_cons]

theorem range_map_getD_zip {α β : Type} (as : List α) (bs : List β) (a : α) (b : β)
    (h : bs.length = as.length) :
    (List.range as.length).map (fun i => (as.getD i a, bs.getD i b)) = as.zip bs := by
  apply List.ext_getElem
  · simp [h]
  · intro i h1 h2
    simp only [List.length_map, List.length_range] at h1
    simp [List.getD_eq_getElem, h1, h ▸ h1]

theorem sum_map_div (v : List SUMOReal) (s : SUMOReal) :
    (v.map fun x => x / s).sum = v.sum / s := by
  induction v with
  | nil => simp
  | cons x v ih => simp only [List.map_cons, List.sum_cons, ih, add_div]

theorem normaliseSum_one (v : List SUMOReal) : normaliseSum v 1.0 = v.map fun x => x / v.sum := by
  unfold normaliseSum
  norm_num

theorem normaliseSum_getD (v : List SUMOReal) (i : Nat) :
    (normaliseSum v 1.0).getD i 0 = v.getD i 0 / v.sum := by
  rw [normaliseSum_one]
  by_cases h : i < v.length
  · rw [List.getD_eq_getElem _ _ (by simpa using h), List.getD_eq_getElem _ _ h, List.getElem_map]
  · rw [List.getD_eq_default _ _ (by simpa using h), List.getD_eq_default _ _ (not_lt.1 h),
      zero_div]

theorem writeDistrict_eq (env : WriteEnv) (edges : EdgeTable) (w : Writer) (d : NBDistrict) :
    writeDistrict env edges w d
      = w.put ([Item.openTag SumoXMLTag.SUMO_TAG_TAZ, Item.str (" id=\"" ++ d.id ++ "\"")] ++
          (if d.shape.length > 0 then
            [Item.str " shape=\"", Item.positionVector d.shape, Item.str "\""] else []) ++
          [Item.str ">\n"] ++
          (((List.range d.sourceEdges.length).map fun i =>
              (d.sourceEdges.getD i 0, (env.normaliseSum d.sourceWeights 1.0).getD i 0)).flatMap
            fun p => [Item.openTag SumoXMLTag.SUMO_TAG_TAZSOURCE,
              Item.str (" id=\"" ++ (edges p.1).id ++ "\" weight=\""), Item.real p.2,
              Item.str "\"", Item.closeTag true]) ++
          (((List.range d.sinkEdges.length).map fun i =>
              (d.sinkEdges.getD i 0, (env.normaliseSum d.sinkWeights 1.0).getD i 0)).flatMap
            fun p => [Item.openTag SumoXMLTag.SUMO_TAG_TAZSINK,
              Item.str (" id=\"" ++ (edges p.1).id ++ "\" weight=\""), Item.real p.2,
              Item.str "\"", Item.closeTag true]) ++
          [Item.closeTag false]) := by
  unfold writeDistrict
  simp only [Writer.put_put, List.cons_append, List.nil_append]
  rw [foldl_put_flatMap, foldl_put_flatMap]
  by_cases hs : d.shape.length > 0
  · simp only [if_pos hs, Writer.put_put, List.flatMap_map, List.cons_append, List.nil_append,
      List.append_assoc]
  · simp only [if_neg hs, Writer.put_put, List.flatMap_map, List.cons_append, List.nil_append,
      List.append_assoc]

/-- Claim C14, as stated, fails for a district without source edges: what
`writeDistrict` writes for it holds no weight at all, so the weights written
for the sources, and those written for the sinks, sum to 0 and not to 1. -/
theorem district_weights_claim_counterexample :
    writeDistrict districtEnv crossedEdges emptyWriter emptyDistrict
      = { into := [Item.openTag SumoXMLTag.SUMO_TAG_TAZ, Item.str " id=\"d\"", Item.str ">\n",
            Item.closeTag false],
          warnings := [], failure := none } ∧
    realsOf (writeDistrict districtEnv crossedEdges emptyWriter emptyDistrict).into = [] ∧
    (realsOf (writeDistrict districtEnv crossedEdges emptyWriter emptyDistrict).into).sum ≠ 1 := by
  refine ⟨?_, ?_, ?_⟩ <;> with_unfolding_all decide

/-- Claim C14, amended: with the normalisation that divides by the sum, for a
district that has one raw weight for every source edge and for every sink
edge, and whose raw source weights and raw sink weights have sums other than
0, `writeDistrict` writes after the head one source element for every source
edge in order, with the id of the edge and its raw weight divided by the sum
of the raw source weights, then one sink element for every sink edge with its
raw weight divided by the sum of the raw sink weights; the weights of the
sources sum to 1, and so do those of the sinks. -/
theorem district_weights_normalised (env : WriteEnv) (edges : EdgeTable) (w : Writer)
    (d : NBDistrict) (hn : env.normaliseSum = normaliseSum)
    (hsource : d.sourceWeights.length = d.sourceEdges.length)
    (hsink : d.sinkWeights.length = d.sinkEdges.length)
    (hsourceSum : d.sourceWeights.sum ≠ 0) (hsinkSum : d.sinkWeights.sum ≠ 0) :
    writeDistrict env edges w d
      = w.put ([Item.openTag SumoXMLTag.SUMO_TAG_TAZ, Item.str (" id=\"" ++ d.id ++ "\"")] ++
          (if d.shape.length > 0 then
            [Item.str " shape=\"", Item.positionVector d.shape, Item.str "\""] else []) ++
          [Item.str ">\n"] ++
          ((d.sourceEdges.zip d.sourceWeights).flatMap fun p =>
            [Item.openTag SumoXMLTag.SUMO_TAG_TAZSOURCE,
              Item.str (" id=\"" ++ (edges p.1).id ++ "\" weight=\""),
              Item.real (p.2 / d.sourceWeights.sum), Item.str "\"", Item.closeTag true]) ++
          ((d.sinkEdges.zip d.sinkWeights).flatMap fun p =>
            [Item.openTag SumoXMLTag.SUMO_TAG_TAZSINK,
              Item.str (" id=\"" ++ (edges p.1).id ++ "\" weight=\""),
              Item.real (p.2 / d.sinkWeights.sum), Item.str "\"", Item.closeTag true]) ++
          [Item.closeTag false]) ∧
    (d.sourceWeights.map fun x => x / d.sourceWeights.sum).sum = 1 ∧
    (d.sinkWeights.map fun x => x / d.sinkWeights.sum).sum = 1 := by
  refine ⟨?_, ?_, ?_⟩
  · have key : ∀ (es : List EdgePtr) (ws : List SUMOReal), ws.length = es.length →
        ((List.range es.length).map fun i => (es.getD i 0, (normaliseSum ws 1.0).getD i 0))
          = (es.zip ws).map fun p => (p.1, p.2 / ws.sum) := by
      intro es ws h
      rw [← range_map_getD_zip es ws 0 0 h, List.map_map]
      apply List.map_congr_left
      intro i _
      simp only [Function.comp, normaliseSum_getD]
    rw [writeDistrict_eq, hn, key _ _ hsource, key _ _ hsink]
    simp only [List.flatMap_map]
  · rw [sum_map_div, div_self hsourceSum]
  · rw [sum_map_div, div_self hsinkSum]

set_option maxRecDepth 100000 in
/-- The district with the raw source weights 1, 1 and 2 and the raw sink
weights 3 and 1: the sources are written with the weights 1/4, 1/4 and 1/2,
the sinks with 3/4 and 1/4. -/
theorem district_weights_normalised_witness :
    districtEnv.normaliseSum = normaliseSum ∧
    demoDistrict.sourceWeights.length = demoDistrict.sourceEdges.length ∧
    demoDistrict.sinkWeights.length = demoDistrict.sinkEdges.length ∧
    demoDistrict.sourceWeights.sum ≠ 0 ∧ demoDistrict.sinkWeights.sum ≠ 0 ∧
    writeDistrict districtEnv crossedEdges emptyWriter demoDistrict
      = { into := [Item.openTag SumoXMLTag.SUMO_TAG_TAZ, Item.str " id=\"d\"", Item.str ">\n",
            Item.openTag SumoXMLTag.SUMO_TAG_TAZSOURCE, Item.str " id=\"1\" weight=\"",
            Item.real (1 / 4), Item.str "\"", Item.closeTag true,
            Item.openTag SumoXMLTag.SUMO_TAG_TAZSOURCE, Item.str " id=\"2\" weight=\"",
            Item.real (1 / 4), Item.str "\"", Item.closeTag true,
            Item.openTag SumoXMLTag.SUMO_TAG_TAZSOURCE, Item.str " id=\"3\" weight=\"",
            Item.real (1 / 2), Item.str "\"", Item.closeTag true,
            Item.openTag SumoXMLTag.SUMO_TAG_TAZSINK, Item.str " id=\"3\" weight=\"",
            Item.real (3 / 4), Item.str "\"", Item.closeTag true,
            Item.openTag SumoXMLTag.SUMO_TAG_TAZSINK, Item.str " id=\"1\" weight=\"",
            Item.real (1 / 4), Item.str "\"", Item.closeTag true,
            Item.closeTag false],
          warnings := [], failure := none } :=
  ⟨rfl, rfl, rfl, by with_unfolding_all decide, by with_unfolding_all decide,
    (district_weights_normalised districtEnv crossedEdges emptyWriter demoDistrict rfl rfl rfl
      (by with_unfolding_all decide) (by with_unfolding_all decide)).1.trans
      (by with_unfolding_all decide)⟩

/-! ### Roundabouts -/

theorem foldl_toNodes (edges : EdgeTable) (r : List EdgePtr) (acc : List NodePtr)
    (hacc : acc.Nodup) :
    (r.foldl (fun nodes j =>
      let n := (edges j).toNode
      if n ∈ nodes then nodes else nodes ++ [n]) acc).Nodup ∧
    ∀ n, n ∈ r.foldl (fun nodes j =>
        let n := (edges j).toNode
        if n ∈ nodes then nodes else nodes ++ [n]) acc
      ↔ n ∈ acc ∨ ∃ j ∈ r, (edges j).toNode = n := by
  induction r generalizing acc with
  | nil => exact ⟨hacc, fun n => by simp⟩
  | cons j r ih =>
    rw [List.foldl_cons]
    by_cases hj : (edges j).toNode ∈ acc
    · simp only [if_pos hj]
      refine ⟨(ih acc hacc).1, fun n => ?_⟩
      rw [(ih acc hacc).2 n]
      constructor
      · rintro (h | ⟨i, hi, rfl⟩)
        · exact Or.inl h
        · exact Or.inr ⟨i, List.mem_cons_of_mem _ hi, rfl⟩
      · rintro (h | ⟨i, hi, rfl⟩)
        · exact Or.inl h
        · rcases List.mem_cons.1 hi with rfl | hi
          · exact Or.inl hj
          · exact Or.inr ⟨i, hi, rfl⟩
    · simp only [if_neg hj]
      have hnd : (acc ++ [(edges j).toNode]).Nodup := by
        rw [List.nodup_append]
        refine ⟨hacc, List.nodup_singleton _, ?_⟩
        intro a ha hb
        rw [List.mem_singleton] at hb
        exact hj (hb ▸ ha)
      refine ⟨(ih _ hnd).1, fun n => ?_⟩
      rw [(ih _ hnd).2 n]
      constructor
      · rintro (h | ⟨i, hi, rfl⟩)
        · rcases List.mem_append.1 h with h | h
          · exact Or.inl h
          · exact Or.inr ⟨j, List.mem_cons_self _ _, (List.mem_singleton.1 h).symm⟩
        · exact Or.inr ⟨i, List.mem_cons_of_mem _ hi, rfl⟩
      · rintro (h | ⟨i, hi, rfl⟩)
        · exact Or.inl (List.mem_append_left _ h)
        · rcases List.mem_cons.1 hi with rfl | hi
          · exact Or.inl (List.mem_append_right _ (List.mem_singleton_self _))
          · exact Or.inr ⟨i, hi, rfl⟩

theorem foldl_separated (f : NodePtr → String) (l : List NodePtr) (k : Nat) (w : Writer) :
    (l.foldl (fun (s : Nat × Writer) j =>
      let into := if s.1 ≠ 0 then s.2.put [Item.str " "] else s.2
      let into := into.put [Item.str (f j)]
      (s.1 + 1, into)) (k, w)).2
      = w.put (if k ≠ 0 then l.flatMap (fun j => [Item.str " ", Item.str (f j)])
          else List.intersperse (Item.str " ") (l.map fun j => Item.str (f j))) := by
  induction l generalizing k w with
  | nil =>
    rw [List.foldl_nil]
    split
    · exact (Writer.put_nil w).symm
    · exact (Writer.put_nil w).symm
  | cons j l ih =>
    rw [List.foldl_cons]
    simp only
    rw [ih, if_pos (Nat.succ_ne_zero k)]
    by_cases hk : k ≠ 0
    · simp only [if_pos hk, Writer.put_put, List.flatMap_cons, List.cons_append,
        List.nil_append]
    · simp only [if_neg hk, Writer.put_put, List.map_cons, List.cons_append, List.nil_append]
      congr 1
      cases l with
      | nil => rfl
      | cons a l =>
        simp only [List.map_cons, List.intersperse, List.flatMap_cons, List.cons_append,
          List.nil_append, List.cons.injEq, true_and]
        clear ih
        induction l generalizing a with
        | nil => rfl
        | cons b l ih2 =>
          simp only [List.map_cons, List.intersperse, List.flatMap_cons, List.cons_append,
            List.nil_append, List.cons.injEq, true_and]
          exact ih2 b

/-- Claim C15: `writeRoundabout` writes the opening tag and the attribute
`nodes`, whose value is the ids of the nodes of `roundaboutNodes` with one
blank between two neighbours and none before the first or after the last.
These nodes are the to-nodes of the edges of the roundabout and no others,
none of them twice, and they are in ascending order of their ids. -/
theorem roundabout_lists_to_nodes (env : WriteEnv) (edges : EdgeTable) (w : Writer)
    (r : List EdgePtr) :
    writeRoundabout env edges w r
      = w.put ([Item.openTag SumoXMLTag.SUMO_TAG_ROUNDABOUT, Item.str " nodes=\""] ++
          List.intersperse (Item.str " ")
            ((roundaboutNodes env edges r).map fun n => Item.str (env.nodes n).id) ++
          [Item.str "\"", Item.closeTag true]) ∧
    (roundaboutNodes env edges r).Nodup ∧
    (∀ n, n ∈ roundaboutNodes env edges r ↔ ∃ j ∈ r, (edges j).toNode = n) ∧
    (roundaboutNodes env edges r).Pairwise fun a b => (env.nodes a).id ≤ (env.nodes b).id := by
  have hfold := foldl_toNodes edges r [] List.nodup_nil
  have hperm := List.perm_insertionSort (nodes_by_id_sorter env.nodes)
    (r.foldl (fun nodes j =>
      let n := (edges j).toNode
      if n ∈ nodes then nodes else nodes ++ [n]) [])
  refine ⟨?_, ?_, fun n => ?_, ?_⟩
  · unfold writeRoundabout
    simp only
    rw [foldl_separated (fun j => (env.nodes j).id), if_neg (by simp)]
    simp only [Writer.put_put, List.append_assoc]
    rfl
  · exact hperm.nodup_iff.2 hfold.1
  · unfold roundaboutNodes
    rw [hperm.mem_iff, hfold.2 n]
    simp
  · exact List.sorted_insertionSort (nodes_by_id_sorter env.nodes) _

/-! ### Connections without destination edge -/

theorem Writer.fail_of_failed (w : Writer) (h : w.failure.isSome) (msg : String) :
    w.fail msg = w := by
  unfold Writer.fail
  rw [if_pos h]

theorem writeConnection_failed (env : WriteEnv) (edges : EdgeTable) (w : Writer)
    (from_ : EdgePtr) (c : Connection) (includeInternal plain : Bool)
    (h : w.failure.isSome) : writeConnection env edges w from_ c includeInternal plain = w := by
  unfold writeConnection
  cases c.toEdge with
  | none => exact Writer.fail_of_failed w h _
  | some t => simp only [Writer.put, Writer.fail, h, if_true, ite_self]

theorem writeConnection_none (env : WriteEnv) (edges : EdgeTable) (w : Writer)
    (from_ : EdgePtr) (c : Connection) (includeInternal plain : Bool) (hc : c.toEdge = none) :
    writeConnection env edges w from_ c includeInternal plain
      = w.fail "assert(c.toEdge != 0)" := by
  unfold writeConnection
  rw [hc]

theorem writeConnection_some (env : WriteEnv) (edges : EdgeTable) (w : Writer)
    (from_ : EdgePtr) (c : Connection) (includeInternal : Bool)
    (hdir : ∀ t, c.toEdge = some t →
      env.getDirection (edges from_).toNode from_ t ≠ LinkDirection.LINKDIR_NODIR)
    (hc : c.toEdge.isSome) :
    writeConnection env edges w from_ c includeInternal false
      = w.put (connectionItems env edges from_ c includeInternal) := by
  unfold writeConnection connectionItems
  cases hto : c.toEdge with
  | none => rw [hto] at hc; cases hc
  | some t =>
    have hd := hdir t hto
    by_cases h1 : includeInternal = true
    all_goals by_cases h2 : c.tlID ≠ ""
    all_goals simp only [h1, h2, hd, if_true, if_false, ne_eq, not_false_eq_true, not_true_eq_false,
      Bool.false_eq_true, Writer.put_put, List.cons_append, List.nil_append, List.append_assoc]

theorem foldl_writeConnection_failed (env : WriteEnv) (edges : EdgeTable)
    (includeInternal : Bool) (ps : List (EdgePtr × Connection)) (w : Writer)
    (h : w.failure.isSome) :
    ps.foldl (fun w p => writeConnection env edges w p.1 p.2 includeInternal false) w = w := by
  induction ps with
  | nil => rfl
  | cons p ps ih => rw [List.foldl_cons, writeConnection_failed env edges w _ _ _ _ h, ih]

theorem foldl_writeConnection (env : WriteEnv) (edges : EdgeTable) (includeInternal : Bool)
    (ps : List (EdgePtr × Connection))
    (hdir : ∀ p ∈ ps.takeWhile (fun p => p.2.toEdge.isSome), ∀ t, p.2.toEdge = some t →
      env.getDirection (edges p.1).toNode p.1 t ≠ LinkDirection.LINKDIR_NODIR)
    (w : Writer) (hw : w.failure = none) :
    ps.foldl (fun w p => writeConnection env edges w p.1 p.2 includeInternal false) w
      = { into := w.into ++ (ps.takeWhile fun p => p.2.toEdge.isSome).flatMap fun p =>
            connectionItems env edges p.1 p.2 includeInternal,
          warnings := w.warnings,
          failure := if ps.all (fun p => p.2.toEdge.isSome) then none
            else some "assert(c.toEdge != 0)" } := by
  induction ps generalizing w with
  | nil =>
    cases w
    simp only at hw
    simp [hw]
  | cons p ps ih =>
    rw [List.foldl_cons]
    by_cases hp : p.2.toEdge.isSome
    · have htw : List.takeWhile (fun p => p.2.toEdge.isSome) (p :: ps)
          = p :: List.takeWhile (fun p => p.2.toEdge.isSome) ps :=
        List.takeWhile_cons_of_pos hp
      rw [writeConnection_some env edges w p.1 p.2 includeInternal
          (hdir p (by rw [htw]; exact List.mem_cons_self _ _)) hp,
        ih (fun q hq => hdir q (by rw [htw]; exact List.mem_cons_of_mem _ hq)) _
          (by rw [Writer.put_failure, hw]), Writer.put_eq w hw]
      simp only [List.takeWhile_cons, hp, if_true, List.flatMap_cons, List.append_assoc,
        List.all_cons, Bool.true_and]
    · have hn : p.2.toEdge = none := by
        cases h : p.2.toEdge with
        | none => rfl
        | some t => rw [h] at hp; exact absurd rfl hp
      rw [writeConnection_none env edges w p.1 p.2 includeInternal false hn]
      have hf : w.fail "assert(c.toEdge != 0)"
          = { into := w.into, warnings := w.warnings,
              failure := some "assert(c.toEdge != 0)" } := by
        unfold Writer.fail
        rw [hw]
        rfl
      rw [hf, foldl_writeConnection_failed env edges includeInternal ps
        { into := w.into, warnings := w.warnings, failure := some "assert(c.toEdge != 0)" } rfl]
      simp [List.takeWhile_cons, hp]

theorem allConnections_congr {a b : EdgeTable} (h : SameButOrder a b)
    (l : List (String × EdgePtr)) : allConnections a l = allConnections b l := by
  unfold allConnections
  apply flatMap_congr_mem
  intro it _
  rw [(h it.2).1]

theorem foldl_writeConnections_edge (env : WriteEnv) (includeInternal : Bool)
    (l : List (String × EdgePtr)) (x : Nat × NetState) :
    (l.foldl (writeConnections_edge env includeInternal) x).2.into
      = (allConnections x.2.edges l).foldl
          (fun w p => writeConnection env x.2.edges w p.1 p.2 includeInternal false)
          x.2.into := by
  induction l generalizing x with
  | nil => rfl
  | cons e l ih =>
    rw [List.foldl_cons, ih]
    by_cases hx : x.2.into.failure.isSome
    · have hstep : writeConnections_edge env includeInternal x e = x := by
        unfold writeConnections_edge
        rw [if_pos hx]
      rw [hstep, foldl_writeConnection_failed _ _ _ _ _ hx,
        foldl_writeConnection_failed _ _ _ _ _ hx]
    · have hso : SameButOrder (sortOutgoingConnectionsByIndex x.2.edges e.2) x.2.edges :=
        sortOutgoingConnectionsByIndex_sameButOrder _ _
      have hstep : writeConnections_edge env includeInternal x e
          = (x.1 + ((sortOutgoingConnectionsByIndex x.2.edges e.2) e.2).getConnections.length,
              { into := ((sortOutgoingConnectionsByIndex x.2.edges e.2)
                  e.2).getConnections.foldl (fun into it_c =>
                    writeConnection env (sortOutgoingConnectionsByIndex x.2.edges e.2) into e.2
                      it_c includeInternal false) x.2.into,
                edges := sortOutgoingConnectionsByIndex x.2.edges e.2 }) := by
        unfold writeConnections_edge
        rw [if_neg hx]
      rw [hstep]
      simp only
      rw [allConnections_congr hso, writeConnection_congr env hso]
      show _ = (allConnections x.2.edges (e :: l)).foldl _ _
      unfold allConnections
      rw [List.flatMap_cons, List.foldl_append, List.foldl_map]
      unfold NBEdge.getConnections
      rw [sortOutgoingConnectionsByIndex_connections]

theorem writeRoundabout_failed (env : WriteEnv) (edges : EdgeTable) (w : Writer)
    (r : List EdgePtr) (h : w.failure.isSome) : writeRoundabout env edges w r = w := by
  unfold writeRoundabout
  simp only
  rw [foldl_separated (fun j => (env.nodes j).id)]
  simp only [Writer.put_put]
  exact Writer.put_of_failed w h _

theorem writeDistrict_failed (env : WriteEnv) (edges : EdgeTable) (w : Writer)
    (d : NBDistrict) (h : w.failure.isSome) : writeDistrict env edges w d = w := by
  rw [writeDistrict_eq]
  exact Writer.put_of_failed w h _

theorem foldl_of_failed {α : Type} (f : Writer → α → Writer) (l : List α) (w : Writer)
    (hf : ∀ w a, w.failure.isSome → f w a = w) (h : w.failure.isSome) : l.foldl f w = w := by
  induction l with
  | nil => rfl
  | cons a l ih => rw [List.foldl_cons, hf w a h, ih]

theorem writeNetwork_rest_failed (env : WriteEnv) (nb : NBNetBuilder) (edges : EdgeTable)
    (w : Writer) (h : w.failure.isSome) : writeNetwork_rest env nb edges w = w := by
  unfold writeNetwork_rest
  simp only
  rw [foldl_of_failed _ _ w (fun w r h => writeRoundabout_failed env edges w r h) h]
  have h1 : (if nb.roundabouts.length ≠ 0 then w.put [Item.str "\n"] else w) = w := by
    split
    · exact Writer.put_of_failed w h _
    · rfl
  rw [h1, foldl_of_failed _ _ w (fun w i h => writeDistrict_failed env edges w i.2 h) h]
  have h2 : (if nb.districtCont.length ≠ 0 then w.put [Item.str "\n"] else w) = w := by
    split
    · exact Writer.put_of_failed w h _
    · rfl
  rw [h2]
  exact Writer.put_of_failed w h _

theorem writeInternalConnections_failed (env : WriteEnv) (edges : EdgeTable) (w : Writer)
    (n : NodePtr) (h : w.failure.isSome) :
    (writeInternalConnections env edges w n).2.1 = w := by
  unfold writeInternalConnections
  by_cases h0 : countInternalLanes env.nodes edges n = 0
  · simp only [h0, if_true]
  · simp only [h0, if_false]
    have key : ∀ (l : List EdgePtr) (x : InternalConnVars), x.v.into.failure.isSome →
        l.foldl (writeInternalConnections_edge env n (countInternalLanes env.nodes edges n)
          (":" ++ (env.nodes n).id)) x = x := by
      intro l
      induction l with
      | nil => exact fun x _ => rfl
      | cons e l ih =>
        intro x hx
        have hstep : writeInternalConnections_edge env n (countInternalLanes env.nodes edges n)
            (":" ++ (env.nodes n).id) x e = x := by
          unfold writeInternalConnections_edge
          rw [if_pos hx]
        rw [List.foldl_cons, hstep, ih x hx]
    rw [key _ _ h]

theorem writeNetwork_internalConnections_failed (env : WriteEnv) (nb : NBNetBuilder)
    (s : NetState) (h : s.into.failure.isSome) :
    (writeNetwork_internalConnections env nb s).into = s.into := by
  have key : ∀ (l : List (String × NodePtr)) (x : Bool × NetState), x.2.into.failure.isSome →
      (l.foldl (writeNetwork_internalConnections_node env) x).2.into = x.2.into := by
    intro l
    induction l with
    | nil => exact fun x _ => rfl
    | cons i l ih =>
      intro x hx
      have hstep : (writeNetwork_internalConnections_node env x i).2.into = x.2.into :=
        writeInternalConnections_failed env x.2.edges x.2.into i.2 hx
      rw [List.foldl_cons, ih _ (by rw [hstep]; exact hx), hstep]
  unfold writeNetwork_internalConnections
  simp only
  split
  · show Writer.put _ _ = _
    rw [key _ _ h]
    exact Writer.put_of_failed _ h _
  · exact key _ _ h

theorem writeNetwork_of_failed_connections (env : WriteEnv) (oc : OptionsCont)
    (nb : NBNetBuilder) (s : NetState) (hout : oc.output_file.isSome)
    (h : (writeConnections env nb (!oc.no_internal_links)
      { into := writeNetwork_elements env oc nb s.edges s.into,
        edges := s.edges }).2.into.failure.isSome) :
    (writeNetwork env oc nb s).into
      = (writeConnections env nb (!oc.no_internal_links)
          { into := writeNetwork_elements env oc nb s.edges s.into,
            edges := s.edges }).2.into := by
  have h0 : ¬ oc.output_file.isNone = true := by
    cases ho : oc.output_file with
    | none => rw [ho] at hout; cases hout
    | some f => simp
  unfold writeNetwork
  rw [if_neg h0]
  simp only
  generalize writeConnections env nb (!oc.no_internal_links)
    { into := writeNetwork_elements env oc nb s.edges s.into, edges := s.edges } = c at h ⊢
  have hd : (if c.1 > 0 then c.2.into.put [Item.str "\n"] else c.2.into) = c.2.into := by
    split
    · exact Writer.put_of_failed _ h _
    · rfl
  rw [hd]
  cases (!oc.no_internal_links) with
  | false =>
    simp only [Bool.false_eq_true, if_false]
    exact writeNetwork_rest_failed env nb _ _ h
  | true =>
    simp only [if_true]
    rw [writeNetwork_internalConnections_failed env nb { into := c.2.into, edges := c.2.edges } h]
    exact writeNetwork_rest_failed env nb _ _ h

theorem allConnections_dangling (edges : EdgeTable) (l : List (String × EdgePtr))
    (h : ∃ it ∈ l, ∃ c ∈ (edges it.2).connections, c.toEdge = none) :
    (allConnections edges l).all (fun p => p.2.toEdge.isSome) = false := by
  obtain ⟨it, hit, c, hc, hnone⟩ := h
  rw [Bool.eq_false_iff]
  intro hall
  rw [List.all_eq_true] at hall
  have hmem : (it.2, c) ∈ allConnections edges l := by
    unfold allConnections
    rw [List.mem_flatMap]
    exact ⟨it, hit, List.mem_map.2 ⟨c, (sortConnections_perm _).mem_iff.2 hc, rfl⟩⟩
  have := hall _ hmem
  rw [hnone] at this
  cases this

set_option maxRecDepth 100000 in
/-- Claim C13, as stated, fails in two ways for a graph whose edge 1 has a
connection without destination edge.  When no output file is set
`writeNetwork` returns at once, without any failure.  And when a lane of edge
1 has a negative speed, `writeNetwork` fails while it writes the edges, before
it reaches the connections, so the failure is the one about the negative
velocity and not the one about the missing destination edge. -/
theorem dangling_connection_claim_counterexample :
    mkConnection 0 none 0 ∈ (danglingEdges 1).connections ∧
    (writeNetwork crossedEnv
        { output_file := none, no_internal_links := false, output_no_names := false } crossedNet
        { into := emptyWriter, edges := danglingEdges }).into = emptyWriter ∧
    mkConnection 0 none 0 ∈ (danglingSlowEdges 1).connections ∧
    (writeNetwork crossedEnv crossedEnv.options crossedNet
        { into := emptyWriter, edges := danglingSlowEdges }).into.failure
      = some "Negative velocity (-1/1 on edge '1' lane#0." := by
  refine ⟨?_, ?_, ?_, ?_⟩ <;> with_unfolding_all decide

/-! ### `compute`: pairs that are never assigned -/

theorem applyCalls_of_not_called (e : EdgePtr) (calls : List (EdgePtr × EdgePtr))
    (a : EdgeTable) (h : ∀ c ∈ calls, c.1 ≠ e) : applyCalls a calls e = a e := by
  induction calls generalizing a with
  | nil => rfl
  | cons c cs ih =>
    show applyCalls (setTurningDestination a c.1 c.2) cs e = a e
    rw [ih _ fun c' hc' => h c' (List.mem_cons_of_mem _ hc')]
    unfold setTurningDestination
    exact Function.update_noteq (Ne.symm (h c (List.mem_cons_self _ _))) _ _

theorem isConnectedTo_eq_false (x : NBEdge) (o : EdgePtr)
    (h : ∀ c ∈ x.connections, c.toEdge ≠ some o) : x.isConnectedTo o = false := by
  unfold NBEdge.isConnectedTo
  rw [List.any_eq_false]
  intro c hc
  simpa using h c hc

/-- Claim C22: when the sort rearranges the candidates, and the edge `e` has
at least one connection but none to the edge `o`, then at no node of the
container `compute` calls `e.setTurningDestination(o)`, whatever the angle
between the two edges and whatever their end nodes; so `o` is the turnaround
of `e` after the run only if it was before. -/
theorem compute_skips_unconnected (env : TurnEnv) (hsort : SortsByAngle env.sortCombinations)
    (nc : List (String × NodePtr)) (edges : EdgeTable) (e o : EdgePtr)
    (hconn : (edges e).connections ≠ [])
    (hnone : ∀ c ∈ (edges e).connections, c.toEdge ≠ some o) :
    (∀ entry ∈ (compute env nc edges).trace, (e, o) ∉ entry.2) ∧
    (((compute env nc edges).edges e).turnDestination = some o →
      (edges e).turnDestination = some o) := by
  obtain ⟨ht, hed⟩ := compute_eq env nc edges
  have key : ∀ entry ∈ traceOf env edges nc, (e, o) ∉ entry.2 := by
    intro entry hentry hmem
    obtain ⟨i, _, _, j, hj, hj1, hj2⟩ := mem_traceOf hsort hentry hmem
    obtain ⟨_, _, h3, _, _⟩ := mem_combinations hj
    simp only [hj1, hj2] at h3
    rcases h3 with h3 | h3
    · exact hconn (List.length_eq_zero.1 h3)
    · rw [isConnectedTo_eq_false _ o hnone] at h3
      cases h3
  constructor
  · rw [ht]
    exact key
  · intro h
    rw [hed, applyCalls_turn] at h
    rcases turnAfter_some e o _ _ h with h | h
    · exact h
    · obtain ⟨entry, hentry, hc⟩ := List.mem_flatMap.1 h
      exact absurd hc (key entry hentry)

/-- The node of `connectedEdges`: edge 1 reverses edge 2 at angle 180 and
comes from the node edge 2 leads to, but its only connection is to edge 3, and
no call is made for the pair. -/
theorem compute_skips_unconnected_witness :
    SortsByAngle connectedEnv.sortCombinations ∧ (connectedEdges 1).connections ≠ [] ∧
    (∀ c ∈ (connectedEdges 1).connections, c.toEdge ≠ some 2) ∧
    (connectedEdges 1).fromNode = (connectedEdges 2).toNode ∧
    ∀ entry ∈ (compute connectedEnv [("0", 0)] connectedEdges).trace, (1, 2) ∉ entry.2 :=
  ⟨sortByAngle_sorts, by decide, by decide, by decide,
    (compute_skips_unconnected connectedEnv sortByAngle_sorts [("0", 0)] connectedEdges 1 2
      (by decide) (by decide)).1⟩

/-- Claim C24: when the sort rearranges the candidates, and at every node of
the container of which `e` is an incoming edge every outgoing edge is excluded
for `e`, by the connectivity rule (`e` has connections but none to it) or by
an absolute relative angle below 160, then `compute` makes no call of
`setTurningDestination` on `e` and leaves the edge object of `e`, and so its
turnaround, as it was; the run goes through all nodes of the container, there
is no path on which it fails. -/
theorem compute_leaves_edge_without_candidate (env : TurnEnv)
    (hsort : SortsByAngle env.sortCombinations) (nc : List (String × NodePtr))
    (edges : EdgeTable) (e : EdgePtr)
    (hnone : ∀ i ∈ nc, e ∈ (env.nodes i.2).incoming → ∀ o ∈ (env.nodes i.2).outgoing,
      ((edges e).getConnections.length ≠ 0 ∧ (edges e).isConnectedTo o = false) ∨
      |env.relAngle (env.getAngle e i.2) (env.getAngle o i.2)| < 160) :
    (∀ entry ∈ (compute env nc edges).trace, ∀ c ∈ entry.2, c.1 ≠ e) ∧
    (compute env nc edges).edges e = edges e ∧
    (compute env nc edges).trace.map Prod.fst = nc.map Prod.snd := by
  obtain ⟨ht, hed⟩ := compute_eq env nc edges
  have key : ∀ entry ∈ traceOf env edges nc, ∀ c ∈ entry.2, c.1 ≠ e := by
    intro entry hentry c hc hce
    obtain ⟨i, hi, _, j, hj, hj1, hj2⟩ := mem_traceOf hsort hentry hc
    obtain ⟨h1, h2, h3, h4, _⟩ := mem_combinations hj
    rw [hj1, hce] at h1 h3 h4
    rcases hnone i hi h1 j.to_ h2 with ⟨g1, g2⟩ | g
    · rcases h3 with h3 | h3
      · exact g1 h3
      · rw [g2] at h3
        cases h3
    · exact absurd h4 (not_le.2 g)
  refine ⟨?_, ?_, ?_⟩
  · rw [ht]
    exact key
  · rw [hed]
    apply applyCalls_of_not_called
    intro c hc
    obtain ⟨entry, hentry, hc'⟩ := List.mem_flatMap.1 hc
    exact key entry hentry c hc'
  · rw [ht]
    simp [traceOf, Function.comp_def]

/-- The node of `connectedEdges`: for the incoming edge 1 the outgoing edge 2
is excluded by the connectivity rule and the outgoing edge 3 by its angle of
90, and the edge object of edge 1 is left as it was. -/
theorem compute_leaves_edge_without_candidate_witness :
    SortsByAngle connectedEnv.sortCombinations ∧
    (∀ i ∈ [(("0", 0) : String × NodePtr)], 1 ∈ (connectedEnv.nodes i.2).incoming →
      ∀ o ∈ (connectedEnv.nodes i.2).outgoing,
        ((connectedEdges 1).getConnections.length ≠ 0 ∧
          (connectedEdges 1).isConnectedTo o = false) ∨
        |connectedEnv.relAngle (connectedEnv.getAngle 1 i.2) (connectedEnv.getAngle o i.2)|
          < 160) ∧
    (compute connectedEnv [("0", 0)] connectedEdges).edges 1 = connectedEdges 1 ∧
    ((compute connectedEnv [("0", 0)] connectedEdges).edges 1).turnDestination = none :=
  ⟨sortByAngle_sorts, by with_unfolding_all decide,
    (compute_leaves_edge_without_candidate connectedEnv sortByAngle_sorts [("0", 0)]
      connectedEdges 1 (by with_unfolding_all decide)).2.1,
    by with_unfolding_all decide⟩

/-! ### `compute`: the greedy matching -/

theorem greedy_blocked (R : Combination → Combination → Prop) (cs : List Combination)
    (seen : List EdgePtr) (hR : cs.Pairwise R) :
    ∀ c ∈ cs, (c.from_ ∈ seen ∨ c.to_ ∈ seen) ∨ (c.from_, c.to_) ∈ greedy seen cs ∨
      ∃ c' ∈ cs, R c' c ∧ (c'.from_, c'.to_) ∈ greedy seen cs ∧ SharesEdge c c' := by
  induction cs generalizing seen with
  | nil => intro c hc; exact absurd hc (List.not_mem_nil _)
  | cons j cs ih =>
    obtain ⟨hj, hrest⟩ := List.pairwise_cons.1 hR
    intro c hc
    by_cases hb : j.from_ ∈ seen ∨ j.to_ ∈ seen
    · rw [greedy, if_pos hb]
      rcases List.mem_cons.1 hc with rfl | hc
      · exact Or.inl hb
      · rcases ih seen hrest c hc with h | h | ⟨c', hc', h1, h2, h3⟩
        · exact Or.inl h
        · exact Or.inr (Or.inl h)
        · exact Or.inr (Or.inr ⟨c', List.mem_cons_of_mem _ hc', h1, h2, h3⟩)
    · rw [greedy, if_neg hb]
      rcases List.mem_cons.1 hc with rfl | hc
      · exact Or.inr (Or.inl (List.mem_cons_self _ _))
      · have hvia : SharesEdge c j → (c.from_ ∈ seen ∨ c.to_ ∈ seen) ∨
            (c.from_, c.to_) ∈ (j.from_, j.to_) :: greedy (j.to_ :: j.from_ :: seen) cs ∨
            ∃ c' ∈ j :: cs, R c' c ∧
              (c'.from_, c'.to_) ∈ (j.from_, j.to_) :: greedy (j.to_ :: j.from_ :: seen) cs ∧
              SharesEdge c c' := fun hs =>
          Or.inr (Or.inr ⟨j, List.mem_cons_self _ _, hj c hc, List.mem_cons_self _ _, hs⟩)
        rcases ih (j.to_ :: j.from_ :: seen) hrest c hc with h | h | ⟨c', hc', h1, h2, h3⟩
        · simp only [List.mem_cons] at h
          rcases h with (h | h | h) | (h | h | h)
          · exact hvia (Or.inr (Or.inl h))
          · exact hvia (Or.inl h)
          · exact Or.inl (Or.inl h)
          · exact hvia (Or.inr (Or.inr (Or.inr h)))
          · exact hvia (Or.inr (Or.inr (Or.inl h)))
          · exact Or.inl (Or.inr h)
        · exact Or.inr (Or.inl (List.mem_cons_of_mem _ h))
        · exact Or.inr (Or.inr ⟨c', List.mem_cons_of_mem _ hc', h1,
            List.mem_cons_of_mem _ h2, h3⟩)

theorem greedy_disjoint (cs : List Combination) (seen : List EdgePtr) :
    (greedy seen cs).Pairwise fun a b => a.1 ≠ b.1 ∧ a.1 ≠ b.2 ∧ a.2 ≠ b.1 ∧ a.2 ≠ b.2 := by
  induction cs generalizing seen with
  | nil => simp [greedy]
  | cons j cs ih =>
    by_cases hb : j.from_ ∈ seen ∨ j.to_ ∈ seen
    · rw [greedy, if_pos hb]
      exact ih seen
    · rw [greedy, if_neg hb, List.pairwise_cons]
      refine ⟨fun b hbm => ?_, ih _⟩
      have := (greedy_spec cs (j.to_ :: j.from_ :: seen)).1 b hbm
      simp only [List.mem_cons, not_or] at this
      exact ⟨Ne.symm this.1.2.1, Ne.symm this.2.2.1, Ne.symm this.1.1, Ne.symm this.2.1⟩

/-- Claim C28: when the sort puts the candidates of a node in an order in
which scores never increase, the calls `compute` makes at the node are a
maximal greedy matching of the candidates: no two calls have an edge in
common; if there is a candidate at all, a candidate whose score no other
candidate exceeds is assigned; and every candidate is assigned or has an edge
in common with an assigned candidate whose score is at least its own. -/
theorem compute_greedy_matching (env : TurnEnv) (hsort : SortsByAngle env.sortCombinations)
    (nc : List (String × NodePtr)) (edges : EdgeTable) (i : String × NodePtr) (hi : i ∈ nc) :
    ∃ calls, (i.2, calls) ∈ (compute env nc edges).trace ∧
      (calls.Pairwise fun a b => a.1 ≠ b.1 ∧ a.1 ≠ b.2 ∧ a.2 ≠ b.1 ∧ a.2 ≠ b.2) ∧
      (∀ call ∈ calls, ∃ c ∈ combinations env edges i.2, c.from_ = call.1 ∧ c.to_ = call.2) ∧
      (combinations env edges i.2 ≠ [] →
        ∃ c ∈ combinations env edges i.2,
          (∀ c' ∈ combinations env edges i.2, c'.angle ≤ c.angle) ∧ (c.from_, c.to_) ∈ calls) ∧
      ∀ c ∈ combinations env edges i.2, (c.from_, c.to_) ∈ calls ∨
        ∃ c' ∈ combinations env edges i.2,
          c'.angle ≥ c.angle ∧ (c'.from_, c'.to_) ∈ calls ∧ SharesEdge c c' := by
  obtain ⟨hperm, hsorted⟩ := hsort (combinations env edges i.2)
  refine ⟨greedy [] (env.sortCombinations (combinations env edges i.2)), ?_, greedy_disjoint _ _,
    ?_, ?_, ?_⟩
  · rw [(compute_eq env nc edges).1]
    exact List.mem_map.2 ⟨i, hi, rfl⟩
  · intro call hcall
    obtain ⟨j, hj, e⟩ := (greedy_spec _ []).2.2.2 call hcall
    exact ⟨j, hperm.mem_iff.1 hj, e⟩
  · intro hne
    cases hs : env.sortCombinations (combinations env edges i.2) with
    | nil =>
      rw [hs] at hperm
      exact absurd hperm.symm.eq_nil hne
    | cons j rest =>
      rw [hs] at hperm hsorted
      refine ⟨j, hperm.mem_iff.1 (List.mem_cons_self _ _), ?_, ?_⟩
      · intro c' hc'
        rcases List.mem_cons.1 (hperm.mem_iff.2 hc') with rfl | h
        · exact le_refl _
        · exact (List.pairwise_cons.1 hsorted).1 c' h
      · rw [greedy, if_neg (by simp)]
        exact List.mem_cons_self _ _
  · intro c hc
    rcases greedy_blocked combination_by_angle_sorter _ [] hsorted c (hperm.mem_iff.2 hc) with
      h | h | ⟨c', hc', h1, h2, h3⟩
    · simp at h
    · exact Or.inl h
    · exact Or.inr ⟨c', hperm.mem_iff.1 hc', h1, h2, h3⟩

/-- The crossing: the calls at its node are the two reverse pairs, which have
no edge in common. -/
theorem compute_greedy_matching_witness :
    SortsByAngle crossingEnv.sortCombinations ∧
    (("0", 0) : String × NodePtr) ∈ [(("0", 0) : String × NodePtr)] ∧
    (compute crossingEnv [("0", 0)] crossingEdges).trace = [(0, [(1, 2), (3, 4)])] ∧
    ∃ calls, (0, calls) ∈ (compute crossingEnv [("0", 0)] crossingEdges).trace ∧
      (calls.Pairwise fun a b => a.1 ≠ b.1 ∧ a.1 ≠ b.2 ∧ a.2 ≠ b.1 ∧ a.2 ≠ b.2) :=
  ⟨sortByAngle_sorts, List.mem_singleton.2 rfl, by with_unfolding_all decide,
    (compute_greedy_matching crossingEnv sortByAngle_sorts [("0", 0)] crossingEdges ("0", 0)
      (List.mem_singleton.2 rfl)).imp fun _ h => ⟨h.1, h.2.1⟩⟩

/-! ### `compute`: reverse pairs come first -/

theorem combinations_score (env : TurnEnv) (edges : EdgeTable) (n : NodePtr)
    (hrange : ∀ e ∈ (env.nodes n).incoming, ∀ o ∈ (env.nodes n).outgoing,
      |env.relAngle (env.getAngle e n) (env.getAngle o n)| ≤ 180)
    (c : Combination) (hc : c ∈ combinations env edges n) :
    (ReverseGeometry edges c → 520 ≤ c.angle ∧ c.angle ≤ 540) ∧
    (¬ ReverseGeometry edges c → 160 ≤ c.angle ∧ c.angle ≤ 180) := by
  obtain ⟨h1, h2, _, h4, h5⟩ := mem_combinations hc
  have h6 := hrange _ h1 _ h2
  constructor
  · intro hr
    have hr' : (edges c.from_).fromNode = (edges c.to_).toNode := hr
    rw [h5, if_pos hr']
    exact ⟨by linarith, by linarith⟩
  · intro hr
    have hr' : ¬ (edges c.from_).fromNode = (edges c.to_).toNode := hr
    rw [h5, if_neg hr']
    exact ⟨h4, h6⟩

theorem eq_of_disjoint_of_shared (calls : List (EdgePtr × EdgePtr))
    (hd : calls.Pairwise fun a b => a.1 ≠ b.1 ∧ a.1 ≠ b.2 ∧ a.2 ≠ b.1 ∧ a.2 ≠ b.2)
    (a b : EdgePtr × EdgePtr) (ha : a ∈ calls) (hb : b ∈ calls)
    (hs : a.1 = b.1 ∨ a.1 = b.2 ∨ a.2 = b.1 ∨ a.2 = b.2) : a = b := by
  by_contra hne
  have hsymm : Symmetric fun (a b : EdgePtr × EdgePtr) =>
      a.1 ≠ b.1 ∧ a.1 ≠ b.2 ∧ a.2 ≠ b.1 ∧ a.2 ≠ b.2 :=
    fun x y h => ⟨Ne.symm h.1, Ne.symm h.2.2.1, Ne.symm h.2.1, Ne.symm h.2.2.2⟩
  have := hd.forall hsymm ha hb hne
  rcases hs with h | h | h | h
  · exact this.1 h
  · exact this.2.1 h
  · exact this.2.2.1 h
  · exact this.2.2.2 h

/-- Claim C25: when the sort puts the candidates of a node in an order in
which scores never increase, and the absolute relative angle of every incoming
and outgoing edge of the node is at most 180, then every candidate of the node
whose incoming edge comes from the node its outgoing edge leads to has a score
from 520 to 540 and every other candidate a score from 160 to 180; in the
sorted list no other candidate stands before such a reverse candidate; every
reverse candidate is assigned or has an edge in common with an assigned
reverse candidate; and when an assigned candidate that is not a reverse one
has an edge in common with a reverse candidate, that reverse candidate is not
assigned and is blocked by an assigned reverse candidate. -/
theorem reverse_candidates_first (env : TurnEnv) (hsort : SortsByAngle env.sortCombinations)
    (nc : List (String × NodePtr)) (edges : EdgeTable) (i : String × NodePtr) (hi : i ∈ nc)
    (hrange : ∀ e ∈ (env.nodes i.2).incoming, ∀ o ∈ (env.nodes i.2).outgoing,
      |env.relAngle (env.getAngle e i.2) (env.getAngle o i.2)| ≤ 180) :
    (∀ c ∈ combinations env edges i.2,
      (ReverseGeometry edges c → 520 ≤ c.angle ∧ c.angle ≤ 540) ∧
      (¬ ReverseGeometry edges c → 160 ≤ c.angle ∧ c.angle ≤ 180)) ∧
    ((env.sortCombinations (combinations env edges i.2)).Pairwise fun c c' =>
      ReverseGeometry edges c' → ReverseGeometry edges c) ∧
    ∃ calls, (i.2, calls) ∈ (compute env nc edges).trace ∧
      (∀ r ∈ combinations env edges i.2, ReverseGeometry edges r →
        (r.from_, r.to_) ∈ calls ∨
        ∃ r' ∈ combinations env edges i.2,
          ReverseGeometry edges r' ∧ (r'.from_, r'.to_) ∈ calls ∧ SharesEdge r r') ∧
      (∀ c ∈ combinations env edges i.2, ¬ ReverseGeometry edges c → (c.from_, c.to_) ∈ calls →
        ∀ r ∈ combinations env edges i.2, ReverseGeometry edges r → SharesEdge r c →
          (r.from_, r.to_) ∉ calls ∧
          ∃ r' ∈ combinations env edges i.2,
            ReverseGeometry edges r' ∧ (r'.from_, r'.to_) ∈ calls ∧ SharesEdge r r') := by
  obtain ⟨hperm, hsorted⟩ := hsort (combinations env edges i.2)
  have hscore := combinations_score env edges i.2 hrange
  have horder : (env.sortCombinations (combinations env edges i.2)).Pairwise fun c c' =>
      ReverseGeometry edges c' → ReverseGeometry edges c := by
    refine hsorted.imp_of_mem ?_
    intro a b ha hb hab hrb
    by_contra hra
    have h1 := ((hscore a (hperm.mem_iff.1 ha)).2 hra).2
    have h2 := ((hscore b (hperm.mem_iff.1 hb)).1 hrb).1
    have h3 : a.angle ≥ b.angle := hab
    linarith
  have hblocked : ∀ r ∈ combinations env edges i.2, ReverseGeometry edges r →
      (r.from_, r.to_) ∈ greedy [] (env.sortCombinations (combinations env edges i.2)) ∨
      ∃ r' ∈ combinations env edges i.2, ReverseGeometry edges r' ∧
        (r'.from_, r'.to_) ∈ greedy [] (env.sortCombinations (combinations env edges i.2)) ∧
        SharesEdge r r' := by
    intro r hr hrev
    rcases greedy_blocked _ _ [] horder r (hperm.mem_iff.2 hr) with h | h | ⟨c', hc', h1, h2, h3⟩
    · simp at h
    · exact Or.inl h
    · exact Or.inr ⟨c', hperm.mem_iff.1 hc', h1 hrev, h2, h3⟩
  refine ⟨hscore, horder, greedy [] (env.sortCombinations (combinations env edges i.2)), ?_,
    hblocked, ?_⟩
  · rw [(compute_eq env nc edges).1]
    exact List.mem_map.2 ⟨i, hi, rfl⟩
  · intro c _ hnc hcall r hr hrev hshare
    have hnot : (r.from_, r.to_) ∉
        greedy [] (env.sortCombinations (combinations env edges i.2)) := by
      intro hrcall
      have heq := eq_of_disjoint_of_shared _ (greedy_disjoint _ _) _ _ hrcall hcall hshare
      simp only [Prod.mk.injEq] at heq
      apply hnc
      unfold ReverseGeometry at hrev ⊢
      rw [← heq.1, ← heq.2]
      exact hrev
    refine ⟨hnot, ?_⟩
    rcases hblocked r hr hrev with h | h
    · exact absurd h hnot
    · exact h

set_option maxRecDepth 100000 in
/-- The crossing: every absolute relative angle is at most 180, and the two
candidates, both reverse ones, have the score 540. -/
theorem reverse_candidates_first_witness :
    SortsByAngle crossingEnv.sortCombinations ∧
    (("0", 0) : String × NodePtr) ∈ [(("0", 0) : String × NodePtr)] ∧
    (∀ e ∈ (crossingEnv.nodes 0).incoming, ∀ o ∈ (crossingEnv.nodes 0).outgoing,
      |crossingEnv.relAngle (crossingEnv.getAngle e 0) (crossingEnv.getAngle o 0)| ≤ 180) ∧
    combinations crossingEnv crossingEdges 0
      = [{ from_ := 1, to_ := 2, angle := 540 }, { from_ := 3, to_ := 4, angle := 540 }] ∧
    ∀ c ∈ combinations crossingEnv crossingEdges 0,
      (ReverseGeometry crossingEdges c → 520 ≤ c.angle ∧ c.angle ≤ 540) ∧
      (¬ ReverseGeometry crossingEdges c → 160 ≤ c.angle ∧ c.angle ≤ 180) :=
  ⟨sortByAngle_sorts, List.mem_singleton.2 rfl, by with_unfolding_all decide,
    by with_unfolding_all decide,
    (reverse_candidates_first crossingEnv sortByAngle_sorts [("0", 0)] crossingEdges ("0", 0)
      (List.mem_singleton.2 rfl) (by with_unfolding_all decide)).1⟩

/-! ### `compute`: a node of reverse pairs only -/

theorem filterMap_unique {α β : Type} (g : α → Option β) (l : List α) (a : α) (b : β)
    (hnd : l.Nodup) (ha : a ∈ l) (hg : g a = some b) (hne : ∀ x ∈ l, x ≠ a → g x = none) :
    l.filterMap g = [b] := by
  induction l with
  | nil => exact absurd ha (List.not_mem_nil _)
  | cons x l ih =>
    obtain ⟨hx, hl⟩ := List.nodup_cons.1 hnd
    by_cases hxa : x = a
    · subst hxa
      rw [List.filterMap_cons_some hg]
      congr 1
      rw [List.filterMap_eq_nil_iff]
      intro y hy
      exact hne y (List.mem_cons_of_mem _ hy) (fun h => hx (h ▸ hy))
    · rw [List.filterMap_cons_none (hne x (List.mem_cons_self _ _) hxa)]
      have ha' : a ∈ l := by
        rcases List.mem_cons.1 ha with h | h
        · exact absurd h.symm hxa
        · exact h
      exact ih hl ha' fun y hy => hne y (List.mem_cons_of_mem _ hy)

theorem greedy_of_disjoint (cs : List Combination) (seen : List EdgePtr)
    (hd : cs.Pairwise fun c c' => ¬ SharesEdge c c')
    (hs : ∀ c ∈ cs, c.from_ ∉ seen ∧ c.to_ ∉ seen) :
    greedy seen cs = cs.map (fun c => (c.from_, c.to_)) ∧ skipped seen cs = [] := by
  induction cs generalizing seen with
  | nil => exact ⟨rfl, rfl⟩
  | cons j cs ih =>
    obtain ⟨hj, hrest⟩ := List.pairwise_cons.1 hd
    have hb : ¬ (j.from_ ∈ seen ∨ j.to_ ∈ seen) := by
      have := hs j (List.mem_cons_self _ _)
      tauto
    have hs' : ∀ c ∈ cs, c.from_ ∉ j.to_ :: j.from_ :: seen ∧
        c.to_ ∉ j.to_ :: j.from_ :: seen := by
      intro c hc
      have h1 := hj c hc
      have h2 := hs c (List.mem_cons_of_mem _ hc)
      unfold SharesEdge at h1
      simp only [List.mem_cons, not_or]
      push_neg at h1
      exact ⟨⟨Ne.symm h1.2.2.1, Ne.symm h1.1, h2.1⟩, ⟨Ne.symm h1.2.2.2, Ne.symm h1.2.1, h2.2⟩⟩
    obtain ⟨g1, g2⟩ := ih _ hrest hs'
    constructor
    · rw [greedy, if_neg hb, g1, List.map_cons]
    · rw [skipped, if_neg hb, g2]

theorem flatMap_singleton_map {α β : Type} (l : List α) (f : α → β) :
    l.flatMap (fun a => [f a]) = l.map f := by
  induction l with
  | nil => rfl
  | cons a l ih => rw [List.flatMap_cons, ih, List.map_cons, List.singleton_append]

theorem candidates_of_reverse_pair (env : TurnEnv) (edges : EdgeTable) (n : NodePtr)
    (ps : List (EdgePtr × EdgePtr))
    (hin : (env.nodes n).incoming.Perm (ps.map Prod.fst))
    (hnd : (ps.map Prod.fst).Nodup)
    (hconn : ∀ p ∈ ps, (edges p.1).connections = [])
    (hrev : ∀ p ∈ ps, (edges p.1).fromNode = (edges p.2).toNode)
    (h180 : ∀ p ∈ ps, |env.relAngle (env.getAngle p.1 n) (env.getAngle p.2 n)| = 180)
    (hother : ∀ p ∈ ps, ∀ q ∈ ps, p ≠ q →
      |env.relAngle (env.getAngle p.1 n) (env.getAngle q.2 n)| < 160)
    (q : EdgePtr × EdgePtr) (hq : q ∈ ps) :
    ((env.nodes n).incoming.filterMap fun e =>
      if (edges e).getConnections.length ≠ 0 ∧ ¬ (edges e).isConnectedTo q.2 = true then
        none
      else
        let angle : SUMOReal := |env.relAngle (env.getAngle e n) (env.getAngle q.2 n)|
        if angle < 160 then
          none
        else
          some ({ from_ := e, to_ := q.2,
                  angle := if (edges e).fromNode = (edges q.2).toNode then angle + 360
                    else angle } : Combination))
      = [{ from_ := q.1, to_ := q.2, angle := 540 }] := by
  have hq1 : q.1 ∈ (env.nodes n).incoming :=
    hin.mem_iff.2 (List.mem_map.2 ⟨q, hq, rfl⟩)
  apply filterMap_unique _ _ q.1 _ (hin.nodup_iff.2 hnd) hq1
  · have hc : ¬ ((edges q.1).getConnections.length ≠ 0 ∧
        ¬ (edges q.1).isConnectedTo q.2 = true) := by
      unfold NBEdge.getConnections
      rw [hconn q hq]
      simp
    show (if _ then none else _) = _
    rw [if_neg hc]
    show (if _ then none else _) = _
    rw [h180 q hq, if_neg (by norm_num), if_pos (hrev q hq)]
    norm_num
  · intro e he hne
    obtain ⟨p, hp, rfl⟩ := List.mem_map.1 (hin.mem_iff.1 he)
    have hpq : p ≠ q := fun h => hne (by rw [h])
    have hc : ¬ ((edges p.1).getConnections.length ≠ 0 ∧
        ¬ (edges p.1).isConnectedTo q.2 = true) := by
      unfold NBEdge.getConnections
      rw [hconn p hp]
      simp
    show (if _ then none else _) = _
    rw [if_neg hc]
    show (if _ then none else _) = _
    rw [if_pos (hother p hp q hq hpq)]

theorem flatMap_singletons_map {α β : Type} (l : List α) (G : α → List β) (f : β → α)
    (h : ∀ a ∈ l, ∃ c, G a = [c] ∧ f c = a) : (l.flatMap G).map f = l := by
  induction l with
  | nil => rfl
  | cons a l ih =>
    obtain ⟨c, hc, hf⟩ := h a (List.mem_cons_self _ _)
    rw [List.flatMap_cons, hc, List.singleton_append, List.map_cons, hf,
      ih fun x hx => h x (List.mem_cons_of_mem _ hx)]

theorem combinations_of_reverse_pairs (env : TurnEnv) (edges : EdgeTable) (n : NodePtr)
    (ps : List (EdgePtr × EdgePtr))
    (hin : (env.nodes n).incoming.Perm (ps.map Prod.fst))
    (hout : (env.nodes n).outgoing.Perm (ps.map Prod.snd))
    (hnd : (ps.map Prod.fst).Nodup)
    (hconn : ∀ p ∈ ps, (edges p.1).connections = [])
    (hrev : ∀ p ∈ ps, (edges p.1).fromNode = (edges p.2).toNode)
    (h180 : ∀ p ∈ ps, |env.relAngle (env.getAngle p.1 n) (env.getAngle p.2 n)| = 180)
    (hother : ∀ p ∈ ps, ∀ q ∈ ps, p ≠ q →
      |env.relAngle (env.getAngle p.1 n) (env.getAngle q.2 n)| < 160) :
    (combinations env edges n).Perm
      (ps.map fun p => ({ from_ := p.1, to_ := p.2, angle := 540 } : Combination)) ∧
    (combinations env edges n).map Combination.to_ = (env.nodes n).outgoing := by
  have hone := candidates_of_reverse_pair env edges n ps hin hnd hconn hrev h180 hother
  constructor
  · unfold combinations
    refine (List.Perm.flatMap_right _ hout).trans ?_
    rw [List.flatMap_map]
    refine List.Perm.of_eq (Eq.trans ?_ (flatMap_singleton_map ps _))
    apply flatMap_congr_mem
    intro q hq
    exact hone q hq
  · unfold combinations
    apply flatMap_singletons_map
    intro o ho
    obtain ⟨q, hq, rfl⟩ := List.mem_map.1 (hout.mem_iff.1 ho)
    exact ⟨_, hone q hq, rfl⟩

/-- Claim C21: at a node whose incoming and outgoing edges come in pairs of an
incoming edge and the outgoing edge back to its origin, four of them at a
4-way node, the node listing its incoming and its outgoing edges in any order,
with no connections set, all edges distinct, the absolute relative angle 180
within a pair and below 160 between an incoming edge and the outgoing edge of
another pair, `compute` forms one candidate for every pair and no other, each
with the score 540, in the order of the outgoing edges; it assigns every
incoming edge the outgoing edge of its pair, and it writes no warning. -/
theorem compute_reverse_pairs_node (env : TurnEnv) (hsort : SortsByAngle env.sortCombinations)
    (edges : EdgeTable) (nodeID : String) (n : NodePtr) (ps : List (EdgePtr × EdgePtr))
    (hin : (env.nodes n).incoming.Perm (ps.map Prod.fst))
    (hout : (env.nodes n).outgoing.Perm (ps.map Prod.snd))
    (hnd1 : (ps.map Prod.fst).Nodup) (hnd2 : (ps.map Prod.snd).Nodup)
    (hdisj : ∀ p ∈ ps, ∀ q ∈ ps, p.1 ≠ q.2)
    (hconn : ∀ p ∈ ps, (edges p.1).connections = [])
    (hrev : ∀ p ∈ ps, (edges p.1).fromNode = (edges p.2).toNode)
    (h180 : ∀ p ∈ ps, |env.relAngle (env.getAngle p.1 n) (env.getAngle p.2 n)| = 180)
    (hother : ∀ p ∈ ps, ∀ q ∈ ps, p ≠ q →
      |env.relAngle (env.getAngle p.1 n) (env.getAngle q.2 n)| < 160) :
    (combinations env edges n).Perm
      (ps.map fun p => ({ from_ := p.1, to_ := p.2, angle := 540 } : Combination)) ∧
    (combinations env edges n).map Combination.to_ = (env.nodes n).outgoing ∧
    (combinations env edges n).length = ps.length ∧
    (∀ c ∈ combinations env edges n, c.angle > 360) ∧
    (∃ calls, (compute env [(nodeID, n)] edges).trace = [(n, calls)] ∧ calls.Perm ps) ∧
    (∀ p ∈ ps, ((compute env [(nodeID, n)] edges).edges p.1).turnDestination = some p.2) ∧
    (compute env [(nodeID, n)] edges).warnings = [] := by
  obtain ⟨hcomb, horder⟩ :=
    combinations_of_reverse_pairs env edges n ps hin hout hnd1 hconn hrev h180 hother
  obtain ⟨hperm, _⟩ := hsort (combinations env edges n)
  have hpsnd : ps.Nodup := List.Nodup.of_map _ hnd1
  have hdps : ps.Pairwise fun p q =>
      ¬ SharesEdge ({ from_ := p.1, to_ := p.2, angle := 540 } : Combination)
        { from_ := q.1, to_ := q.2, angle := 540 } := by
    apply hpsnd.pairwise_of_forall_ne
    intro p hp q hq hne
    unfold SharesEdge
    simp only
    have h1 : p.1 ≠ q.1 := fun h => hne (List.inj_on_of_nodup_map hnd1 hp hq h)
    have h2 : p.2 ≠ q.2 := fun h => hne (List.inj_on_of_nodup_map hnd2 hp hq h)
    have h3 := hdisj p hp q hq
    have h4 := hdisj q hq p hp
    push_neg
    exact ⟨h1, h3, Ne.symm h4, h2⟩
  have hsymm : ∀ {x y : Combination}, ¬ SharesEdge x y → ¬ SharesEdge y x := by
    intro x y h hs
    apply h
    unfold SharesEdge at hs ⊢
    rcases hs with h | h | h | h
    · exact Or.inl h.symm
    · exact Or.inr (Or.inr (Or.inl h.symm))
    · exact Or.inr (Or.inl h.symm)
    · exact Or.inr (Or.inr (Or.inr h.symm))
  have hdcomb : (combinations env edges n).Pairwise fun c c' => ¬ SharesEdge c c' :=
    (hcomb.pairwise_iff hsymm).2 (List.pairwise_map.2 hdps)
  have hdsort := (hperm.pairwise_iff hsymm).2 hdcomb
  obtain ⟨hg, hsk⟩ := greedy_of_disjoint _ [] hdsort (fun c _ => by simp)
  have hcalls : (greedy [] (env.sortCombinations (combinations env edges n))).Perm ps := by
    rw [hg]
    have := (hperm.trans hcomb).map fun c => (c.from_, c.to_)
    rw [List.map_map] at this
    simpa [Function.comp_def] using this
  obtain ⟨ht, hed⟩ := compute_eq env [(nodeID, n)] edges
  have htrace : traceOf env edges [(nodeID, n)]
      = [(n, greedy [] (env.sortCombinations (combinations env edges n)))] := rfl
  refine ⟨hcomb, horder, by rw [hcomb.length_eq, List.length_map], ?_,
    ⟨_, by rw [ht, htrace], hcalls⟩, ?_, ?_⟩
  · intro c hc
    obtain ⟨p, _, rfl⟩ := List.mem_map.1 (hcomb.mem_iff.1 hc)
    show (540 : SUMOReal) > 360
    norm_num
  · intro p hp
    rw [hed, htrace, applyCalls_turn]
    have hall : allCalls [(n, greedy [] (env.sortCombinations (combinations env edges n)))]
        = greedy [] (env.sortCombinations (combinations env edges n)) := by
      simp [allCalls]
    rw [hall]
    apply turnAfter_unique
    · exact hcalls.mem_iff.2 hp
    · intro c hc hce
      have hcp : c = p := List.inj_on_of_nodup_map hnd1 (hcalls.mem_iff.1 hc) hp hce
      rw [hcp]
  · have hw := foldl_computeNode_warnings env edges [(nodeID, n)]
      { edges := edges, warnings := [], trace := [] } (fun _ => rfl)
    have hamb : ambiguityWarnings nodeID (env.sortCombinations (combinations env edges n))
        = [] := by
      unfold ambiguityWarnings
      rw [hsk]
      simp
    show (List.foldl (computeNode env) _ _).warnings = []
    rw [hw]
    simp [hamb]

set_option maxRecDepth 100000 in
/-- The 4-way node of `fourWayEdges`, whose outgoing edges are listed in
another order than the incoming edges they return: four candidates of score
540, the four incoming edges get the outgoing edges back to their origins, and
there is no warning. -/
theorem compute_reverse_pairs_node_witness :
    SortsByAngle fourWayEnv.sortCombinations ∧
    (fourWayEnv.nodes 0).incoming = [1, 3, 5, 7] ∧
    (fourWayEnv.nodes 0).outgoing = [6, 8, 2, 4] ∧
    (∀ p ∈ [((1 : EdgePtr), (2 : EdgePtr)), (3, 4), (5, 6), (7, 8)],
      |fourWayEnv.relAngle (fourWayEnv.getAngle p.1 0) (fourWayEnv.getAngle p.2 0)| = 180) ∧
    (∀ p ∈ [((1 : EdgePtr), (2 : EdgePtr)), (3, 4), (5, 6), (7, 8)],
      ∀ q ∈ [((1 : EdgePtr), (2 : EdgePtr)), (3, 4), (5, 6), (7, 8)], p ≠ q →
      |fourWayEnv.relAngle (fourWayEnv.getAngle p.1 0) (fourWayEnv.getAngle q.2 0)| < 160) ∧
    combinations fourWayEnv fourWayEdges 0
      = [{ from_ := 5, to_ := 6, angle := 540 }, { from_ := 7, to_ := 8, angle := 540 },
          { from_ := 1, to_ := 2, angle := 540 }, { from_ := 3, to_ := 4, angle := 540 }] ∧
    (compute fourWayEnv [("0", 0)] fourWayEdges).trace
      = [(0, [(5, 6), (7, 8), (1, 2), (3, 4)])] ∧
    (∀ p ∈ [((1 : EdgePtr), (2 : EdgePtr)), (3, 4), (5, 6), (7, 8)],
      ((compute fourWayEnv [("0", 0)] fourWayEdges).edges p.1).turnDestination = some p.2) ∧
    (compute fourWayEnv [("0", 0)] fourWayEdges).warnings = [] :=
  ⟨sortByAngle_sorts, rfl, rfl, by with_unfolding_all decide, by with_unfolding_all decide,
    by with_unfolding_all decide, by with_unfolding_all decide,
    (compute_reverse_pairs_node fourWayEnv sortByAngle_sorts fourWayEdges "0" 0
      [(1, 2), (3, 4), (5, 6), (7, 8)] (List.Perm.refl _)
      (by
        show [6, 8, 2, 4].Perm [2, 4, 6, 8]
        decide)
      (by decide) (by decide) (by decide)
      (by decide) (by decide) (by with_unfolding_all decide)
      (by with_unfolding_all decide)).2.2.2.2.2.1,
    (compute_reverse_pairs_node fourWayEnv sortByAngle_sorts fourWayEdges "0" 0
      [(1, 2), (3, 4), (5, 6), (7, 8)] (List.Perm.refl _)
      (by
        show [6, 8, 2, 4].Perm [2, 4, 6, 8]
        decide)
      (by decide) (by decide) (by decide)
      (by decide) (by decide) (by with_unfolding_all decide)
      (by with_unfolding_all decide)).2.2.2.2.2.2⟩

/-! ### The ids of the internal edges -/

theorem range_succ_map {β : Type} (f : Nat → β) (m : Nat) :
    (List.range (m + 1)).map f = f 0 :: (List.range m).map fun k => f (k + 1) := by
  rw [List.range_succ_eq_map, List.map_cons, List.map_map]
  rfl

theorem internalLayoutFrom_pairs (env : WriteEnv) (n : NodePtr) (c : Nat)
    (ps : List (EdgePtr × Nat × Connection)) (lno sc : Nat) :
    (internalLayoutFrom env n c lno sc ps).map
        (fun x => (x.fromEdge, x.fromLane, x.toEdge, x.toLane))
      = ps.filterMap fun p => p.2.2.toEdge.map fun t => (p.1, p.2.1, t, p.2.2.toLane) := by
  induction ps generalizing lno sc with
  | nil => rfl
  | cons p ps ih =>
    obtain ⟨i, j, k⟩ := p
    rw [internalLayoutFrom]
    cases hk : k.toEdge with
    | none =>
      rw [List.filterMap_cons_none (by simp [hk])]
      exact ih lno sc
    | some t =>
      rw [List.filterMap_cons_some (by simp [hk]; rfl)]
      simp only
      split
      · rw [List.map_cons, ih]
      · rw [List.map_cons, ih]

theorem internalLayoutFrom_ids (env : WriteEnv) (n : NodePtr) (c : Nat)
    (ps : List (EdgePtr × Nat × Connection)) (lno sc : Nat) :
    (internalLayoutFrom env n c lno sc ps).map (fun x => x.id)
      = (List.range (internalLayoutFrom env n c lno sc ps).length).map fun k =>
          internalEdgeID env n (lno + k) := by
  induction ps generalizing lno sc with
  | nil => rfl
  | cons p ps ih =>
    obtain ⟨i, j, k⟩ := p
    rw [internalLayoutFrom]
    cases hk : k.toEdge with
    | none => exact ih lno sc
    | some t =>
      simp only
      split
      · rw [List.map_cons, List.length_cons, range_succ_map, ih]
        congr 1
        apply List.map_congr_left
        intro m _
        rw [Nat.add_assoc, Nat.add_comm 1 m]
      · rw [List.map_cons, List.length_cons, range_succ_map, ih]
        congr 1
        apply List.map_congr_left
        intro m _
        rw [Nat.add_assoc, Nat.add_comm 1 m]

theorem internalLayoutFrom_split (env : WriteEnv) (n : NodePtr) (c : Nat)
    (ps : List (EdgePtr × Nat × Connection)) (lno sc : Nat) :
    ∀ x ∈ internalLayoutFrom env n c lno sc ps,
      (x.splitId.isSome ↔ env.getCrossingPosition n x.fromEdge x.fromLane x.toEdge x.toLane ≥ 0) := by
  induction ps generalizing lno sc with
  | nil => intro x hx; exact absurd hx (List.not_mem_nil _)
  | cons p ps ih =>
    obtain ⟨i, j, k⟩ := p
    rw [internalLayoutFrom]
    cases hk : k.toEdge with
    | none => exact ih lno sc
    | some t =>
      simp only
      split
      · rename_i hc
        intro x hx
        rcases List.mem_cons.1 hx with rfl | hx
        · simpa using hc
        · exact ih _ _ x hx
      · rename_i hc
        intro x hx
        rcases List.mem_cons.1 hx with rfl | hx
        · simpa using hc
        · exact ih _ _ x hx

theorem internalLayoutFrom_splitIds (env : WriteEnv) (n : NodePtr) (c : Nat)
    (ps : List (EdgePtr × Nat × Connection)) (lno sc : Nat) :
    (internalLayoutFrom env n c lno sc ps).filterMap (fun x => x.splitId)
      = (List.range ((internalLayoutFrom env n c lno sc ps).countP
          fun x => x.splitId.isSome)).map fun j => internalEdgeID env n (c + (sc + j)) := by
  induction ps generalizing lno sc with
  | nil => rfl
  | cons p ps ih =>
    obtain ⟨i, j, k⟩ := p
    rw [internalLayoutFrom]
    cases hk : k.toEdge with
    | none => exact ih lno sc
    | some t =>
      simp only
      split
      · simp only [List.filterMap_cons, List.countP_cons, Option.isSome_some, if_true]
        rw [range_succ_map, ih]
        congr 1
        · unfold internalEdgeID
          rw [Nat.add_zero, Nat.add_comm]
        · apply List.map_congr_left
          intro m _
          rw [Nat.add_assoc, Nat.add_comm 1 m]
      · simp only [List.filterMap_cons, List.countP_cons, Option.isSome_none,
          Bool.false_eq_true, if_false, Nat.add_zero]
        exact ih _ _

theorem internalLayout_facts (env : WriteEnv) (edges : EdgeTable) (n : NodePtr) :
    (internalLayout env edges n).map (fun x => (x.fromEdge, x.fromLane, x.toEdge, x.toLane))
      = destinationPairs env.nodes edges n ∧
    (internalLayout env edges n).length = (destinationPairs env.nodes edges n).length ∧
    countInternalLanes env.nodes edges n = (destinationPairs env.nodes edges n).length ∧
    (internalLayout env edges n).countP (fun x => x.splitId.isSome)
      = (destinationPairs env.nodes edges n).countP (isSplit env n) := by
  have h1 : (internalLayout env edges n).map
      (fun x => (x.fromEdge, x.fromLane, x.toEdge, x.toLane))
      = destinationPairs env.nodes edges n := internalLayoutFrom_pairs env n _ _ 0 0
  have h2 : (internalLayout env edges n).length = (destinationPairs env.nodes edges n).length := by
    rw [← h1, List.length_map]
  refine ⟨h1, h2, ?_, ?_⟩
  · rw [← h2, internalLayout, internalLayoutFrom_length, countInternalLanes_eq]
  · rw [← h1, List.countP_map]
    apply List.countP_congr
    intro x hx
    have := internalLayoutFrom_split env n _ _ 0 0 x hx
    simp only [Function.comp, isSplit, decide_eq_true_eq]
    exact this

/-- Claim C23: `writeInternalEdges` writes the internal edges of a node along
its internal layout, whose entries are the pairs of an incoming lane and a
connection with a destination edge, in the order of the nested loops, pairs
without destination edge left out.  The entry number `k` has the primary id
`:<node>_k`; an entry has a second piece exactly when its crossing position is
not negative; and the second piece of the split entry number `j` has the id
`:<node>_(noSplits + j)`, where `noSplits`, the value of `countInternalLanes`,
is the number of the pairs with a destination edge. -/
theorem internal_ids_by_position (env : WriteEnv) (edges : EdgeTable) (into : Writer)
    (n : NodePtr) :
    (writeInternalEdges env edges into n).2
      = (internalLayout env edges n).foldl (writeLayoutEdges env edges n) into ∧
    (∀ (w : Writer) (x : InternalLane), writeLayoutEdges env edges n w x
      = match x.splitId with
        | some sid =>
          writeInternalEdge env
            (writeInternalEdge env
              (if (env.computeInternalLaneShape n x.fromEdge x.fromLane x.toEdge x.toLane).length
                  ≥ 2 then w else w.fail "assert(shape.size() >= 2)")
              x.id (internalVmax env edges x.fromEdge x.fromLane x.toEdge x.toLane)
              (env.splitAt
                (env.computeInternalLaneShape n x.fromEdge x.fromLane x.toEdge x.toLane)
                (env.getCrossingPosition n x.fromEdge x.fromLane x.toEdge x.toLane)).1)
            sid (internalVmax env edges x.fromEdge x.fromLane x.toEdge x.toLane)
            (env.splitAt
              (env.computeInternalLaneShape n x.fromEdge x.fromLane x.toEdge x.toLane)
              (env.getCrossingPosition n x.fromEdge x.fromLane x.toEdge x.toLane)).2
        | none =>
          writeInternalEdge env
            (if (env.computeInternalLaneShape n x.fromEdge x.fromLane x.toEdge x.toLane).length
                ≥ 2 then w else w.fail "assert(shape.size() >= 2)")
            x.id (internalVmax env edges x.fromEdge x.fromLane x.toEdge x.toLane)
            (env.computeInternalLaneShape n x.fromEdge x.fromLane x.toEdge x.toLane)) ∧
    (internalLayout env edges n).map (fun x => (x.fromEdge, x.fromLane, x.toEdge, x.toLane))
      = destinationPairs env.nodes edges n ∧
    (internalLayout env edges n).map (fun x => x.id)
      = (List.range (destinationPairs env.nodes edges n).length).map (internalEdgeID env n) ∧
    (∀ x ∈ internalLayout env edges n,
      (x.splitId.isSome ↔
        env.getCrossingPosition n x.fromEdge x.fromLane x.toEdge x.toLane ≥ 0)) ∧
    (internalLayout env edges n).filterMap (fun x => x.splitId)
      = (List.range ((destinationPairs env.nodes edges n).countP (isSplit env n))).map
          (fun j => internalEdgeID env n (countInternalLanes env.nodes edges n + j)) ∧
    countInternalLanes env.nodes edges n = (destinationPairs env.nodes edges n).length := by
  obtain ⟨h1, h2, h3, h4⟩ := internalLayout_facts env edges n
  refine ⟨writeInternalEdges_layout env edges into n, ?_, h1, ?_,
    internalLayoutFrom_split env n _ _ 0 0, ?_, h3⟩
  · intro w x
    unfold writeLayoutEdges
    cases x.splitId with
    | none => rfl
    | some sid => rfl
  · rw [← h2]
    have := internalLayoutFrom_ids env n (countInternalLanes env.nodes edges n)
      (laneConnections env.nodes edges n) 0 0
    simp only [Nat.zero_add] at this
    exact this
  · rw [← h4]
    have := internalLayoutFrom_splitIds env n (countInternalLanes env.nodes edges n)
      (laneConnections env.nodes edges n) 0 0
    simp only [Nat.zero_add] at this
    exact this

/-! ### The internal ids are distinct -/

theorem digitChar_value (d : Nat) (h : d < 10) : (Nat.digitChar d).toNat - 48 = d := by
  interval_cases d <;> rfl

theorem toDigitsCore_append (fuel n : Nat) (ds : List Char) :
    Nat.toDigitsCore 10 fuel n ds = Nat.toDigitsCore 10 fuel n [] ++ ds := by
  induction fuel generalizing n ds with
  | zero => rfl
  | succ fuel ih =>
    simp only [Nat.toDigitsCore]
    split
    · rfl
    · rw [ih, ih (n / 10) [Nat.digitChar (n % 10)], List.append_assoc]
      rfl

theorem decodeDigits_toDigitsCore (fuel n : Nat) (h : n < fuel) :
    decodeDigits (Nat.toDigitsCore 10 fuel n []) = n := by
  induction fuel generalizing n with
  | zero => exact absurd h (Nat.not_lt_zero n)
  | succ fuel ih =>
    simp only [Nat.toDigitsCore]
    split
    · rename_i h0
      have hn : n < 10 := by
        by_contra hc
        have : 1 ≤ n / 10 := Nat.div_pos (not_lt.1 hc) (by norm_num)
        omega
      unfold decodeDigits
      simp only [List.foldl_cons, List.foldl_nil, Nat.zero_mul, Nat.zero_add]
      rw [digitChar_value _ (Nat.mod_lt _ (by norm_num)), Nat.mod_eq_of_lt hn]
    · rename_i h0
      rw [toDigitsCore_append]
      unfold decodeDigits
      rw [List.foldl_append]
      have hlt : n / 10 < fuel := by
        have : n / 10 < n := Nat.div_lt_self (by omega) (by norm_num)
        omega
      have := ih (n / 10) hlt
      unfold decodeDigits at this
      rw [this]
      simp only [List.foldl_cons, List.foldl_nil]
      rw [digitChar_value _ (Nat.mod_lt _ (by norm_num))]
      omega

theorem toString_nat_injective : Function.Injective (fun n : Nat => toString n) := by
  intro a b h
  have h' : (Nat.toDigits 10 a).asString = (Nat.toDigits 10 b).asString := h
  have h2 : Nat.toDigits 10 a = Nat.toDigits 10 b := by
    have := congrArg String.data h'
    exact this
  have ha := decodeDigits_toDigitsCore (a + 1) a (Nat.lt_succ_self a)
  have hb := decodeDigits_toDigitsCore (b + 1) b (Nat.lt_succ_self b)
  unfold Nat.toDigits at h2
  rw [h2] at ha
  rw [← ha, hb]

theorem string_append_left_cancel (p a b : String) (h : p ++ a = p ++ b) : a = b := by
  have := congrArg String.data h
  rw [String.data_append, String.data_append] at this
  exact String.ext (List.append_cancel_left this)

theorem internalEdgeID_injective (env : WriteEnv) (n : NodePtr) :
    Function.Injective (internalEdgeID env n) := by
  intro a b h
  unfold internalEdgeID at h
  exact toString_nat_injective (string_append_left_cancel _ _ _ h)

/-- Claim C27: with `countInternalLanes` the number of the pairs of an incoming
lane and a connection that have a destination edge, the ids of the internal
edges `writeInternalEdges` writes for a node are pairwise distinct: the primary
ids of its internal layout are those of the numbers from 0 below that count,
the ids of the second pieces those of the numbers from the count on, one for
every split entry, of which there are at most as many as entries. -/
theorem internal_ids_distinct (env : WriteEnv) (edges : EdgeTable) (into : Writer)
    (n : NodePtr) :
    (writeInternalEdges env edges into n).2
      = (internalLayout env edges n).foldl (writeLayoutEdges env edges n) into ∧
    (internalLayout env edges n).map (fun x => x.id)
      = (List.range (countInternalLanes env.nodes edges n)).map (internalEdgeID env n) ∧
    (internalLayout env edges n).filterMap (fun x => x.splitId)
      = (List.range ((internalLayout env edges n).countP fun x => x.splitId.isSome)).map
          (fun j => internalEdgeID env n (countInternalLanes env.nodes edges n + j)) ∧
    (internalLayout env edges n).countP (fun x => x.splitId.isSome)
      ≤ countInternalLanes env.nodes edges n ∧
    ((internalLayout env edges n).map (fun x => x.id) ++
      (internalLayout env edges n).filterMap (fun x => x.splitId)).Nodup := by
  obtain ⟨_, h2, h3, _⟩ := internalLayout_facts env edges n
  have hids : (internalLayout env edges n).map (fun x => x.id)
      = (List.range (countInternalLanes env.nodes edges n)).map (internalEdgeID env n) := by
    rw [h3, ← h2]
    have := internalLayoutFrom_ids env n (countInternalLanes env.nodes edges n)
      (laneConnections env.nodes edges n) 0 0
    simp only [Nat.zero_add] at this
    exact this
  have hsplit : (internalLayout env edges n).filterMap (fun x => x.splitId)
      = (List.range ((internalLayout env edges n).countP fun x => x.splitId.isSome)).map
          (fun j => internalEdgeID env n (countInternalLanes env.nodes edges n + j)) := by
    have := internalLayoutFrom_splitIds env n (countInternalLanes env.nodes edges n)
      (laneConnections env.nodes edges n) 0 0
    simp only [Nat.zero_add] at this
    exact this
  refine ⟨writeInternalEdges_layout env edges into n, hids, hsplit, ?_, ?_⟩
  · rw [h3, ← h2]
    exact List.countP_le_length _
  · rw [hids, hsplit]
    have hmap : (List.range ((internalLayout env edges n).countP fun x => x.splitId.isSome)).map
        (fun j => internalEdgeID env n (countInternalLanes env.nodes edges n + j))
        = ((List.range ((internalLayout env edges n).countP fun x => x.splitId.isSome)).map
            (fun j => countInternalLanes env.nodes edges n + j)).map (internalEdgeID env n) := by
      rw [List.map_map]
      rfl
    rw [hmap, ← List.map_append]
    apply List.Nodup.map (internalEdgeID_injective env n)
    rw [List.nodup_append]
    refine ⟨List.nodup_range _, ?_, ?_⟩
    · exact List.Nodup.map (fun a b h => Nat.add_left_cancel h) (List.nodup_range _)
    · intro a ha hb
      rw [List.mem_range] at ha
      obtain ⟨j, _, rfl⟩ := List.mem_map.1 hb
      omega

/-! ### The incoming lanes of a junction -/

theorem intersperse_append_singleton {α : Type} (s : α) (l : List α) (x : α) :
    List.intersperse s (l ++ [x]) = l.flatMap (fun y => [y, s]) ++ [x] := by
  induction l with
  | nil => rfl
  | cons a l ih =>
    cases l with
    | nil => rfl
    | cons b l =>
      rw [List.cons_append, List.cons_append, List.intersperse_cons₂, ← List.cons_append, ih]
      rfl

theorem intersperse_append {α : Type} (s : α) (X Y : List α) (hY : Y ≠ []) :
    List.intersperse s (X ++ Y) = X.flatMap (fun y => [y, s]) ++ List.intersperse s Y := by
  induction X with
  | nil => rfl
  | cons a X ih =>
    cases hxy : X ++ Y with
    | nil =>
      exact absurd (List.append_eq_nil.1 hxy).2 hY
    | cons b Z =>
      rw [List.cons_append, hxy, List.intersperse_cons₂, ← hxy, ih]
      rfl

theorem flatMap_sep_eq {α : Type} (s : α) (l : List α) (h : l ≠ []) :
    l.flatMap (fun y => [y, s]) = List.intersperse s l ++ [s] := by
  induction l with
  | nil => exact absurd rfl h
  | cons a l ih =>
    cases l with
    | nil => rfl
    | cons b l =>
      rw [List.flatMap_cons, ih (List.cons_ne_nil _ _), List.intersperse_cons₂]
      rfl

theorem range_flatMap_sep {α : Type} (s : α) (f : Nat → α) (m : Nat) :
    (List.range m).flatMap (fun j => if j < m - 1 then [f j, s] else [f j])
      = List.intersperse s ((List.range m).map f) := by
  cases m with
  | zero => rfl
  | succ m =>
    rw [List.range_succ, List.map_append, List.map_singleton, intersperse_append_singleton,
      List.flatMap_append, List.flatMap_map]
    congr 1
    · apply List.flatMap_congr
      intro j hj
      rw [if_pos (by simpa using List.mem_range.1 hj)]
    · simp

theorem writeIncLanes_edge (edges : EdgeTable) (i : EdgePtr) (rest : List EdgePtr) (w : Writer) :
    (List.range (edges i).getNumLanes).foldl (fun into j =>
        let into := into.put [Item.str ((edges i).id ++ "_" ++ toString j)]
        if rest ≠ [] ∨ j < (edges i).getNumLanes - 1 then into.put [Item.str " "] else into) w
      = w.put ((List.range (edges i).getNumLanes).flatMap fun j =>
          if rest ≠ [] ∨ j < (edges i).getNumLanes - 1 then
            [Item.str ((edges i).id ++ "_" ++ toString j), Item.str " "]
          else [Item.str ((edges i).id ++ "_" ++ toString j)]) := by
  rw [← foldl_put_flatMap]
  congr 1
  funext into j
  by_cases hc : rest ≠ [] ∨ j < (edges i).getNumLanes - 1
  · simp only [if_pos hc, Writer.put_put]
    rfl
  · simp only [if_neg hc]

theorem incLaneIDs_eq_nil (edges : EdgeTable) (l : List EdgePtr) (h : incLaneIDs edges l = [])
    (hl : l ≠ []) : lastHasNoLanes edges l = true := by
  unfold lastHasNoLanes
  cases hlast : l.getLast? with
  | none => exact absurd (List.getLast?_eq_none_iff.1 hlast) hl
  | some i =>
    have hi : i ∈ l := List.mem_of_mem_getLast? hlast
    unfold incLaneIDs at h
    rw [List.flatMap_eq_nil_iff] at h
    have := h i hi
    rw [List.map_eq_nil_iff, List.range_eq_nil] at this
    simp [this]

theorem writeIncLanes_eq (edges : EdgeTable) (l : List EdgePtr) (w : Writer) :
    writeIncLanes edges l w
      = w.put (List.intersperse (Item.str " ") (incLaneIDs edges l) ++
          (if lastHasNoLanes edges l = true ∧ incLaneIDs edges l ≠ [] then [Item.str " "]
            else [])) := by
  induction l generalizing w with
  | nil =>
    rw [writeIncLanes]
    exact (Writer.put_nil w).symm
  | cons i rest ih =>
    rw [writeIncLanes]
    simp only
    rw [writeIncLanes_edge, ih, Writer.put_put]
    congr 1
    cases rest with
    | nil =>
      have hids : incLaneIDs edges [i]
          = (List.range (edges i).getNumLanes).map fun j =>
              Item.str ((edges i).id ++ "_" ++ toString j) := by
        simp [incLaneIDs]
      have hcond : ¬ (lastHasNoLanes edges [i] = true ∧ incLaneIDs edges [i] ≠ []) := by
        rintro ⟨h1, h2⟩
        apply h2
        rw [hids]
        have : (edges i).getNumLanes = 0 := by simpa [lastHasNoLanes] using h1
        rw [this]
        rfl
      rw [if_neg hcond, hids]
      have hnil : incLaneIDs edges [] = [] := rfl
      rw [hnil]
      simp only [List.intersperse_nil, List.append_nil, ne_eq, not_true_eq_false, and_false,
        if_false, false_or]
      exact range_flatMap_sep (Item.str " ") _ _
    | cons r rest =>
      have hids : incLaneIDs edges (i :: r :: rest)
          = ((List.range (edges i).getNumLanes).map fun j =>
              Item.str ((edges i).id ++ "_" ++ toString j)) ++ incLaneIDs edges (r :: rest) := by
        simp [incLaneIDs]
      have hlast : lastHasNoLanes edges (i :: r :: rest) = lastHasNoLanes edges (r :: rest) := by
        unfold lastHasNoLanes
        rw [List.getLast?_cons_cons]
      have hinner : ((List.range (edges i).getNumLanes).flatMap fun j =>
          if r :: rest ≠ [] ∨ j < (edges i).getNumLanes - 1 then
            [Item.str ((edges i).id ++ "_" ++ toString j), Item.str " "]
          else [Item.str ((edges i).id ++ "_" ++ toString j)])
          = ((List.range (edges i).getNumLanes).map fun j =>
              Item.str ((edges i).id ++ "_" ++ toString j)).flatMap
              fun y => [y, Item.str " "] := by
        rw [List.flatMap_map]
        apply List.flatMap_congr
        intro j _
        rw [if_pos (Or.inl (List.cons_ne_nil _ _))]
      rw [hinner, hids, hlast]
      generalize ((List.range (edges i).getNumLanes).map fun j =>
        Item.str ((edges i).id ++ "_" ++ toString j)) = X
      by_cases hA : incLaneIDs edges (r :: rest) = []
      · have hno := incLaneIDs_eq_nil edges (r :: rest) hA (List.cons_ne_nil _ _)
        rw [hA, hno]
        simp only [List.intersperse_nil, List.append_nil, ne_eq, not_true_eq_false, and_false,
          if_false, true_and]
        by_cases hX : X = []
        · rw [hX]
          rfl
        · rw [if_pos hX]
          exact flatMap_sep_eq _ X hX
      · have hXA : X ++ incLaneIDs edges (r :: rest) ≠ [] := by
          intro h
          exact hA (List.append_eq_nil.1 h).2
        rw [intersperse_append _ X _ hA]
        simp only [ne_eq, hA, hXA, not_false_eq_true, and_true, List.append_assoc]

theorem writeJunction_parts (env : WriteEnv) (edges : EdgeTable) (w : Writer) (n : NodePtr) :
    ∃ intLanes : List Item,
      writeJunction env edges w n
        = ((writeIncLanes edges (env.nodes n).incoming
            (w.put [Item.openTag SumoXMLTag.SUMO_TAG_JUNCTION,
              Item.str (" id=\"" ++ (env.nodes n).id ++ "\""),
              Item.str (" type=\"" ++ env.toStringNodeType
                (if (env.nodes n).incoming.any
                    (fun i => decide ((edges i).getConnections.length > 0))
                  then (env.nodes n).type else SumoXMLNodeType.NODETYPE_DEAD_END) ++ "\""),
              Item.str " x=\"", Item.real (env.nodes n).position.1, Item.str "\" y=\"",
              Item.real (env.nodes n).position.2, Item.str "\"", Item.str " incLanes=\""])).put
          ([Item.str "\"", Item.str " intLanes=\""] ++ intLanes ++
            [Item.str "\"", Item.str " shape=\"", Item.positionVector (env.nodes n).shape,
              Item.str "\">\n"] ++ env.writeLogic n ++ [Item.closeTag false])) := by
  unfold writeJunction
  simp only [Writer.put_put, List.cons_append, List.nil_append]
  generalize writeIncLanes edges (env.nodes n).incoming _ = w2
  by_cases hopt : env.options.no_internal_links = false
  · obtain ⟨int, hint⟩ := writeJunction_intLanes_put env edges n
      { l := 0, o := countInternalLanes env.nodes edges n,
        into := w2.put [Item.str "\"", Item.str " intLanes=\""] }
    refine ⟨int, ?_⟩
    rw [if_pos hopt, hint]
    simp only [Writer.put_put, List.cons_append, List.nil_append, List.append_assoc]
  · refine ⟨[], ?_⟩
    rw [if_neg hopt]
    simp only [Writer.put_put, List.cons_append, List.nil_append, List.append_assoc]

theorem writeJunction_incLanes (env : WriteEnv) (edges : EdgeTable) (w : Writer) (n : NodePtr) :
    ∃ intLanes : List Item,
      writeJunction env edges w n
        = w.put ([Item.openTag SumoXMLTag.SUMO_TAG_JUNCTION,
            Item.str (" id=\"" ++ (env.nodes n).id ++ "\""),
            Item.str (" type=\"" ++ env.toStringNodeType
              (if (env.nodes n).incoming.any
                  (fun i => decide ((edges i).getConnections.length > 0))
                then (env.nodes n).type else SumoXMLNodeType.NODETYPE_DEAD_END) ++ "\""),
            Item.str " x=\"", Item.real (env.nodes n).position.1, Item.str "\" y=\"",
            Item.real (env.nodes n).position.2, Item.str "\"", Item.str " incLanes=\""] ++
          (List.intersperse (Item.str " ") (incLaneIDs edges (env.nodes n).incoming) ++
            (if lastHasNoLanes edges (env.nodes n).incoming = true ∧
                incLaneIDs edges (env.nodes n).incoming ≠ [] then [Item.str " "] else [])) ++
          ([Item.str "\"", Item.str " intLanes=\""] ++ intLanes ++
            [Item.str "\"", Item.str " shape=\"", Item.positionVector (env.nodes n).shape,
              Item.str "\">\n"] ++ env.writeLogic n ++ [Item.closeTag false])) := by
  obtain ⟨int, hint⟩ := writeJunction_parts env edges w n
  refine ⟨int, ?_⟩
  rw [hint, writeIncLanes_eq, Writer.put_put, Writer.put_put]
  simp only [List.append_assoc]

theorem lastHasNoLanes_eq_false (edges : EdgeTable) (l : List EdgePtr)
    (h : ∀ i, l.getLast? = some i → 0 < (edges i).getNumLanes) :
    lastHasNoLanes edges l = false := by
  unfold lastHasNoLanes
  cases hl : l.getLast? with
  | none => rfl
  | some i =>
    have := h i hl
    simp only [decide_eq_false_iff_not]
    omega

/-- Claim C26: at a node whose incoming edges have one or more lanes each, as
every edge of the data model has, in any combination of lane counts, the value
of `incLanes` that `writeJunction` writes is the ids `<edge id>_<lane index>`
of the lanes of all incoming edges, in the order of the incoming edges and of
the lane index, with one blank between two neighbours, none before the first
id and none after the last one. -/
theorem junction_incLanes_joined (env : WriteEnv) (edges : EdgeTable) (w : Writer) (n : NodePtr)
    (hl : ∀ i ∈ (env.nodes n).incoming, 0 < (edges i).getNumLanes) :
    ∃ intLanes : List Item,
      writeJunction env edges w n
        = w.put ([Item.openTag SumoXMLTag.SUMO_TAG_JUNCTION,
            Item.str (" id=\"" ++ (env.nodes n).id ++ "\""),
            Item.str (" type=\"" ++ env.toStringNodeType
              (if (env.nodes n).incoming.any
                  (fun i => decide ((edges i).getConnections.length > 0))
                then (env.nodes n).type else SumoXMLNodeType.NODETYPE_DEAD_END) ++ "\""),
            Item.str " x=\"", Item.real (env.nodes n).position.1, Item.str "\" y=\"",
            Item.real (env.nodes n).position.2, Item.str "\"", Item.str " incLanes=\""] ++
          List.intersperse (Item.str " ")
            ((env.nodes n).incoming.flatMap fun i =>
              (List.range (edges i).getNumLanes).map fun j =>
                Item.str ((edges i).id ++ "_" ++ toString j)) ++
          ([Item.str "\"", Item.str " intLanes=\""] ++ intLanes ++
            [Item.str "\"", Item.str " shape=\"", Item.positionVector (env.nodes n).shape,
              Item.str "\">\n"] ++ env.writeLogic n ++ [Item.closeTag false])) := by
  obtain ⟨int, hint⟩ := writeJunction_incLanes env edges w n
  refine ⟨int, ?_⟩
  have hlast := lastHasNoLanes_eq_false edges (env.nodes n).incoming
    fun i hi => hl i (List.mem_of_mem_getLast? hi)
  rw [hint, hlast]
  simp only [Bool.false_eq_true, false_and, if_false, List.append_nil]
  rfl

set_option maxRecDepth 100000 in
/-- The node with the incoming edges 1 and 3 of `crossingEdges`, of one lane
each: the value of `incLanes` is `1_0`, a blank and `3_0`. -/
theorem junction_incLanes_joined_witness :
    (∀ i ∈ ((demoEnv [1, 3] fun _ => 0).nodes 0).incoming, 0 < (crossingEdges i).getNumLanes) ∧
    ∃ intLanes : List Item,
      writeJunction (demoEnv [1, 3] fun _ => 0) crossingEdges emptyWriter 0
        = emptyWriter.put ([Item.openTag SumoXMLTag.SUMO_TAG_JUNCTION, Item.str " id=\"n\"",
            Item.str " type=\"priority\"", Item.str " x=\"", Item.real 0, Item.str "\" y=\"",
            Item.real 0, Item.str "\"", Item.str " incLanes=\""] ++
          [Item.str "1_0", Item.str " ", Item.str "3_0"] ++
          ([Item.str "\"", Item.str " intLanes=\""] ++ intLanes ++
            [Item.str "\"", Item.str " shape=\"", Item.positionVector [], Item.str "\">\n"] ++
            [] ++ [Item.closeTag false])) :=
  ⟨by with_unfolding_all decide,
    junction_incLanes_joined (demoEnv [1, 3] fun _ => 0) crossingEdges emptyWriter 0
      (by with_unfolding_all decide)⟩

/-! ### `parseBin`: the travel direction -/

/-- Claim C29: for a shape whose attributes outside the `try` are given, with
the link id `X` and the travel direction `dir`, the body of the loop of
`parseBin` ends without exception, and so does `parseBin` for this one shape.
For `dir` "F" it inserts at most the edge
`X` from the reference node to the non-reference node, centre-aligned; for "T"
at most the edge `-X` from the non-reference node to the reference node,
centre-aligned; for "B" both, right-aligned, first `X` and then `-X`; for any
other value nothing.  Each of these edges is built and inserted exactly when
`retrieve` finds no edge with its id in the edge container at that moment. -/
theorem parseBin_direction (env : LoaderEnv) (st : LoaderState) (shape : Shape)
    (X name ref nref type dir : String)
    (hid : shape.getAttribute "LINK_ID" = some X)
    (hname : shape.getAttribute "ST_NAME" = some name)
    (href : shape.getAttribute "REF_IN_ID" = some ref)
    (hnref : shape.getAttribute "NREF_IN_ID" = some nref)
    (htype : shape.getAttribute "ST_TYP_AFT" = some type)
    (hdir : shape.getAttribute "DIR_TRAVEL" = some dir) :
    ∃ st', parseBin_shape env st shape = some st' ∧
      parseBin env st [shape] = some (st', decide (st'.errors = [])) ∧
      (dir = "F" → st'.edgeCont = st.edgeCont ++
        (if env.retrieveEdge st.edgeCont X = none then
          [forwardEdge env st shape X name ref nref type LaneSpreadFunction.LANESPREAD_CENTER]
        else [])) ∧
      (dir = "T" → st'.edgeCont = st.edgeCont ++
        (if env.retrieveEdge st.edgeCont ("-" ++ X) = none then
          [backwardEdge env st shape X name ref nref type LaneSpreadFunction.LANESPREAD_CENTER]
        else [])) ∧
      (dir = "B" → st'.edgeCont = st.edgeCont ++
        (if env.retrieveEdge st.edgeCont X = none then
          [forwardEdge env st shape X name ref nref type LaneSpreadFunction.LANESPREAD_RIGHT]
        else []) ++
        (if env.retrieveEdge (st.edgeCont ++
            (if env.retrieveEdge st.edgeCont X = none then
              [forwardEdge env st shape X name ref nref type LaneSpreadFunction.LANESPREAD_RIGHT]
            else [])) ("-" ++ X) = none then
          [backwardEdge env st shape X name ref nref type LaneSpreadFunction.LANESPREAD_RIGHT]
        else [])) ∧
      (dir ≠ "F" → dir ≠ "T" → dir ≠ "B" → st'.edgeCont = st.edgeCont) := by
  have hec : (buildNode env
      (buildNode env { st with errors := (parseBin_values env shape st.errors X).2.2.2 } ref
        shape.getFromNodePosition).2 nref shape.getToNodePosition).2.edgeCont = st.edgeCont := by
    unfold buildNode
    split <;> split <;> rfl
  have hone : ∀ st', parseBin_shape env st shape = some st' →
      parseBin env st [shape] = some (st', decide (st'.errors = [])) := by
    intro st' h
    simp only [parseBin, List.foldl, Option.some_bind, h, Option.map_some']
  suffices hs : ∃ st', parseBin_shape env st shape = some st' ∧
      (dir = "F" → st'.edgeCont = st.edgeCont ++
        (if env.retrieveEdge st.edgeCont X = none then
          [forwardEdge env st shape X name ref nref type LaneSpreadFunction.LANESPREAD_CENTER]
        else [])) ∧
      (dir = "T" → st'.edgeCont = st.edgeCont ++
        (if env.retrieveEdge st.edgeCont ("-" ++ X) = none then
          [backwardEdge env st shape X name ref nref type LaneSpreadFunction.LANESPREAD_CENTER]
        else [])) ∧
      (dir = "B" → st'.edgeCont = st.edgeCont ++
        (if env.retrieveEdge st.edgeCont X = none then
          [forwardEdge env st shape X name ref nref type LaneSpreadFunction.LANESPREAD_RIGHT]
        else []) ++
        (if env.retrieveEdge (st.edgeCont ++
            (if env.retrieveEdge st.edgeCont X = none then
              [forwardEdge env st shape X name ref nref type LaneSpreadFunction.LANESPREAD_RIGHT]
            else [])) ("-" ++ X) = none then
          [backwardEdge env st shape X name ref nref type LaneSpreadFunction.LANESPREAD_RIGHT]
        else [])) ∧
      (dir ≠ "F" → dir ≠ "T" → dir ≠ "B" → st'.edgeCont = st.edgeCont) from
    hs.imp fun st' h => ⟨h.1, hone st' h.1, h.2⟩
  unfold parseBin_shape
  simp only [hid, hname, href, hnref, htype, hdir]
  refine ⟨_, rfl, ?_, ?_, ?_, ?_⟩
  · intro h
    subst h
    have h1 : ¬ ("F" = "B") := by decide
    have h2 : ¬ ("F" = "T") := by decide
    simp only [h1, h2, or_true, or_false, if_true, if_false, false_or]
    by_cases hr : env.retrieveEdge st.edgeCont X = none
    · simp only [hec, hr, if_true]
      rfl
    · simp only [hec, hr, if_false, List.append_nil]
  · intro h
    subst h
    have h1 : ¬ ("T" = "B") := by decide
    have h2 : ¬ ("T" = "F") := by decide
    simp only [h1, h2, or_true, or_false, if_true, if_false, false_or]
    by_cases hr : env.retrieveEdge st.edgeCont ("-" ++ X) = none
    · simp only [hec, hr, if_true]
      rfl
    · simp only [hec, hr, if_false, List.append_nil]
  · intro h
    subst h
    simp only [true_or, if_true, forwardEdge, backwardEdge, referenceNode, nonReferenceNode]
    by_cases hr : env.retrieveEdge st.edgeCont X = none
    · simp only [hec, hr, if_true]
      split
      · rfl
      · simp only [List.append_nil]
    · simp only [hec, hr, if_false, List.append_nil]
      split
      · rfl
      · simp only [hec, List.append_nil]
  · intro hF hT hB
    have h1 : ¬ (dir = "B" ∨ dir = "F") := by tauto
    have h2 : ¬ (dir = "B" ∨ dir = "T") := by tauto
    simp only [h1, h2, if_false]
    exact hec


/-- Witness for claim C29: the shape "7" with the travel direction "B" put into
empty containers gives the right-aligned edges "7" from "a" to "b" and "-7"
from "b" to "a". -/
theorem parseBin_direction_witness :
    ∃ st', parseBin_shape demoLoaderEnv emptyLoader (demoShape "B") = some st' ∧
      st'.edgeCont =
        [{ id := "7", name := "Main", from_ := some { id := "a", position := (0, 0) },
           to_ := some { id := "b", position := (100, 0) }, type := "t", speed := 13,
           nolanes := 2, length := 100, priority := 3, shape := [(0, 0), (100, 0)],
           spread := LaneSpreadFunction.LANESPREAD_RIGHT,
           function := EdgeBasicFunction.EDGEFUNCTION_NORMAL },
         { id := "-7", name := "Main", from_ := some { id := "b", position := (100, 0) },
           to_ := some { id := "a", position := (0, 0) }, type := "t", speed := 13,
           nolanes := 2, length := 100, priority := 3, shape := [(100, 0), (0, 0)],
           spread := LaneSpreadFunction.LANESPREAD_RIGHT,
           function := EdgeBasicFunction.EDGEFUNCTION_NORMAL }] :=
  (parseBin_direction demoLoaderEnv emptyLoader (demoShape "B") "7" "Main" "a" "b" "t" "B"
    rfl rfl rfl rfl rfl rfl).imp fun _ h =>
      ⟨h.1, (h.2.2.2.2.1 rfl).trans (by with_unfolding_all decide)⟩

/-! ### The running index of the pairs with a destination edge -/

theorem forIncomingLaneConnections_pairs {σ : Type} (nodes : NodeTable) (edges : EdgeTable)
    (n : NodePtr) (body : EdgePtr → Nat → σ → Connection → σ)
    (hnone : ∀ i j v k, k.toEdge = none → body i j v k = v)
    (hsome : ∀ i j v k t, k.toEdge = some t →
      body i j v k = body i j v (mkConnection j (some t) k.toLane))
    (init : σ) :
    forIncomingLaneConnections nodes edges n body init
      = (destinationPairs nodes edges n).foldl
          (fun v d => body d.1 d.2.1 v (mkConnection d.2.1 (some d.2.2.1) d.2.2.2)) init := by
  rw [forIncomingLaneConnections_eq]
  unfold destinationPairs
  generalize laneConnections nodes edges n = ps
  induction ps generalizing init with
  | nil => rfl
  | cons p ps ih =>
    obtain ⟨i, j, k⟩ := p
    rw [List.foldl_cons]
    cases hk : k.toEdge with
    | none =>
      rw [List.filterMap_cons_none (by simp [hk])]
      simp only
      rw [hnone i j init k hk]
      exact ih init
    | some t =>
      rw [List.filterMap_cons_some (by simp [hk]; rfl), List.foldl_cons]
      simp only
      rw [hsome i j init k t hk]
      exact ih _

theorem foldl_counters {α σ τ : Type} (p : α → Bool) (step : σ → α → σ) (lno sp : σ → Nat)
    (out : σ → τ) (f : Nat → Nat → τ → α → τ)
    (hl : ∀ v d, lno (step v d) = lno v + 1)
    (hs : ∀ v d, sp (step v d) = sp v + (if p d then 1 else 0))
    (ho : ∀ v d, out (step v d) = f (lno v) (sp v) (out v) d)
    (ds : List α) (v : σ) :
    out (ds.foldl step v)
      = ds.enum.foldl
          (fun t kd => f (lno v + kd.1) (sp v + (ds.take kd.1).countP p) t kd.2) (out v) := by
  induction ds generalizing v with
  | nil => rfl
  | cons d ds ih =>
    rw [List.foldl_cons, ih, List.enum_cons', List.foldl_cons, List.foldl_map]
    simp only [Nat.add_zero, List.take_zero, List.countP_nil]
    rw [ho]
    congr 1
    funext t kd
    simp only [Prod.map_fst, Prod.map_snd, id_eq, List.take_succ_cons, List.countP_cons]
    rw [hl, hs]
    congr 1
    · omega
    · omega

theorem foldl_flag {α σ : Type} (q : α → Bool) (step : σ → α → σ) (ret : σ → Bool)
    (hr : ∀ v d, ret (step v d) = (ret v || q d)) (ds : List α) (v : σ) :
    ret (ds.foldl step v) = (ret v || ds.any q) := by
  induction ds generalizing v with
  | nil => simp
  | cons d ds ih => rw [List.foldl_cons, ih, hr, List.any_cons, Bool.or_assoc]

theorem destinationPairs_length (nodes : NodeTable) (edges : EdgeTable) (n : NodePtr) :
    countInternalLanes nodes edges n = (destinationPairs nodes edges n).length := by
  rw [countInternalLanes_eq]
  unfold destinationPairs
  generalize laneConnections nodes edges n = ps
  induction ps with
  | nil => rfl
  | cons p ps ih =>
    rw [List.countP_cons, ih]
    cases hk : p.2.2.toEdge with
    | none =>
      rw [List.filterMap_cons_none (by simp [hk])]
      simp
    | some t =>
      rw [List.filterMap_cons_some (by simp [hk]; rfl)]
      simp


theorem writeInternalEdges_pairs (env : WriteEnv) (edges : EdgeTable) (into : Writer)
    (n : NodePtr) :
    writeInternalEdges env edges into n
      = (decide (destinationPairs env.nodes edges n ≠ []),
         (destinationPairs env.nodes edges n).enum.foldl (fun w kd =>
           writePairEdges env edges n (countInternalLanes env.nodes edges n) kd.1
             (((destinationPairs env.nodes edges n).take kd.1).countP (isSplit env n)) w kd.2)
           into) := by
  unfold writeInternalEdges
  by_cases h0 : countInternalLanes env.nodes edges n = 0
  · have hnil : destinationPairs env.nodes edges n = [] :=
      List.eq_nil_of_length_eq_zero ((destinationPairs_length _ _ _).symm.trans h0)
    simp only [h0, if_true, hnil]
    rfl
  · have hne : destinationPairs env.nodes edges n ≠ [] := by
      intro h
      apply h0
      rw [destinationPairs_length, h]
      rfl
    simp only [h0, if_false]
    rw [forIncomingLaneConnections_pairs]
    · apply Prod.ext
      · simp only
        rw [foldl_flag (fun _ => true) _ InternalVars.ret]
        · simp only [Bool.false_or, decide_eq_true hne]
          cases hds : destinationPairs env.nodes edges n with
          | nil => exact absurd hds hne
          | cons d ds => rfl
        · intro v d
          unfold writeInternalEdges_body
          simp only [mkConnection, Bool.or_true]
          split <;> rfl
      · simp only
        rw [foldl_counters (isSplit env n) _ InternalVars.lno InternalVars.splitNo
          InternalVars.into
          (writePairEdges env edges n (countInternalLanes env.nodes edges n))]
        · simp only [Nat.zero_add]
        · intro v d
          unfold writeInternalEdges_body
          simp only [mkConnection]
          split <;> rfl
        · intro v d
          unfold writeInternalEdges_body isSplit
          simp only [mkConnection]
          by_cases hc : env.getCrossingPosition n d.1 d.2.1 d.2.2.1 d.2.2.2 ≥ 0
          · simp only [if_pos hc, decide_eq_true hc, if_true]
          · simp only [if_neg hc, decide_eq_false hc, Bool.false_eq_true, if_false, Nat.add_zero]
        · intro v d
          unfold writeInternalEdges_body writePairEdges
          simp only [mkConnection]
          by_cases hc : env.getCrossingPosition n d.1 d.2.1 d.2.2.1 d.2.2.2 ≥ 0
          · simp only [if_pos hc]
          · simp only [if_neg hc]
    · intro i j v k hk
      unfold writeInternalEdges_body
      rw [hk]
    · intro i j v k t hk
      unfold writeInternalEdges_body
      simp only [mkConnection, hk]

theorem writeJunction_intLanes_pairs (env : WriteEnv) (edges : EdgeTable) (n : NodePtr)
    (w : Writer) :
    (forIncomingLaneConnections env.nodes edges n (writeJunction_body env n)
        { l := 0, o := countInternalLanes env.nodes edges n, into := w }).into
      = w.put ((destinationPairs env.nodes edges n).enum.flatMap fun kd =>
          junctionPairItems env n kd.1
            (countInternalLanes env.nodes edges n +
              ((destinationPairs env.nodes edges n).take kd.1).countP (hasCrossing env n))
            kd.2) := by
  rw [forIncomingLaneConnections_pairs]
  · rw [foldl_counters (hasCrossing env n) _ JunctionVars.l JunctionVars.o JunctionVars.into
      (fun l o w d => w.put (junctionPairItems env n l o d))]
    · simp only [Nat.zero_add]
      exact foldl_put_flatMap _ _ _
    · intro v d
      unfold writeJunction_body
      simp only [mkConnection]
      split <;> rfl
    · intro v d
      unfold writeJunction_body hasCrossing
      simp only [mkConnection]
      by_cases hc : env.getCrossingPosition n d.1 d.2.1 d.2.2.1 d.2.2.2 ≤ 0
      · simp only [hc, not_true_eq_false, decide_False, Bool.false_eq_true, if_false, if_true,
          Nat.add_zero]
      · simp only [hc, not_false_eq_true, decide_True, if_true, if_false]
    · intro v d
      unfold writeJunction_body junctionPairItems
      simp only [mkConnection]
      by_cases hl : v.l ≠ 0
      · by_cases hc : env.getCrossingPosition n d.1 d.2.1 d.2.2.1 d.2.2.2 ≤ 0
        · simp only [if_pos hl, if_pos hc, Writer.put_put]
        · simp only [if_pos hl, if_neg hc, Writer.put_put]
      · by_cases hc : env.getCrossingPosition n d.1 d.2.1 d.2.2.1 d.2.2.2 ≤ 0
        · simp only [if_neg hl, if_pos hc, List.nil_append]
        · simp only [if_neg hl, if_neg hc, List.nil_append]
  · intro i j v k hk
    unfold writeJunction_body
    rw [hk]
  · intro i j v k t hk
    unfold writeJunction_body
    simp only [mkConnection, hk]


theorem writeJunction_pairs (env : WriteEnv) (edges : EdgeTable) (w : Writer) (n : NodePtr) :
    writeJunction env edges w n
      = (writeIncLanes edges (env.nodes n).incoming
          (w.put [Item.openTag SumoXMLTag.SUMO_TAG_JUNCTION,
            Item.str (" id=\"" ++ (env.nodes n).id ++ "\""),
            Item.str (" type=\"" ++ env.toStringNodeType
              (if (env.nodes n).incoming.any
                  (fun i => decide ((edges i).getConnections.length > 0))
                then (env.nodes n).type else SumoXMLNodeType.NODETYPE_DEAD_END) ++ "\""),
            Item.str " x=\"", Item.real (env.nodes n).position.1, Item.str "\" y=\"",
            Item.real (env.nodes n).position.2, Item.str "\"", Item.str " incLanes=\""])).put
        ([Item.str "\"", Item.str " intLanes=\""] ++
          (if env.options.no_internal_links = false then
            (destinationPairs env.nodes edges n).enum.flatMap fun kd =>
              junctionPairItems env n kd.1
                (countInternalLanes env.nodes edges n +
                  ((destinationPairs env.nodes edges n).take kd.1).countP (hasCrossing env n))
                kd.2
          else []) ++
          [Item.str "\"", Item.str " shape=\"", Item.positionVector (env.nodes n).shape,
            Item.str "\">\n"] ++ env.writeLogic n ++ [Item.closeTag false]) := by
  unfold writeJunction
  simp only [Writer.put_put, List.cons_append, List.nil_append]
  generalize writeIncLanes edges (env.nodes n).incoming _ = w2
  by_cases hopt : env.options.no_internal_links = false
  · rw [if_pos hopt, if_pos hopt, writeJunction_intLanes_pairs]
    simp only [Writer.put_put, List.cons_append, List.nil_append, List.append_assoc]
  · rw [if_neg hopt, if_neg hopt]
    simp only [Writer.put_put, List.cons_append, List.nil_append, List.append_assoc]

theorem writeInternalNodes_pairs (env : WriteEnv) (edges : EdgeTable) (into : Writer)
    (n : NodePtr) :
    writeInternalNodes env edges into n
      = ((destinationPairs env.nodes edges n).any (hasCrossing env n),
         into.put ((destinationPairs env.nodes edges n).enum.flatMap fun kd =>
           internalNodeItems env n (countInternalLanes env.nodes edges n) kd.1
             (((destinationPairs env.nodes edges n).take kd.1).countP (hasCrossing env n))
             kd.2)) := by
  unfold writeInternalNodes
  by_cases h0 : countInternalLanes env.nodes edges n = 0
  · have hnil : destinationPairs env.nodes edges n = [] :=
      List.eq_nil_of_length_eq_zero ((destinationPairs_length _ _ _).symm.trans h0)
    simp only [h0, if_true, hnil]
    exact Prod.ext rfl (Writer.put_nil into).symm
  · simp only [h0, if_false]
    rw [forIncomingLaneConnections_pairs]
    · apply Prod.ext
      · simp only
        rw [foldl_flag (hasCrossing env n) _ InternalVars.ret]
        · simp only [Bool.false_or]
        · intro v d
          unfold writeInternalNodes_body hasCrossing
          simp only [mkConnection]
          by_cases hc : env.getCrossingPosition n d.1 d.2.1 d.2.2.1 d.2.2.2 ≤ 0
          · simp only [hc, if_true, not_true_eq_false, decide_False, Bool.or_false]
          · simp only [hc, if_false, not_false_eq_true, decide_True, Bool.or_true]
      · simp only
        rw [foldl_counters (hasCrossing env n) _ InternalVars.lno InternalVars.splitNo
          InternalVars.into
          (fun lno sp w d =>
            w.put (internalNodeItems env n (countInternalLanes env.nodes edges n) lno sp d))]
        · simp only [Nat.zero_add]
          exact foldl_put_flatMap _ _ _
        · intro v d
          unfold writeInternalNodes_body
          simp only [mkConnection]
          split <;> rfl
        · intro v d
          unfold writeInternalNodes_body hasCrossing
          simp only [mkConnection]
          by_cases hc : env.getCrossingPosition n d.1 d.2.1 d.2.2.1 d.2.2.2 ≤ 0
          · simp only [hc, not_true_eq_false, decide_False, Bool.false_eq_true, if_false,
              if_true, Nat.add_zero]
          · simp only [hc, not_false_eq_true, decide_True, if_true, if_false]
        · intro v d
          unfold writeInternalNodes_body internalNodeItems
          simp only [mkConnection]
          by_cases hc : env.getCrossingPosition n d.1 d.2.1 d.2.2.1 d.2.2.2 ≤ 0
          · simp only [if_pos hc]
            exact (Writer.put_nil _).symm
          · simp only [if_neg hc]
            by_cases hf : (env.getCrossingSourcesNames_dividedBySpace n d.1 d.2.1 d.2.2.1
                d.2.2.2).length ≠ 0
            · simp only [if_pos hf, Writer.put_put, List.cons_append, List.nil_append]
            · simp only [if_neg hf, Writer.put_put, List.cons_append, List.nil_append]
    · intro i j v k hk
      unfold writeInternalNodes_body
      rw [hk]
    · intro i j v k t hk
      unfold writeInternalNodes_body
      simp only [mkConnection, hk]


/-- Claim C7: whatever crossing positions the right-of-way engine returns,
`writeInternalEdges`, `writeJunction` and `writeInternalNodes` give the same
running index to every pair of an incoming lane and a connection with a
destination edge: the pair at position `k` of these pairs, taken in the order
of the nested loops, has the index `k` in all three.  `writeInternalEdges`
writes for it the primary internal edge `:<node>_k`; `writeJunction` writes
for it into `intLanes` the lane `:<node>_k_0` when its crossing position is
`<= 0`, and the lane of the counter `o` otherwise; `writeInternalNodes` writes
for it, when its crossing position is not `<= 0`, the internal junction whose
first incoming lane is `:<node>_k_0`.  What the three functions write, and
the flags they return, is made of these parts, pair after pair. -/
theorem internal_lane_index_agrees (env : WriteEnv) (edges : EdgeTable)
    (intoE intoJ intoN : Writer) (n : NodePtr) :
    writeInternalEdges env edges intoE n
      = (decide (destinationPairs env.nodes edges n ≠ []),
         (destinationPairs env.nodes edges n).enum.foldl (fun w kd =>
           writePairEdges env edges n (countInternalLanes env.nodes edges n) kd.1
             (((destinationPairs env.nodes edges n).take kd.1).countP (isSplit env n)) w kd.2)
           intoE) ∧
    (∃ incLanes : List Item,
      writeJunction env edges intoJ n
        = intoJ.put ([Item.openTag SumoXMLTag.SUMO_TAG_JUNCTION,
            Item.str (" id=\"" ++ (env.nodes n).id ++ "\""),
            Item.str (" type=\"" ++ env.toStringNodeType
              (if (env.nodes n).incoming.any
                  (fun i => decide ((edges i).getConnections.length > 0))
                then (env.nodes n).type else SumoXMLNodeType.NODETYPE_DEAD_END) ++ "\""),
            Item.str " x=\"", Item.real (env.nodes n).position.1, Item.str "\" y=\"",
            Item.real (env.nodes n).position.2, Item.str "\"", Item.str " incLanes=\""] ++
          incLanes ++ [Item.str "\"", Item.str " intLanes=\""] ++
          (if env.options.no_internal_links = false then
            (destinationPairs env.nodes edges n).enum.flatMap fun kd =>
              junctionPairItems env n kd.1
                (countInternalLanes env.nodes edges n +
                  ((destinationPairs env.nodes edges n).take kd.1).countP (hasCrossing env n))
                kd.2
          else []) ++
          [Item.str "\"", Item.str " shape=\"", Item.positionVector (env.nodes n).shape,
            Item.str "\">\n"] ++ env.writeLogic n ++ [Item.closeTag false])) ∧
    writeInternalNodes env edges intoN n
      = ((destinationPairs env.nodes edges n).any (hasCrossing env n),
         intoN.put ((destinationPairs env.nodes edges n).enum.flatMap fun kd =>
           internalNodeItems env n (countInternalLanes env.nodes edges n) kd.1
             (((destinationPairs env.nodes edges n).take kd.1).countP (hasCrossing env n))
             kd.2)) ∧
    (∀ (k : Nat) (d : EdgePtr × Nat × EdgePtr × Nat),
      (k, d) ∈ (destinationPairs env.nodes edges n).enum
        ↔ (destinationPairs env.nodes edges n)[k]? = some d) ∧
    (∀ (c k s : Nat) (w : Writer) (d : EdgePtr × Nat × EdgePtr × Nat),
      writePairEdges env edges n c k s w d
        = if env.getCrossingPosition n d.1 d.2.1 d.2.2.1 d.2.2.2 ≥ 0 then
            writeInternalEdge env
              (writeInternalEdge env
                (if (env.computeInternalLaneShape n d.1 d.2.1 d.2.2.1 d.2.2.2).length ≥ 2 then w
                  else w.fail "assert(shape.size() >= 2)")
                (":" ++ (env.nodes n).id ++ "_" ++ toString k)
                (internalVmax env edges d.1 d.2.1 d.2.2.1 d.2.2.2)
                (env.splitAt (env.computeInternalLaneShape n d.1 d.2.1 d.2.2.1 d.2.2.2)
                  (env.getCrossingPosition n d.1 d.2.1 d.2.2.1 d.2.2.2)).1)
              (":" ++ (env.nodes n).id ++ "_" ++ toString (s + c))
              (internalVmax env edges d.1 d.2.1 d.2.2.1 d.2.2.2)
              (env.splitAt (env.computeInternalLaneShape n d.1 d.2.1 d.2.2.1 d.2.2.2)
                (env.getCrossingPosition n d.1 d.2.1 d.2.2.1 d.2.2.2)).2
          else
            writeInternalEdge env
              (if (env.computeInternalLaneShape n d.1 d.2.1 d.2.2.1 d.2.2.2).length ≥ 2 then w
                else w.fail "assert(shape.size() >= 2)")
              (":" ++ (env.nodes n).id ++ "_" ++ toString k)
              (internalVmax env edges d.1 d.2.1 d.2.2.1 d.2.2.2)
              (env.computeInternalLaneShape n d.1 d.2.1 d.2.2.1 d.2.2.2)) ∧
    (∀ (k o : Nat) (d : EdgePtr × Nat × EdgePtr × Nat),
      junctionPairItems env n k o d
        = (if k ≠ 0 then [Item.str " "] else []) ++
            (if env.getCrossingPosition n d.1 d.2.1 d.2.2.1 d.2.2.2 ≤ 0 then
              [Item.str (":" ++ (env.nodes n).id ++ "_" ++ toString k ++ "_0")]
            else [Item.str (":" ++ (env.nodes n).id ++ "_" ++ toString o ++ "_0")])) ∧
    (∀ (c k s : Nat) (d : EdgePtr × Nat × EdgePtr × Nat),
      internalNodeItems env n c k s d
        = if env.getCrossingPosition n d.1 d.2.1 d.2.2.1 d.2.2.2 ≤ 0 then []
          else
            [Item.openTag SumoXMLTag.SUMO_TAG_JUNCTION,
              Item.str (" id=\"" ++ (":" ++ (env.nodes n).id ++ "_" ++ toString (s + c) ++ "_0") ++
                "\""),
              Item.str (" type=\"" ++ env.toStringNodeType SumoXMLNodeType.NODETYPE_INTERNAL ++
                "\""),
              Item.str " x=\"",
              Item.real (env.positionAtLengthPosition
                (env.computeInternalLaneShape n d.1 d.2.1 d.2.2.1 d.2.2.2)
                (env.getCrossingPosition n d.1 d.2.1 d.2.2.1 d.2.2.2)).1,
              Item.str "\" y=\"",
              Item.real (env.positionAtLengthPosition
                (env.computeInternalLaneShape n d.1 d.2.1 d.2.2.1 d.2.2.2)
                (env.getCrossingPosition n d.1 d.2.1 d.2.2.1 d.2.2.2)).2,
              Item.str "\"", Item.str " incLanes=\"",
              Item.str
                (if (env.getCrossingSourcesNames_dividedBySpace n d.1 d.2.1 d.2.2.1
                    d.2.2.2).length ≠ 0 then
                  ":" ++ (env.nodes n).id ++ "_" ++ toString k ++ "_0" ++ " " ++
                    env.getCrossingSourcesNames_dividedBySpace n d.1 d.2.1 d.2.2.1 d.2.2.2
                else ":" ++ (env.nodes n).id ++ "_" ++ toString k ++ "_0"),
              Item.str "\"",
              Item.str (" intLanes=\"" ++
                env.getCrossingNames_dividedBySpace n d.1 d.2.1 d.2.2.1 d.2.2.2 ++ "\""),
              Item.str " shape=\"\"", Item.closeTag true]) := by
  refine ⟨writeInternalEdges_pairs env edges intoE n, ?_, writeInternalNodes_pairs env edges intoN n,
    fun k d => List.mk_mem_enum_iff_getElem?, fun _ _ _ _ _ => rfl, fun _ _ _ => rfl,
    fun _ _ _ _ => rfl⟩
  obtain ⟨inc, hinc⟩ := writeIncLanes_put edges (env.nodes n).incoming
    (intoJ.put [Item.openTag SumoXMLTag.SUMO_TAG_JUNCTION,
      Item.str (" id=\"" ++ (env.nodes n).id ++ "\""),
      Item.str (" type=\"" ++ env.toStringNodeType
        (if (env.nodes n).incoming.any
            (fun i => decide ((edges i).getConnections.length > 0))
          then (env.nodes n).type else SumoXMLNodeType.NODETYPE_DEAD_END) ++ "\""),
      Item.str " x=\"", Item.real (env.nodes n).position.1, Item.str "\" y=\"",
      Item.real (env.nodes n).position.2, Item.str "\"", Item.str " incLanes=\""])
  refine ⟨inc, ?_⟩
  rw [writeJunction_pairs, hinc, Writer.put_put, Writer.put_put]
  simp only [List.append_assoc]


/-! ### Internal edges and internal connections, element by element -/

theorem laneConnections_withoutDangling (nodes : NodeTable) (edges : EdgeTable) (n : NodePtr) :
    laneConnections nodes (withoutDangling edges) n
      = (laneConnections nodes edges n).filter fun p => p.2.2.toEdge.isSome := by
  unfold laneConnections
  rw [List.filter_flatMap]
  apply flatMap_congr_mem
  intro i _
  rw [List.filter_flatMap]
  apply flatMap_congr_mem
  intro j _
  rw [List.filter_map]
  congr 1
  unfold NBEdge.getConnectionsFromLane withoutDangling
  simp only [List.filter_filter]
  apply List.filter_congr
  intro c _
  simp only [Function.comp, Bool.and_comm]

theorem destinationPairs_withoutDangling (nodes : NodeTable) (edges : EdgeTable) (n : NodePtr) :
    destinationPairs nodes (withoutDangling edges) n = destinationPairs nodes edges n := by
  unfold destinationPairs
  rw [laneConnections_withoutDangling, List.filterMap_filter]
  congr 1
  funext p
  cases hp : p.2.2.toEdge with
  | none => simp
  | some t => simp

theorem countInternalLanes_withoutDangling (nodes : NodeTable) (edges : EdgeTable)
    (n : NodePtr) :
    countInternalLanes nodes (withoutDangling edges) n = countInternalLanes nodes edges n := by
  rw [destinationPairs_length, destinationPairs_length, destinationPairs_withoutDangling]

theorem writeIncLanes_withoutDangling (edges : EdgeTable) (l : List EdgePtr) (into : Writer) :
    writeIncLanes (withoutDangling edges) l into = writeIncLanes edges l into := by
  induction l generalizing into with
  | nil => rfl
  | cons i l ih =>
    simp only [writeIncLanes, ih]
    rfl

theorem writeInternalEdges_withoutDangling (env : WriteEnv) (edges : EdgeTable) (into : Writer)
    (n : NodePtr) :
    writeInternalEdges env (withoutDangling edges) into n = writeInternalEdges env edges into n := by
  rw [writeInternalEdges_pairs, writeInternalEdges_pairs, destinationPairs_withoutDangling,
    countInternalLanes_withoutDangling]
  rfl

theorem writeInternalNodes_withoutDangling (env : WriteEnv) (edges : EdgeTable) (into : Writer)
    (n : NodePtr) :
    writeInternalNodes env (withoutDangling edges) into n = writeInternalNodes env edges into n := by
  rw [writeInternalNodes_pairs, writeInternalNodes_pairs, destinationPairs_withoutDangling,
    countInternalLanes_withoutDangling]

theorem writeJunction_withoutDangling (env : WriteEnv) (edges : EdgeTable) (into : Writer)
    (n : NodePtr)
    (htype : (∃ i ∈ (env.nodes n).incoming, (edges i).connections ≠ []) →
      ∃ i ∈ (env.nodes n).incoming, ∃ c ∈ (edges i).connections, c.toEdge ≠ none) :
    writeJunction env (withoutDangling edges) into n = writeJunction env edges into n := by
  have hany : ((env.nodes n).incoming.any
        fun i => decide ((withoutDangling edges i).getConnections.length > 0))
      = ((env.nodes n).incoming.any fun i => decide ((edges i).getConnections.length > 0)) := by
    rw [Bool.eq_iff_iff]
    simp only [List.any_eq_true, decide_eq_true_eq, NBEdge.getConnections, gt_iff_lt,
      List.length_pos]
    constructor
    · rintro ⟨i, hi, hne⟩
      refine ⟨i, hi, ?_⟩
      intro h
      apply hne
      show List.filter _ (edges i).connections = []
      rw [h]
      rfl
    · intro h
      obtain ⟨i, hi, c, hc, hto⟩ := htype h
      refine ⟨i, hi, ?_⟩
      apply List.ne_nil_of_mem
      show c ∈ List.filter _ (edges i).connections
      rw [List.mem_filter]
      refine ⟨hc, ?_⟩
      cases hce : c.toEdge with
      | none => exact absurd hce hto
      | some t => rfl
  rw [writeJunction_pairs, writeJunction_pairs, destinationPairs_withoutDangling,
    countInternalLanes_withoutDangling, writeIncLanes_withoutDangling, hany]


theorem writeNetwork_elements_withoutDangling (env : WriteEnv) (oc : OptionsCont)
    (nb : NBNetBuilder) (edges : EdgeTable) (device : Writer)
    (htype : ∀ i ∈ nb.nodeCont,
      (∃ e ∈ (env.nodes i.2).incoming, (edges e).connections ≠ []) →
        ∃ e ∈ (env.nodes i.2).incoming, ∃ c ∈ (edges e).connections, c.toEdge ≠ none) :
    writeNetwork_elements env oc nb (withoutDangling edges) device
      = writeNetwork_elements env oc nb edges device := by
  have hE : writeEdge env (withoutDangling edges) = writeEdge env edges := rfl
  have hJ : ∀ w, nb.nodeCont.foldl
        (fun device i => writeJunction env (withoutDangling edges) device i.2) w
      = nb.nodeCont.foldl (fun device i => writeJunction env edges device i.2) w :=
    fun w => List.foldl_ext _ _ _
      (fun a i hi => writeJunction_withoutDangling env edges a i.2 (htype i hi))
  unfold writeNetwork_elements
  simp only [writeInternalEdges_withoutDangling, writeInternalNodes_withoutDangling, hE, hJ]

/-- Claim C13, amended: when an output file is set, nothing that
`writeNetwork` writes before the connections fails, every connection that is
written has a direction, and some edge of the edge container has a connection
without destination edge, then `writeNetwork` fails with the assertion of
`writeConnection` about the destination edge.  The output then holds what was
written before the connections and, of the connections in the order of the
loop, one connection element for each connection before the first one without
destination edge: nothing for that connection and nothing after it.  The
functions that write the sections before skip such a connection silently: for
every node `writeInternalEdges` and `writeInternalNodes` write what they write
for the graph without the connections that have no destination edge, and so
does `writeJunction`, unless the incoming edges of the node have connections
but none with a destination edge; when no node of the node container is of
that kind, all that `writeNetwork` writes before the connections is what it
writes there for the graph without these connections. -/
theorem dangling_connection_is_fatal (env : WriteEnv) (oc : OptionsCont) (nb : NBNetBuilder)
    (s : NetState) (hout : oc.output_file.isSome)
    (helem : (writeNetwork_elements env oc nb s.edges s.into).failure = none)
    (hdir : ∀ p ∈ (allConnections s.edges nb.edgeCont).takeWhile (fun p => p.2.toEdge.isSome),
      ∀ t, p.2.toEdge = some t →
        env.getDirection (s.edges p.1).toNode p.1 t ≠ LinkDirection.LINKDIR_NODIR)
    (hdangling : ∃ it ∈ nb.edgeCont, ∃ c ∈ (s.edges it.2).connections, c.toEdge = none) :
    (writeNetwork env oc nb s).into
      = { into := (writeNetwork_elements env oc nb s.edges s.into).into ++
            ((allConnections s.edges nb.edgeCont).takeWhile fun p => p.2.toEdge.isSome).flatMap
              fun p => connectionItems env s.edges p.1 p.2 (!oc.no_internal_links),
          warnings := (writeNetwork_elements env oc nb s.edges s.into).warnings,
          failure := some "assert(c.toEdge != 0)" } ∧
    (∀ (into : Writer) (n : NodePtr),
      writeInternalEdges env s.edges into n
        = writeInternalEdges env (withoutDangling s.edges) into n) ∧
    (∀ (into : Writer) (n : NodePtr),
      writeInternalNodes env s.edges into n
        = writeInternalNodes env (withoutDangling s.edges) into n) ∧
    (∀ (into : Writer) (n : NodePtr),
      ((∃ i ∈ (env.nodes n).incoming, (s.edges i).connections ≠ []) →
        ∃ i ∈ (env.nodes n).incoming, ∃ c ∈ (s.edges i).connections, c.toEdge ≠ none) →
      writeJunction env s.edges into n = writeJunction env (withoutDangling s.edges) into n) ∧
    (∀ device : Writer,
      (∀ i ∈ nb.nodeCont,
        (∃ e ∈ (env.nodes i.2).incoming, (s.edges e).connections ≠ []) →
          ∃ e ∈ (env.nodes i.2).incoming, ∃ c ∈ (s.edges e).connections, c.toEdge ≠ none) →
      writeNetwork_elements env oc nb s.edges device
        = writeNetwork_elements env oc nb (withoutDangling s.edges) device) ∧
    (∀ p : EdgePtr, withoutDangling s.edges p
      = { s.edges p with
          connections := (s.edges p).connections.filter fun c => c.toEdge.isSome }) := by
  have hW : (writeConnections env nb (!oc.no_internal_links)
      { into := writeNetwork_elements env oc nb s.edges s.into, edges := s.edges }).2.into
      = { into := (writeNetwork_elements env oc nb s.edges s.into).into ++
            ((allConnections s.edges nb.edgeCont).takeWhile fun p => p.2.toEdge.isSome).flatMap
              fun p => connectionItems env s.edges p.1 p.2 (!oc.no_internal_links),
          warnings := (writeNetwork_elements env oc nb s.edges s.into).warnings,
          failure := some "assert(c.toEdge != 0)" } := by
    unfold writeConnections
    rw [foldl_writeConnections_edge]
    simp only
    rw [foldl_writeConnection env s.edges _ _ hdir _ helem,
      allConnections_dangling s.edges nb.edgeCont hdangling]
    simp
  refine ⟨?_, fun into n => (writeInternalEdges_withoutDangling env s.edges into n).symm,
    fun into n => (writeInternalNodes_withoutDangling env s.edges into n).symm,
    fun into n h => (writeJunction_withoutDangling env s.edges into n h).symm,
    fun device h => (writeNetwork_elements_withoutDangling env oc nb s.edges device h).symm,
    fun _ => rfl⟩
  rw [writeNetwork_of_failed_connections env oc nb s hout (by rw [hW]; rfl), hW]

set_option maxRecDepth 100000 in
/-- The graph of `danglingEdges`: `writeNetwork` fails at the connection of
edge 1 without destination edge; of the three connections of the edge only the
one before it is written, the one from lane 1 after it is not. -/
theorem dangling_connection_is_fatal_witness :
    crossedEnv.options.output_file.isSome ∧
    (writeNetwork_elements crossedEnv crossedEnv.options crossedNet danglingEdges
      emptyWriter).failure = none ∧
    (∀ p ∈ (allConnections danglingEdges crossedNet.edgeCont).takeWhile
        (fun p => p.2.toEdge.isSome),
      ∀ t, p.2.toEdge = some t →
        crossedEnv.getDirection (danglingEdges p.1).toNode p.1 t
          ≠ LinkDirection.LINKDIR_NODIR) ∧
    (∃ it ∈ crossedNet.edgeCont, ∃ c ∈ (danglingEdges it.2).connections, c.toEdge = none) ∧
    (writeNetwork crossedEnv crossedEnv.options crossedNet
        { into := emptyWriter, edges := danglingEdges }).into
      = { into := (writeNetwork_elements crossedEnv crossedEnv.options crossedNet danglingEdges
            emptyWriter).into ++
            [Item.openTag SumoXMLTag.SUMO_TAG_CONNECTION,
              Item.writeAttr SumoXMLAttr.SUMO_ATTR_FROM "1",
              Item.writeAttr SumoXMLAttr.SUMO_ATTR_TO "2",
              Item.str " ", Item.attrName SumoXMLAttr.SUMO_ATTR_LANE, Item.str "=\"0:0\"",
              Item.writeAttr SumoXMLAttr.SUMO_ATTR_VIA "_0",
              Item.writeAttr SumoXMLAttr.SUMO_ATTR_DIR "s",
              Item.writeAttr SumoXMLAttr.SUMO_ATTR_STATE "M", Item.closeTag true],
          warnings := [],
          failure := some "assert(c.toEdge != 0)" } ∧
    writeInternalEdges crossedEnv danglingEdges emptyWriter 0
      = writeInternalEdges crossedEnv (withoutDangling danglingEdges) emptyWriter 0 :=
  ⟨rfl, by with_unfolding_all decide,
    fun _ _ _ _ => by
      show LinkDirection.LINKDIR_STRAIGHT ≠ LinkDirection.LINKDIR_NODIR
      decide,
    ⟨("1", 1), by with_unfolding_all decide, mkConnection 0 none 0,
      by with_unfolding_all decide, rfl⟩,
    (dangling_connection_is_fatal crossedEnv crossedEnv.options crossedNet
      { into := emptyWriter, edges := danglingEdges } rfl (by with_unfolding_all decide)
      (fun _ _ _ _ => by
        show LinkDirection.LINKDIR_STRAIGHT ≠ LinkDirection.LINKDIR_NODIR
        decide)
      ⟨("1", 1), by with_unfolding_all decide, mkConnection 0 none 0,
        by with_unfolding_all decide, rfl⟩).1.trans (by with_unfolding_all decide),
    (dangling_connection_is_fatal crossedEnv crossedEnv.options crossedNet
      { into := emptyWriter, edges := danglingEdges } rfl (by with_unfolding_all decide)
      (fun _ _ _ _ => by
        show LinkDirection.LINKDIR_STRAIGHT ≠ LinkDirection.LINKDIR_NODIR
        decide)
      ⟨("1", 1), by with_unfolding_all decide, mkConnection 0 none 0,
        by with_unfolding_all decide, rfl⟩).2.1 emptyWriter 0⟩


end PlexeSumo
